import Mathlib

/-!
# GridClientImpl: topology refresh, listener dispatch, projection cache, shutdown

A shallow embedding of `modules/clients/cpp/main/src/impl/gridclientimpl.cpp`.

The client object is a record of its member variables.  Its collaborators (the command
executor, the request-id generator and the registered topology listeners) are external code:
they are an arbitrary record of functions over an arbitrary state `ω`, so that the outcome of a
command or of a callback may depend on everything that happened before it.  Every call that
leaves the client (a topology command, a listener callback, an invalidation, an error log
record, ...) is appended to the ghost field `trace`, in program order.  Debug log records are
not recorded.
-/

namespace GridGain

/-! ## Data model -/

/-- A unique identifier (`GridClientUuid`); only equality and order of identifiers matter. -/
abbrev GridClientUuid := Nat

/-- Host and port of a server or router (`GridClientSocketAddress`). -/
structure GridClientSocketAddress where
  host : String
  port : Nat
deriving DecidableEq, Repr

/-- A grid node (`GridClientNode`): its id (a `GridClientUuid`), and `content` standing for
everything else it carries (attributes, metrics, addresses). -/
structure GridClientNode where
  nodeId : Nat
  content : Nat
deriving DecidableEq, Repr

/-- A `std::vector` of nodes, as returned by `GridClientMessageTopologyResult::getNodes`. -/
abbrev TNodesList := List GridClientNode

/-- A `std::set` of nodes, kept as the list of its elements in iteration order.  A well-formed
set is strictly ascending for the set's ordering, see `IsNodesSet`. -/
abbrev TNodesSet := List GridClientNode

/-- Modelled from the spec: the node ordering (`ClientNodeComparator`, and the ordering of
`TNodesSet` itself) is declared in headers that are not part of the sources; the specification
says that equality and ordering for topology-diff purposes are defined solely by node id. -/
def ClientNodeComparator (n1 n2 : GridClientNode) : Bool :=
  decide (n1.nodeId < n2.nodeId)

/-- Strictly ascending by node id: the representation invariant of a `std::set` of nodes. -/
def IsNodesSet (s : TNodesSet) : Prop :=
  s.Pairwise (fun a b => a.nodeId < b.nodeId)

instance (s : TNodesSet) : Decidable (IsNodesSet s) := by
  unfold IsNodesSet; infer_instance

/-- The method `std::set::insert(value)`: the element is placed at its position in the
ordering; when an equivalent element (same id) is already present the set is left as it is. -/
def TNodesSet.insert (n : GridClientNode) : TNodesSet → TNodesSet
  | [] => [n]
  | m :: ms =>
    if ClientNodeComparator n m then n :: m :: ms
    else if ClientNodeComparator m n then m :: TNodesSet.insert n ms
    else m :: ms

/-- Range insertion `s.insert(first, last)`, also what writing a range through
`std::inserter(s, s.begin())` does: the elements are inserted one by one, in order. -/
def TNodesSet.insertRange (s : TNodesSet) (l : List GridClientNode) : TNodesSet :=
  l.foldl (fun acc n => TNodesSet.insert n acc) s

/-- The algorithm `std::set_difference(first1, last1, first2, last2, out, comp)` with
`comp = ClientNodeComparator`, returning the sequence written to `out`:
```
while (first1 != last1 && first2 != last2)
  if (comp(*first1, *first2)) *out++ = *first1++;
  else if (comp(*first2, *first1)) ++first2;
  else { ++first1; ++first2; }
return copy(first1, last1, out);
```
The recursion is on the first range, with an inner scan of the second one;
`set_difference_cons_cons` below restates it as the loop body above. -/
def set_difference : List GridClientNode → List GridClientNode → List GridClientNode
  | [], _ => []
  | a :: as, l2 => scan a as (set_difference as) l2
where
  /-- The loop of `set_difference` while `*first1 = a`: advances in the second range. -/
  scan (a : GridClientNode) (as : List GridClientNode)
      (rest : List GridClientNode → List GridClientNode) :
      List GridClientNode → List GridClientNode
  | [] => a :: as
  | b :: bs =>
    if ClientNodeComparator a b then a :: rest (b :: bs)
    else if ClientNodeComparator b a then scan a as rest bs
    else rest bs

/-- A topology listener is held by shared pointer and compared by pointer
(`TGridClientTopologyListenerPtr`); the number is the address of the listener object. -/
abbrev TGridClientTopologyListenerPtr := Nat

/-- The list type `TGridClientTopologyListenerList`. -/
abbrev TGridClientTopologyListenerList := List TGridClientTopologyListenerPtr

/-- The exception class `GridClientException` with its message. -/
structure GridClientException where
  what : String
deriving DecidableEq, Repr

deriving instance DecidableEq for Except

/-- What a listener callback may raise, by the handler of `fireNodeAdded` / `fireNodeRemoved`
that receives it: anything derived from `std::exception` (`GridClientException` included), or
any other object, received by `catch (...)`. -/
inductive Thrown where
  | stdException (what : String)
  | other
deriving DecidableEq, Repr

/-- The command `GridTopologyRequestCommand`, with the fields that `refreshTopology` sets. -/
structure GridTopologyRequestCommand where
  includeAttributes : Bool
  includeMetrics : Bool
  clientId : GridClientUuid
  requestId : Nat
deriving DecidableEq, Repr

/-- The part of `GridClientConfiguration` that the client reads. -/
structure GridClientConfiguration where
  servers : List GridClientSocketAddress
  routers : List GridClientSocketAddress
  topologyListeners : TGridClientTopologyListenerList
  topologyRefreshFrequency : Nat
  threadPoolSize : Nat
  /-- The value of `protocolConfiguration().uuid()`. -/
  uuid : GridClientUuid
deriving DecidableEq, Repr

/-- Address of a projection object on the heap; two handles denote the identical instance
exactly when the addresses are equal. -/
abbrev PrjPtr := Nat

/-- Modelled from the spec: the type of `mainDataPrjs` (`TDataPrjMap`) is declared in a header
that is not part of the sources; the specification calls it the projection cache map, keyed by
cache name.  It is taken as a `std::map` with the ordering of `std::string`, and kept as the
list of its entries in iteration order, which is ascending key order; a well-formed map is
strictly ascending, see `IsDataPrjMap`. -/
abbrev TDataPrjMap := List (String × PrjPtr)

/-- Strictly ascending by key: the representation invariant of the map. -/
def IsDataPrjMap (m : TDataPrjMap) : Prop :=
  m.Pairwise (fun a b => a.1 < b.1)

/-- The comparison of the keys, `std::less<std::string>`: lexicographic, character by
character. -/
def TDataPrjMap.key_comp (a b : String) : Bool :=
  decide (a.toList < b.toList)

/-- The method `std::map::insert(value)`: the entry is placed at the position of its key in
the ordering; when the key is present the map is left as it is. -/
def TDataPrjMap.insert (entry : String × PrjPtr) : TDataPrjMap → TDataPrjMap
  | [] => [entry]
  | e :: es =>
    if TDataPrjMap.key_comp entry.1 e.1 then entry :: e :: es
    else if TDataPrjMap.key_comp e.1 entry.1 then e :: TDataPrjMap.insert entry es
    else e :: es

/-- The constructor arguments of a projection object that vary: a data projection
(`GridClientDataProjectionImpl`: cache name, node predicate, cache flags) or a compute
projection (`GridClientComputeProjectionImpl`: node predicate, load balancer).  A predicate or
balancer that is `none` is the null pointer. -/
inductive ProjectionImpl where
  | data (cacheName : String) (filter : Option Nat) (flags : List Nat)
  | compute (filter : Option Nat) (balancer : Option Nat)
deriving DecidableEq, Repr

/-- Modelled from the spec: the projection classes are not part of the sources.  A projection
object is what it was constructed with, and the number of `invalidate()` calls it has received
(none when it is constructed); it is in the invalidated state when that number is positive. -/
structure ProjectionObject where
  impl : ProjectionImpl
  invalidations : Nat
deriving DecidableEq, Repr

/-- A projection is in the invalidated state once `invalidate()` has been called on it. -/
def ProjectionObject.invalidated (p : ProjectionObject) : Bool :=
  decide (0 < p.invalidations)

/-- The calls that leave the client, as recorded in the trace. -/
inductive Effect where
  | newSharedData (uuid : GridClientUuid)
  | newTopologyRefresher (frequency : Nat)
  | newThreadPool (size : Nat)
  | refresherDestroyed
  | newDataProjection (p : PrjPtr) (cacheName : String)
  | newComputeProjection (p : PrjPtr)
  | invalidate (p : PrjPtr)
  | executorStop
  | threadPoolShutdown
  | executeTopologyCmd (addr : GridClientSocketAddress) (rqst : GridTopologyRequestCommand)
      (rslt : Except GridClientException TNodesList)
  | topologyUpdate (nodes : TNodesSet)
  | onNodeAdded (lsnr : TGridClientTopologyListenerPtr) (node : GridClientNode)
  | onNodeRemoved (lsnr : TGridClientTopologyListenerPtr) (node : GridClientNode)
  | logError (message : String)
deriving DecidableEq

/-- The external collaborators, over their own state `ω`.
* `executeTopologyCmd`: the executor runs a topology command against an address; it yields the
  node list of the response, or fails with a `GridClientException`.
* `generateNewId`: the request-id generator of the command.
* `executorStop`: the executor is told to stop.
* `onNodeAdded`, `onNodeRemoved`: the callback of the listener object at the given address;
  it returns (`none`) or raises.  A callback may change the state `ω`; it does not call back
  into the client. -/
structure Collaborators (ω : Type) where
  executeTopologyCmd : ω → GridClientSocketAddress → GridTopologyRequestCommand →
    Except GridClientException TNodesList × ω
  generateNewId : ω → Nat × ω
  executorStop : ω → ω
  onNodeAdded : ω → TGridClientTopologyListenerPtr → GridClientNode → Option Thrown × ω
  onNodeRemoved : ω → TGridClientTopologyListenerPtr → GridClientNode → Option Thrown × ω

/-- The member variables of `GridClientImpl`, the state of its collaborators and the trace.
* `cfg`, `clientUuid`, `topology`: the content of `sharedData`;
* `topRefresher`: the refresher with its frequency, `none` once it has been reset;
* `threadPoolRunning`: false once `threadPool->shutdown()` has been called;
* `mainDataPrjs`: the map from cache name to data projection, as its entries in iteration
  order (ascending by key);
* `heap`: the projection objects constructed so far; a `PrjPtr` is an index into it. -/
structure GridClientImpl (ω : Type) where
  cfg : GridClientConfiguration
  clientUuid : GridClientUuid
  topology : TNodesSet
  topRefresher : Option Nat
  threadPoolRunning : Bool
  topLsnrs : TGridClientTopologyListenerList
  mainDataPrjs : TDataPrjMap
  mainComputePrj : Option PrjPtr
  heap : List ProjectionObject
  world : ω
  trace : List Effect

namespace GridClientImpl

variable {ω : Type}

/-! ## Operations -/

/-- Appends one record to the trace. -/
def emit (e : Effect) (c : GridClientImpl ω) : GridClientImpl ω :=
  { c with trace := c.trace ++ [e] }

/-- The macro `GG_LOG_ERROR`. -/
def logError (message : String) (c : GridClientImpl ω) : GridClientImpl ω :=
  emit (Effect.logError message) c

/-- The accessor `GridClientImpl::id`. -/
def id (c : GridClientImpl ω) : GridClientUuid :=
  c.clientUuid

/-- The method `GridClientImpl::addTopologyListener`: `topLsnrs.push_back(lsnr)`. -/
def addTopologyListener (lsnr : TGridClientTopologyListenerPtr) (c : GridClientImpl ω) :
    GridClientImpl ω :=
  { c with topLsnrs := c.topLsnrs ++ [lsnr] }

/-- The method `GridClientImpl::removeTopologyListener`:
`topLsnrs.erase(std::find(topLsnrs.begin(), topLsnrs.end(), lsnr))`.  The position found is
the index of the first occurrence, or the length of the list (`end()`) when there is none;
erasing at `end()` is undefined behaviour, for which the result is `none`. -/
def removeTopologyListener (lsnr : TGridClientTopologyListenerPtr) (c : GridClientImpl ω) :
    Option (GridClientImpl ω) :=
  let it := c.topLsnrs.indexOf lsnr
  if it < c.topLsnrs.length then some { c with topLsnrs := c.topLsnrs.eraseIdx it }
  else none

/-- The method `GridClientImpl::topologyListeners`: a copy of the listener list. -/
def topologyListeners (c : GridClientImpl ω) : TGridClientTopologyListenerList :=
  c.topLsnrs

/-- The operator `new`: the object is placed at the next free address of the heap. -/
def allocate (impl : ProjectionImpl) (c : GridClientImpl ω) : PrjPtr × GridClientImpl ω :=
  (c.heap.length, { c with heap := c.heap ++ [{ impl := impl, invalidations := 0 }] })

/-- The method `GridClientImpl::getOrCreateDataProjection`. -/
def getOrCreateDataProjection (cacheName : String) (c : GridClientImpl ω) :
    PrjPtr × GridClientImpl ω :=
  match c.mainDataPrjs.lookup cacheName with
  | some prj => (prj, c)
  | none =>
    let (prjImpl, c1) := allocate (ProjectionImpl.data cacheName none []) c
    let c2 := emit (Effect.newDataProjection prjImpl cacheName) c1
    (prjImpl, { c2 with mainDataPrjs := TDataPrjMap.insert (cacheName, prjImpl) c2.mainDataPrjs })

/-- The method `GridClientImpl::data(const std::string&)`. -/
def data (cacheName : String) (c : GridClientImpl ω) : PrjPtr × GridClientImpl ω :=
  getOrCreateDataProjection cacheName c

/-- The method `GridClientImpl::data()`, for the default cache. -/
def dataDefault (c : GridClientImpl ω) : PrjPtr × GridClientImpl ω :=
  getOrCreateDataProjection "" c

/-- The method `GridClientImpl::compute`. -/
def compute (c : GridClientImpl ω) : PrjPtr × GridClientImpl ω :=
  match c.mainComputePrj with
  | none =>
    let (p, c1) := allocate (ProjectionImpl.compute none none) c
    let c2 := emit (Effect.newComputeProjection p) c1
    (p, { c2 with mainComputePrj := some p })
  | some p => (p, c)

/-- The call `prj->invalidate()` on the projection object at address `p`: the call is
recorded in the trace and counted in the object. -/
def invalidate (p : PrjPtr) (c : GridClientImpl ω) : GridClientImpl ω :=
  emit (Effect.invalidate p)
    { c with heap := c.heap.modify (fun o => { o with invalidations := o.invalidations + 1 }) p }

/-- The method `GridClientImpl::stop`. -/
def stop (W : Collaborators ω) (pWait : Bool) (c : GridClientImpl ω) : GridClientImpl ω :=
  let c1 := match c.topRefresher with
    | some _ => emit Effect.refresherDestroyed { c with topRefresher := none }
    | none => c
  let c2 := c1.mainDataPrjs.foldl (fun acc i => invalidate i.2 acc) c1
  let c3 := match c2.mainComputePrj with
    | some p => invalidate p c2
    | none => c2
  let c4 := if !pWait then emit Effect.executorStop { c3 with world := W.executorStop c3.world }
    else c3
  emit Effect.threadPoolShutdown { c4 with threadPoolRunning := false }

/-- The loop of `fireNodeAdded` over the local copy of the listener list; what a callback
raises is caught and logged. -/
def notifyNodeAdded (W : Collaborators ω) (node : GridClientNode) :
    TGridClientTopologyListenerList → GridClientImpl ω → GridClientImpl ω
  | [], c => c
  | l :: ls, c =>
    let r := W.onNodeAdded c.world l node
    let c1 := emit (Effect.onNodeAdded l node) { c with world := r.2 }
    let c2 := match r.1 with
      | none => c1
      | some (Thrown.stdException what) =>
        logError ("Got exception from topology listener [what=" ++ what ++ "]") c1
      | some Thrown.other => logError "Got unknown exception from topology listener." c1
    notifyNodeAdded W node ls c2

/-- The method `GridClientImpl::fireNodeAdded`: the listener list is copied under the mutex,
then the callbacks are invoked on the copy. -/
def fireNodeAdded (W : Collaborators ω) (node : GridClientNode) (c : GridClientImpl ω) :
    GridClientImpl ω :=
  let locTopLsnrs := c.topLsnrs
  notifyNodeAdded W node locTopLsnrs c

/-- The loop of `fireNodeRemoved` over the local copy of the listener list. -/
def notifyNodeRemoved (W : Collaborators ω) (node : GridClientNode) :
    TGridClientTopologyListenerList → GridClientImpl ω → GridClientImpl ω
  | [], c => c
  | l :: ls, c =>
    let r := W.onNodeRemoved c.world l node
    let c1 := emit (Effect.onNodeRemoved l node) { c with world := r.2 }
    let c2 := match r.1 with
      | none => c1
      | some (Thrown.stdException what) =>
        logError ("Got exception from topology listener [what=" ++ what ++ "]") c1
      | some Thrown.other => logError "Got unknown exception from topology listener." c1
    notifyNodeRemoved W node ls c2

/-- The method `GridClientImpl::fireNodeRemoved`. -/
def fireNodeRemoved (W : Collaborators ω) (node : GridClientNode) (c : GridClientImpl ω) :
    GridClientImpl ω :=
  let locTopLsnrs := c.topLsnrs
  notifyNodeRemoved W node locTopLsnrs c

/-- The method `GridClientImpl::fireTopologyEvents`. -/
def fireTopologyEvents (W : Collaborators ω) (updNodes prevNodes : TNodesSet)
    (c : GridClientImpl ω) : GridClientImpl ω :=
  let newNodes := TNodesSet.insertRange [] (set_difference updNodes prevNodes)
  let c1 := newNodes.foldl (fun acc i => fireNodeAdded W i acc) c
  let leftNodes := TNodesSet.insertRange [] (set_difference prevNodes updNodes)
  leftNodes.foldl (fun acc i => fireNodeRemoved W i acc) c1

/-- Modelled from the spec: `GridClientTopology::nodes` (the class `GridClientTopology` is not
part of the sources) returns a copy of the current snapshot. -/
def GridClientTopology.nodes (snapshot : TNodesSet) : TNodesSet :=
  snapshot

/-- Modelled from the spec: `GridClientTopology::update` (the class `GridClientTopology` is not
part of the sources) replaces the snapshot by the given set: "an unordered set of Node,
replaced wholesale on every successful refresh; never partially merged". -/
def GridClientTopology.update (_snapshot : TNodesSet) (pNodes : TNodesSet) : TNodesSet :=
  pNodes

/-- The loop of `refreshTopology`:
`for (it = addrs.begin(); !updated && it != addrs.end(); ++it) try ... catch ...`,
from the position whose remaining addresses are the list; it returns `updated`, `last` and
the client. -/
def refreshLoop (W : Collaborators ω) :
    List GridClientSocketAddress → Bool → GridClientException → GridClientImpl ω →
      Bool × GridClientException × GridClientImpl ω
  | [], updated, last, c => (updated, last, c)
  | addr :: rest, updated, last, c =>
    if updated then (updated, last, c)
    else
      let g := W.generateNewId c.world
      let topRqst : GridTopologyRequestCommand :=
        { includeAttributes := false, includeMetrics := false, clientId := id c,
          requestId := g.1 }
      let r := W.executeTopologyCmd g.2 addr topRqst
      let c1 := emit (Effect.executeTopologyCmd addr topRqst r.1) { c with world := r.2 }
      match r.1 with
      | Except.ok nbns =>
        let nodes := TNodesSet.insertRange [] nbns
        let prevNodes := GridClientTopology.nodes c1.topology
        let c2 := emit (Effect.topologyUpdate nodes)
          { c1 with topology := GridClientTopology.update c1.topology nodes }
        let c3 := fireTopologyEvents W nodes prevNodes c2
        refreshLoop W rest true last c3
      | Except.error e => refreshLoop W rest false e c1

/-- The candidate addresses of a refresh: the routers when there are any, else the servers. -/
def candidates (cfg : GridClientConfiguration) : List GridClientSocketAddress :=
  if cfg.routers.length > 0 then cfg.routers else cfg.servers

/-- The method `GridClientImpl::refreshTopology`. -/
def refreshTopology (W : Collaborators ω) (c : GridClientImpl ω) : GridClientImpl ω :=
  let addrs := candidates c.cfg
  if addrs.isEmpty then c
  else
    let r := refreshLoop W addrs false { what := "" } c
    if !r.1 then logError ("Error refreshing the topology: " ++ r.2.1.what) r.2.2
    else r.2.2

/-- The method `GridClientImpl::onNodeIoFailed`. -/
def onNodeIoFailed (W : Collaborators ω) (_n : GridClientNode) (c : GridClientImpl ω) :
    GridClientImpl ω :=
  refreshTopology W c

/-- The method `GridClientTopologyRefresher::onTimerEvent`. -/
def onTimerEvent (W : Collaborators ω) (c : GridClientImpl ω) : GridClientImpl ω :=
  refreshTopology W c

/-- The member initialisers of the constructor, in the order in which they are written:
`sharedData`, `topRefresher`, `threadPool`; the other members are default-constructed. -/
def memberInit (cfg : GridClientConfiguration) (w : ω) : GridClientImpl ω :=
  { cfg := cfg
    clientUuid := cfg.uuid
    topology := []
    topRefresher := some cfg.topologyRefreshFrequency
    threadPoolRunning := true
    topLsnrs := []
    mainDataPrjs := []
    mainComputePrj := none
    heap := []
    world := w
    trace := [Effect.newSharedData cfg.uuid,
      Effect.newTopologyRefresher cfg.topologyRefreshFrequency,
      Effect.newThreadPool cfg.threadPoolSize] }

/-- The constructor `GridClientImpl::GridClientImpl`: the member initialisers, then the body.
The result is the constructed client, or the exception raised; the second component is the
trace up to the return or to the throw (the destructors that run after the throw are not
recorded). -/
def construct (W : Collaborators ω) (cfg : GridClientConfiguration) (w : ω) :
    Except GridClientException (GridClientImpl ω) × List Effect :=
  let c := memberInit cfg w
  if !cfg.servers.isEmpty && !cfg.routers.isEmpty then
    (Except.error
      { what := "Both servers and routers are specified in configuration, which is not allowed." },
      c.trace)
  else
    let c1 := cfg.topologyListeners.foldl (fun acc i => addTopologyListener i acc) c
    let c2 := refreshTopology W c1
    (Except.ok c2, c2.trace)

end GridClientImpl

/-! ## Reading the trace -/

/-- A listener callback record. -/
def Effect.isCallback : Effect → Bool
  | Effect.onNodeAdded _ _ => true
  | Effect.onNodeRemoved _ _ => true
  | _ => false

/-- An error log record. -/
def Effect.isLogError : Effect → Bool
  | Effect.logError _ => true
  | _ => false

/-- A topology command record. -/
def Effect.isCommand : Effect → Bool
  | Effect.executeTopologyCmd _ _ _ => true
  | _ => false

/-- The listener callbacks of a trace, in order. -/
def callbacks (t : List Effect) : List Effect :=
  t.filter Effect.isCallback

/-- The topology commands of a trace, in order: the address contacted and the outcome. -/
def attempts (t : List Effect) :
    List (GridClientSocketAddress × Except GridClientException TNodesList) :=
  t.filterMap (fun e => match e with
    | Effect.executeTopologyCmd addr _ rslt => some (addr, rslt)
    | _ => none)

/-- The `invalidate()` calls of a trace, in order: the projection addressed. -/
def invalidateCalls (t : List Effect) : List PrjPtr :=
  t.filterMap (fun e => match e with
    | Effect.invalidate p => some p
    | _ => none)

/-- The data projections constructed in a trace, in order: cache name and address. -/
def dataConstructions (t : List Effect) : List (String × PrjPtr) :=
  t.filterMap (fun e => match e with
    | Effect.newDataProjection p cacheName => some (cacheName, p)
    | _ => none)

/-- The nodes of `s` whose id is the id of no node of `r`. -/
def nodesNotIn (s r : List GridClientNode) : List GridClientNode :=
  s.filter (fun n => decide (n.nodeId ∉ r.map GridClientNode.nodeId))

/-- The callbacks that `fireTopologyEvents` makes for a listener list and two node sets,
following its code: the added-callbacks of every listener for each node of the first
difference, then the removed-callbacks for each node of the second one. -/
def eventCallbacks (lsnrs : TGridClientTopologyListenerList) (updNodes prevNodes : TNodesSet) :
    List Effect :=
  (TNodesSet.insertRange [] (set_difference updNodes prevNodes)).flatMap
      (fun n => lsnrs.map (fun l => Effect.onNodeAdded l n)) ++
    (TNodesSet.insertRange [] (set_difference prevNodes updNodes)).flatMap
      (fun n => lsnrs.map (fun l => Effect.onNodeRemoved l n))

/-- Only listener callbacks and error log records. -/
def OnlyDispatch (t : List Effect) : Prop :=
  ∀ e ∈ t, Effect.isCallback e = true ∨ Effect.isLogError e = true

/-- The collaborators with every listener callback returning normally, everything else
(the state they leave behind included) being the same. -/
def Collaborators.neverRaising {ω : Type} (W : Collaborators ω) : Collaborators ω :=
  { W with
    onNodeAdded := fun w l n => (none, (W.onNodeAdded w l n).2)
    onNodeRemoved := fun w l n => (none, (W.onNodeRemoved w l n).2) }

namespace GridClientImpl

variable {ω : Type}

/-- What has been appended to the trace between the states `c` and `c'`. -/
def traceSince (c c' : GridClientImpl ω) : List Effect :=
  c'.trace.drop c.trace.length

/-- From `c` to `c'` the records `t` were appended to the trace, and nothing else changed
but the state of the collaborators. -/
def Emits (c c' : GridClientImpl ω) (t : List Effect) : Prop :=
  c' = { c with world := c'.world, trace := c.trace ++ t }

/-- From `c` to `c'` the records `t` were appended to the trace, and nothing else changed
but the state of the collaborators and the topology snapshot. -/
def Refreshes (c c' : GridClientImpl ω) (t : List Effect) : Prop :=
  c' = { c with world := c'.world, trace := c.trace ++ t, topology := c'.topology }

/-- The projection object at an address. -/
def deref (c : GridClientImpl ω) (p : PrjPtr) : Option ProjectionObject :=
  c.heap[p]?

/-- The heap after `invalidate()` has been called on the objects at the addresses of the list,
one call per entry of the list. -/
def invalidateAll (heap : List ProjectionObject) (ps : List PrjPtr) : List ProjectionObject :=
  ps.foldl (fun acc p => acc.modify (fun o => { o with invalidations := o.invalidations + 1 }) p)
    heap

/-- The records that `stop` appends to the trace, following its code: the refresher is
destroyed (if there is one), the data projections of the map are invalidated, then the compute
projection if there is one, the executor is stopped unless `pWait`, the thread pool is shut
down. -/
def stopTrace (c : GridClientImpl ω) (pWait : Bool) : List Effect :=
  (if c.topRefresher.isSome then [Effect.refresherDestroyed] else []) ++
    (c.mainDataPrjs.map Prod.snd ++ c.mainComputePrj.toList).map Effect.invalidate ++
    (if pWait then [] else [Effect.executorStop]) ++ [Effect.threadPoolShutdown]

/-- A sequence of `data(cacheName)` calls, one after the other: the handles returned, in
order, and the client afterwards. -/
def dataCalls : List String → GridClientImpl ω → List PrjPtr × GridClientImpl ω
  | [], c => ([], c)
  | cacheName :: rest, c =>
    let r := data cacheName c
    let rs := dataCalls rest r.2
    (r.1 :: rs.1, rs.2)

/-- The invariant of the projection cache: one entry per cache name, one object per entry,
every handle held by the client addresses an object of the heap, the compute projection is
none of the data projections, and the data projections constructed so far are exactly the
entries of the map (which holds them by key, not in the order of their construction). -/
structure CacheInv (c : GridClientImpl ω) : Prop where
  keys_nodup : (c.mainDataPrjs.map Prod.fst).Nodup
  ptrs_nodup : (c.mainDataPrjs.map Prod.snd).Nodup
  ptrs_valid : ∀ p ∈ c.mainDataPrjs.map Prod.snd, p < c.heap.length
  compute_valid : ∀ p, c.mainComputePrj = some p →
    p < c.heap.length ∧ p ∉ c.mainDataPrjs.map Prod.snd
  constructed : (dataConstructions c.trace).Perm c.mainDataPrjs

/-- The attempts of a run of failures: the addresses contacted, each with its error. -/
def failures (addrs : List GridClientSocketAddress) (errs : List GridClientException) :
    List (GridClientSocketAddress × Except GridClientException TNodesList) :=
  addrs.zip (errs.map Except.error)

/-- Only topology command records. -/
def OnlyCommands (t : List Effect) : Prop :=
  ∀ e ∈ t, Effect.isCommand e = true

/-- The loop of `refreshTopology` ended with `updated` false: every address was contacted, in
order, every command failed, `last` is the last error, and only the state of the collaborators
and the trace changed. -/
def LoopFailed (addrs : List GridClientSocketAddress) (last : GridClientException)
    (c : GridClientImpl ω) (r : Bool × GridClientException × GridClientImpl ω) : Prop :=
  r.1 = false ∧ ∃ (t : List Effect) (errs : List GridClientException),
    Emits c r.2.2 t ∧ OnlyCommands t ∧ errs.length = addrs.length ∧
    attempts t = failures addrs errs ∧ r.2.1 = errs.getLast?.getD last

/-- The loop of `refreshTopology` ended with `updated` true: the addresses `pre` failed, in
order, then `a` answered `nbns`; the snapshot was replaced by the set of these nodes, then
the events were dispatched; the addresses `post` were not contacted. -/
def LoopSucceeded (addrs : List GridClientSocketAddress) (c : GridClientImpl ω)
    (r : Bool × GridClientException × GridClientImpl ω) : Prop :=
  r.1 = true ∧ ∃ (pre : List GridClientSocketAddress) (a : GridClientSocketAddress)
    (post : List GridClientSocketAddress) (errs : List GridClientException)
    (q : GridTopologyRequestCommand) (nbns : TNodesList) (t1 t3 : List Effect),
    addrs = pre ++ a :: post ∧ errs.length = pre.length ∧ OnlyCommands t1 ∧
    attempts t1 = failures pre errs ∧ OnlyDispatch t3 ∧
    callbacks t3 = eventCallbacks c.topLsnrs (TNodesSet.insertRange [] nbns) c.topology ∧
    Refreshes c r.2.2 (t1 ++ Effect.executeTopologyCmd a q (Except.ok nbns) ::
      Effect.topologyUpdate (TNodesSet.insertRange [] nbns) :: t3) ∧
    r.2.2.topology = TNodesSet.insertRange [] nbns

end GridClientImpl

/-! ## Sample collaborators and clients -/

/-- Sample collaborators over a counter: the executor answers only at port 3, with a node list
holding an id twice; the id generator hands out the counter; listener 1 raises from both of its
callbacks, the other listeners return. -/
def sampleCollaborators : Collaborators Nat :=
  { executeTopologyCmd := fun w addr _ =>
      (if addr.port = 3 then Except.ok [⟨2, 0⟩, ⟨4, 0⟩, ⟨2, 7⟩, ⟨3, 0⟩]
        else Except.error { what := "unreachable" }, w + 1)
    generateNewId := fun w => (w, w + 1)
    executorStop := fun w => w
    onNodeAdded := fun w l _ => (if l = 1 then some (Thrown.stdException "bad") else none, w)
    onNodeRemoved := fun w l _ => (if l = 1 then some Thrown.other else none, w) }

/-- Sample collaborators whose executor fails at every address. -/
def unreachableCollaborators : Collaborators Nat :=
  { sampleCollaborators with
    executeTopologyCmd := fun w _ _ => (Except.error { what := "unreachable" }, w + 1) }

/-- A configuration with four servers, at ports 1 to 4, no router and two listeners. -/
def sampleConfiguration : GridClientConfiguration :=
  { servers := [⟨"s1", 1⟩, ⟨"s2", 2⟩, ⟨"s3", 3⟩, ⟨"s4", 4⟩]
    routers := []
    topologyListeners := [1, 2]
    topologyRefreshFrequency := 5000
    threadPoolSize := 4
    uuid := 77 }

/-- A configuration with no server and no router. -/
def emptyConfiguration : GridClientConfiguration :=
  { sampleConfiguration with servers := [] }

/-- A client over the sample configuration, with two listeners registered and a snapshot of
the nodes 1, 2 and 3. -/
def sampleClient : GridClientImpl Nat :=
  { GridClientImpl.memberInit sampleConfiguration 0 with
    topLsnrs := [1, 2]
    topology := [⟨1, 0⟩, ⟨2, 0⟩, ⟨3, 0⟩] }

/-- The sample client after `data("orders")` and `compute()`: one data projection, at
address 0, and the compute projection, at address 1. -/
def cachedClient : GridClientImpl Nat :=
  (GridClientImpl.compute (GridClientImpl.data "orders" sampleClient).2).2

/-- The same client with no address configured. -/
def isolatedClient : GridClientImpl Nat :=
  { sampleClient with cfg := emptyConfiguration }

/-- The topology commands of a trace, in order: the request handed to the executor. -/
def requests (t : List Effect) : List GridTopologyRequestCommand :=
  t.filterMap (fun e => match e with
    | Effect.executeTopologyCmd _ rqst _ => some rqst
    | _ => none)

/-- The compute projections constructed in a trace, in order: the address. -/
def computeConstructions (t : List Effect) : List PrjPtr :=
  t.filterMap (fun e => match e with
    | Effect.newComputeProjection p => some p
    | _ => none)

/-- The snapshot replacements of a trace, in order: the new node set. -/
def topologyUpdates (t : List Effect) : List TNodesSet :=
  t.filterMap (fun e => match e with
    | Effect.topologyUpdate nodes => some nodes
    | _ => none)

/-- A call of one of the two projection accessors. -/
inductive CacheCall where
  | compute
  | data (cacheName : String)
deriving DecidableEq, Repr

namespace GridClientImpl

variable {ω : Type}

/-- A sequence of `compute()` and `data(cacheName)` calls, one after the other: the handles
returned, in order, and the client afterwards. -/
def cacheCalls : List CacheCall → GridClientImpl ω → List PrjPtr × GridClientImpl ω
  | [], c => ([], c)
  | call :: rest, c =>
    let r := match call with
      | CacheCall.compute => compute c
      | CacheCall.data cacheName => data cacheName c
    let rs := cacheCalls rest r.2
    (r.1 :: rs.1, rs.2)

end GridClientImpl

/-! ## Threads inside `getOrCreateDataProjection` -/

/-- Where a thread stands inside `getOrCreateDataProjection`, between two of its accesses to
the members of the client: before `mainDataPrjs.find`; after a `find` that returned `end()`,
before the `new`; with the new projection, before `mainDataPrjs.insert`; at its `return`. -/
inductive GetOrCreatePc where
  | find
  | construct
  | insert (prjImpl : PrjPtr)
  | returned (clientData : PrjPtr)
deriving DecidableEq, Repr

namespace GridClientImpl

variable {ω : Type}

/-- One access of a thread that runs `getOrCreateDataProjection(cacheName)`.  The method takes
no lock, so another thread may run between any two accesses; each access is taken as atomic.
`std::map::insert` leaves the map as it is when the key is present. -/
def getOrCreateStep (cacheName : String) :
    GetOrCreatePc → GridClientImpl ω → GetOrCreatePc × GridClientImpl ω
  | GetOrCreatePc.find, c =>
    match c.mainDataPrjs.lookup cacheName with
    | some prj => (GetOrCreatePc.returned prj, c)
    | none => (GetOrCreatePc.construct, c)
  | GetOrCreatePc.construct, c =>
    let (prjImpl, c1) := allocate (ProjectionImpl.data cacheName none []) c
    (GetOrCreatePc.insert prjImpl, emit (Effect.newDataProjection prjImpl cacheName) c1)
  | GetOrCreatePc.insert prjImpl, c =>
    (GetOrCreatePc.returned prjImpl,
      { c with mainDataPrjs := TDataPrjMap.insert (cacheName, prjImpl) c.mainDataPrjs })
  | GetOrCreatePc.returned clientData, c => (GetOrCreatePc.returned clientData, c)

/-- Threads that each run `data(cacheName)`, interleaved by a schedule: an entry of the
schedule is the index of the thread that makes its next access. -/
def interleave : List Nat → List (String × GetOrCreatePc) → GridClientImpl ω →
    List (String × GetOrCreatePc) × GridClientImpl ω
  | [], threads, c => (threads, c)
  | i :: schedule, threads, c =>
    match threads[i]? with
    | none => interleave schedule threads c
    | some (cacheName, pc) =>
      let r := getOrCreateStep cacheName pc c
      interleave schedule (threads.set i (cacheName, r.1)) r.2

end GridClientImpl

/-! ## Callbacks that call back into the client -/

/-- A call on the listener registry that a callback makes from inside the callback. -/
inductive RegistryCall where
  | addTopologyListener (lsnr : TGridClientTopologyListenerPtr)
  | removeTopologyListener (lsnr : TGridClientTopologyListenerPtr)
deriving DecidableEq, Repr

/-- One run of a callback: the registry calls it makes on the client, in order, and what it
raises at its end, if anything. -/
structure CallbackRun where
  calls : List RegistryCall
  raised : Option Thrown
deriving DecidableEq

/-- Listener callbacks that may call `addTopologyListener` and `removeTopologyListener` while
they run.  A callback sees the state of the collaborators and the listener list of the client
(which `topologyListeners()` gives it). -/
structure ReentrantListeners (ω : Type) where
  onNodeAdded : ω → TGridClientTopologyListenerList → TGridClientTopologyListenerPtr →
    GridClientNode → CallbackRun × ω
  onNodeRemoved : ω → TGridClientTopologyListenerList → TGridClientTopologyListenerPtr →
    GridClientNode → CallbackRun × ω

/-- The ways in which a run has no result: `lock()` on `topLsnrsMux` by the thread that holds
it, and `erase(end())`. -/
inductive Stuck where
  | deadlock
  | undefinedBehaviour
deriving DecidableEq, Repr

/-- The client with its mutex `topLsnrsMux` (true when held), and the registry calls that have
completed, in order. -/
structure Guarded (ω : Type) where
  client : GridClientImpl ω
  topLsnrsMux : Bool
  completed : List RegistryCall

namespace GridClientImpl

variable {ω : Type}

/-- Registry calls made on the client one after the other; there is no result if one of them
has none. -/
def registryCalls : List RegistryCall → GridClientImpl ω → Option (GridClientImpl ω)
  | [], c => some c
  | RegistryCall.addTopologyListener lsnr :: calls, c =>
    registryCalls calls (addTopologyListener lsnr c)
  | RegistryCall.removeTopologyListener lsnr :: calls, c =>
    match removeTopologyListener lsnr c with
    | none => none
    | some c1 => registryCalls calls c1

/-- The two `catch` blocks of the loops of `fireNodeAdded` and `fireNodeRemoved`: what the
callback raised is logged. -/
def logRaised (raised : Option Thrown) (c : GridClientImpl ω) : GridClientImpl ω :=
  match raised with
  | none => c
  | some (Thrown.stdException what) =>
    logError ("Got exception from topology listener [what=" ++ what ++ "]") c
  | some Thrown.other => logError "Got unknown exception from topology listener." c

end GridClientImpl

namespace Guarded

variable {ω : Type}

/-- The call `topLsnrsMux.lock()`, and the constructor of a `lock_guard` on it. -/
def lock (s : Guarded ω) : Except Stuck (Guarded ω) :=
  if s.topLsnrsMux then Except.error Stuck.deadlock
  else Except.ok { s with topLsnrsMux := true }

/-- The call `topLsnrsMux.unlock()`, and the destructor of a `lock_guard` on it. -/
def unlock (s : Guarded ω) : Guarded ω :=
  { s with topLsnrsMux := false }

/-- The method `GridClientImpl::addTopologyListener`, with its `lock_guard`. -/
def addTopologyListener (lsnr : TGridClientTopologyListenerPtr) (s : Guarded ω) :
    Except Stuck (Guarded ω) :=
  match lock s with
  | Except.error e => Except.error e
  | Except.ok s1 =>
    Except.ok (unlock { s1 with
      client := GridClientImpl.addTopologyListener lsnr s1.client
      completed := s1.completed ++ [RegistryCall.addTopologyListener lsnr] })

/-- The method `GridClientImpl::removeTopologyListener`, with its `lock_guard`. -/
def removeTopologyListener (lsnr : TGridClientTopologyListenerPtr) (s : Guarded ω) :
    Except Stuck (Guarded ω) :=
  match lock s with
  | Except.error e => Except.error e
  | Except.ok s1 =>
    match GridClientImpl.removeTopologyListener lsnr s1.client with
    | none => Except.error Stuck.undefinedBehaviour
    | some c =>
      Except.ok (unlock { s1 with
        client := c
        completed := s1.completed ++ [RegistryCall.removeTopologyListener lsnr] })

/-- The registry calls of one callback run, in order. -/
def callAll : List RegistryCall → Guarded ω → Except Stuck (Guarded ω)
  | [], s => Except.ok s
  | RegistryCall.addTopologyListener lsnr :: calls, s =>
    match addTopologyListener lsnr s with
    | Except.error e => Except.error e
    | Except.ok s1 => callAll calls s1
  | RegistryCall.removeTopologyListener lsnr :: calls, s =>
    match removeTopologyListener lsnr s with
    | Except.error e => Except.error e
    | Except.ok s1 => callAll calls s1

/-- The loop of `fireNodeAdded` and of `fireNodeRemoved` over the local copy of the listener
list, which differ in the callback they invoke: the callback starts, makes its registry calls,
and what it raises is caught and logged. -/
def notify
    (callback : ω → TGridClientTopologyListenerList → TGridClientTopologyListenerPtr →
      GridClientNode → CallbackRun × ω)
    (record : TGridClientTopologyListenerPtr → GridClientNode → Effect) (node : GridClientNode) :
    TGridClientTopologyListenerList → Guarded ω → Except Stuck (Guarded ω)
  | [], s => Except.ok s
  | l :: ls, s =>
    let r := callback s.client.world s.client.topLsnrs l node
    let s1 := { s with
      client := GridClientImpl.emit (record l node) { s.client with world := r.2 } }
    match callAll r.1.calls s1 with
    | Except.error e => Except.error e
    | Except.ok s2 =>
      notify callback record node ls
        { s2 with client := GridClientImpl.logRaised r.1.raised s2.client }

/-- The body of `fireNodeAdded` and of `fireNodeRemoved`: lock, copy the list, unlock, loop
over the copy. -/
def fire
    (callback : ω → TGridClientTopologyListenerList → TGridClientTopologyListenerPtr →
      GridClientNode → CallbackRun × ω)
    (record : TGridClientTopologyListenerPtr → GridClientNode → Effect) (node : GridClientNode)
    (s : Guarded ω) : Except Stuck (Guarded ω) :=
  match lock s with
  | Except.error e => Except.error e
  | Except.ok s1 =>
    let locTopLsnrs := s1.client.topLsnrs
    notify callback record node locTopLsnrs (unlock s1)

/-- The method `GridClientImpl::fireNodeAdded`, with the mutex and with callbacks that may
call back. -/
def fireNodeAdded (R : ReentrantListeners ω) (node : GridClientNode) (s : Guarded ω) :
    Except Stuck (Guarded ω) :=
  fire R.onNodeAdded Effect.onNodeAdded node s

/-- The method `GridClientImpl::fireNodeRemoved`, with the mutex and with callbacks that may
call back. -/
def fireNodeRemoved (R : ReentrantListeners ω) (node : GridClientNode) (s : Guarded ω) :
    Except Stuck (Guarded ω) :=
  fire R.onNodeRemoved Effect.onNodeRemoved node s

end Guarded

/-- Every registry call of every callback has a result: a callback removes a listener only
while the listener is in the list. -/
def ReentrantListeners.RemovesRegistered {ω : Type} (R : ReentrantListeners ω) : Prop :=
  ∀ (c : GridClientImpl ω) (l : TGridClientTopologyListenerPtr) (n : GridClientNode),
    (c.registryCalls (R.onNodeAdded c.world c.topLsnrs l n).1.calls).isSome = true ∧
      (c.registryCalls (R.onNodeRemoved c.world c.topLsnrs l n).1.calls).isSome = true

/-- The callbacks of the collaborators, which make no registry call. -/
def ReentrantListeners.ofCollaborators {ω : Type} (W : Collaborators ω) : ReentrantListeners ω :=
  { onNodeAdded := fun w _ l n =>
      ({ calls := [], raised := (W.onNodeAdded w l n).1 }, (W.onNodeAdded w l n).2)
    onNodeRemoved := fun w _ l n =>
      ({ calls := [], raised := (W.onNodeRemoved w l n).1 }, (W.onNodeRemoved w l n).2) }

/-- Sample callbacks: on a node that joined, listener 1 registers listener 3, and listener 2
removes itself (if it is registered) and then raises; on a node that left, listener 3 removes
listener 1 if it is registered. -/
def sampleReentrantListeners : ReentrantListeners Nat :=
  { onNodeAdded := fun w reg l _ =>
      (if l = 1 then { calls := [RegistryCall.addTopologyListener 3], raised := none }
        else if l = 2 then
          { calls := if 2 ∈ reg then [RegistryCall.removeTopologyListener 2] else []
            raised := some (Thrown.stdException "bad") }
        else { calls := [], raised := none }, w + 1)
    onNodeRemoved := fun w reg l _ =>
      (if l = 3 then
          { calls := if 1 ∈ reg then [RegistryCall.removeTopologyListener 1] else []
            raised := none }
        else { calls := [], raised := none }, w) }

/-- The sample client, listeners 1 and 2 registered, with the mutex free. -/
def sampleGuarded : Guarded Nat :=
  { client := sampleClient, topLsnrsMux := false, completed := [] }

/-! ## What a dispatch is to do with the registry calls of its callbacks -/

/-- The listener list after registry calls, in the words of the specification: adding a
listener appends it to the list, removing a listener takes its first entry away. -/
def registryAfter (reg : TGridClientTopologyListenerList) :
    List RegistryCall → TGridClientTopologyListenerList
  | [] => reg
  | RegistryCall.addTopologyListener lsnr :: calls => registryAfter (reg ++ [lsnr]) calls
  | RegistryCall.removeTopologyListener lsnr :: calls => registryAfter (reg.erase lsnr) calls

/-- The registry calls that the callbacks of one dispatch request, in order, in the words of
the claim: the callbacks of the listeners registered when the dispatch starts run one after
the other, in registration order; each runs in the state in which the one before left the
collaborators, and sees the listener list as the calls requested before it have left it. -/
def requestedCalls {ω : Type}
    (callback : ω → TGridClientTopologyListenerList → TGridClientTopologyListenerPtr →
      GridClientNode → CallbackRun × ω)
    (node : GridClientNode) :
    TGridClientTopologyListenerList → ω → TGridClientTopologyListenerList → List RegistryCall
  | [], _, _ => []
  | l :: ls, w, reg =>
    let r := callback w reg l node
    r.1.calls ++ requestedCalls callback node ls r.2 (registryAfter reg r.1.calls)

/-! ## Node sets -/

theorem set_difference_nil_right (l : List GridClientNode) : set_difference l [] = l := by
  cases l <;> simp [set_difference, set_difference.scan]

/-- One step of the loop of `std::set_difference`. -/
theorem set_difference_cons_cons (a b : GridClientNode) (as bs : List GridClientNode) :
    set_difference (a :: as) (b :: bs) =
      if ClientNodeComparator a b then a :: set_difference as (b :: bs)
      else if ClientNodeComparator b a then set_difference (a :: as) bs
      else set_difference as bs := by
  simp [set_difference, set_difference.scan]

/-- On sets, `std::set_difference` keeps the nodes of the first set whose id is not in the
second. -/
theorem set_difference_eq (as bs : TNodesSet) (has : IsNodesSet as) (hbs : IsNodesSet bs) :
    set_difference as bs = nodesNotIn as bs := by
  induction as generalizing bs with
  | nil => simp [set_difference, nodesNotIn]
  | cons a as iha =>
    have has' : IsNodesSet as := (List.pairwise_cons.1 has).2
    have ha : ∀ x ∈ as, a.nodeId < x.nodeId := (List.pairwise_cons.1 has).1
    induction bs with
    | nil => simp [set_difference_nil_right, nodesNotIn]
    | cons b bs ihb =>
      have hbs' : IsNodesSet bs := (List.pairwise_cons.1 hbs).2
      have hb : ∀ x ∈ bs, b.nodeId < x.nodeId := (List.pairwise_cons.1 hbs).1
      rw [set_difference_cons_cons]
      by_cases h1 : a.nodeId < b.nodeId
      · have hnot : a.nodeId ∉ (b :: bs).map GridClientNode.nodeId := by
          simp only [List.map_cons, List.mem_cons, List.mem_map, not_or, not_exists, not_and]
          refine ⟨by omega, fun x hx hxa => ?_⟩
          have := hb x hx
          omega
        simp only [ClientNodeComparator, h1, decide_True, if_true]
        rw [iha (b :: bs) has' hbs]
        simp only [nodesNotIn, List.filter_cons, hnot, not_false_eq_true, decide_True, if_true]
      · by_cases h2 : b.nodeId < a.nodeId
        · simp only [ClientNodeComparator, h1, h2, decide_True, decide_False, if_true, if_false]
          rw [ihb hbs']
          unfold nodesNotIn
          apply List.filter_congr
          intro x hx
          have hxge : a.nodeId ≤ x.nodeId := by
            rcases List.mem_cons.1 hx with rfl | hx
            · exact le_refl _
            · exact le_of_lt (ha x hx)
          have : x.nodeId ≠ b.nodeId := by omega
          simp [this]
        · have heq : a.nodeId = b.nodeId := by omega
          simp only [ClientNodeComparator, h1, h2, decide_False, if_false]
          rw [iha bs has' hbs']
          simp only [nodesNotIn, List.filter_cons, List.map_cons, List.mem_cons, heq, true_or,
            not_true_eq_false, decide_False, if_false]
          apply List.filter_congr
          intro x hx
          have := ha x hx
          have : x.nodeId ≠ b.nodeId := by omega
          simp [this]

theorem isNodesSet_nodesNotIn (s r : TNodesSet) (hs : IsNodesSet s) :
    IsNodesSet (nodesNotIn s r) :=
  List.Pairwise.filter _ hs

theorem insert_append_last (n : GridClientNode) (s : TNodesSet)
    (h : ∀ x ∈ s, x.nodeId < n.nodeId) : TNodesSet.insert n s = s ++ [n] := by
  induction s with
  | nil => rfl
  | cons m ms ih =>
    have hm : m.nodeId < n.nodeId := h m (List.mem_cons_self _ _)
    have hnm : ¬ n.nodeId < m.nodeId := by omega
    simp only [TNodesSet.insert, ClientNodeComparator, hm, hnm, decide_True, decide_False,
      if_true, if_false, List.cons_append, Bool.false_eq_true]
    rw [ih (fun x hx => h x (List.mem_cons_of_mem _ hx))]

theorem insertRange_append (s l : TNodesSet) (h : IsNodesSet (s ++ l)) :
    TNodesSet.insertRange s l = s ++ l := by
  induction l generalizing s with
  | nil => simp [TNodesSet.insertRange]
  | cons n l ih =>
    have h' := List.pairwise_append.1 h
    have hlast : TNodesSet.insert n s = s ++ [n] :=
      insert_append_last n s (fun x hx => h'.2.2 x hx n (List.mem_cons_self _ _))
    have : TNodesSet.insertRange s (n :: l) = TNodesSet.insertRange (TNodesSet.insert n s) l := rfl
    rw [this, hlast, ih (s ++ [n]) (by simpa using h)]
    simp

/-- Writing an ascending sequence into an empty set yields that sequence. -/
theorem insertRange_nil_of_isNodesSet (l : TNodesSet) (h : IsNodesSet l) :
    TNodesSet.insertRange [] l = l := by
  simpa using insertRange_append [] l (by simpa using h)

theorem mem_insert_imp (n x : GridClientNode) (s : TNodesSet) (h : x ∈ TNodesSet.insert n s) :
    x = n ∨ x ∈ s := by
  induction s with
  | nil => simpa [TNodesSet.insert] using h
  | cons m ms ih =>
    simp only [TNodesSet.insert] at h
    split at h
    · simpa using h
    · split at h
      · rcases List.mem_cons.1 h with h | h
        · right; rw [h]; exact List.mem_cons_self _ _
        · rcases ih h with h | h
          · left; exact h
          · right; exact List.mem_cons_of_mem _ h
      · right; exact h

theorem mem_insert_of_mem (n x : GridClientNode) (s : TNodesSet) (h : x ∈ s) :
    x ∈ TNodesSet.insert n s := by
  induction s with
  | nil => simp at h
  | cons m ms ih =>
    simp only [TNodesSet.insert]
    split
    · exact List.mem_cons_of_mem _ h
    · split
      · rcases List.mem_cons.1 h with h | h
        · rw [h]; exact List.mem_cons_self _ _
        · exact List.mem_cons_of_mem _ (ih h)
      · exact h

theorem nodeId_mem_insert (n : GridClientNode) (s : TNodesSet) :
    n.nodeId ∈ (TNodesSet.insert n s).map GridClientNode.nodeId := by
  induction s with
  | nil => simp [TNodesSet.insert]
  | cons m ms ih =>
    simp only [TNodesSet.insert, ClientNodeComparator]
    by_cases h1 : n.nodeId < m.nodeId
    · simp [h1]
    · by_cases h2 : m.nodeId < n.nodeId
      · simp only [h1, h2, decide_True, decide_False, if_true, if_false, List.map_cons,
          List.mem_cons, Bool.false_eq_true]
        right; exact ih
      · have : n.nodeId = m.nodeId := by omega
        simp [h1, h2, this]

theorem isNodesSet_insert (n : GridClientNode) (s : TNodesSet) (hs : IsNodesSet s) :
    IsNodesSet (TNodesSet.insert n s) := by
  induction s with
  | nil => simp [TNodesSet.insert, IsNodesSet]
  | cons m ms ih =>
    have hms : IsNodesSet ms := (List.pairwise_cons.1 hs).2
    have hm : ∀ x ∈ ms, m.nodeId < x.nodeId := (List.pairwise_cons.1 hs).1
    simp only [TNodesSet.insert, ClientNodeComparator]
    by_cases h1 : n.nodeId < m.nodeId
    · simp only [h1, decide_True, if_true]
      refine List.pairwise_cons.2 ⟨fun x hx => ?_, hs⟩
      rcases List.mem_cons.1 hx with rfl | hx
      · exact h1
      · exact lt_trans h1 (hm x hx)
    · by_cases h2 : m.nodeId < n.nodeId
      · simp only [h1, h2, decide_True, decide_False, if_true, if_false, Bool.false_eq_true]
        refine List.pairwise_cons.2 ⟨fun x hx => ?_, ih hms⟩
        rcases mem_insert_imp n x ms hx with rfl | hx
        · exact h2
        · exact hm x hx
      · simpa [h1, h2] using hs

/-- What `nodes.insert(nbns.begin(), nbns.end())` builds from the empty set: a set, made of
nodes of the list, holding a node for every id of the list. -/
theorem insertRange_spec (s : TNodesSet) (l : TNodesList) (hs : IsNodesSet s) :
    IsNodesSet (TNodesSet.insertRange s l) ∧
      (∀ x ∈ TNodesSet.insertRange s l, x ∈ s ∨ x ∈ l) ∧
      (∀ x ∈ s, x ∈ TNodesSet.insertRange s l) ∧
      (∀ x ∈ l, x.nodeId ∈ (TNodesSet.insertRange s l).map GridClientNode.nodeId) := by
  induction l generalizing s with
  | nil => exact ⟨hs, fun x hx => Or.inl hx, fun x hx => hx, by simp⟩
  | cons n l ih =>
    have hstep : TNodesSet.insertRange s (n :: l) = TNodesSet.insertRange (TNodesSet.insert n s) l := rfl
    obtain ⟨h1, h2, h3, h4⟩ := ih (TNodesSet.insert n s) (isNodesSet_insert n s hs)
    rw [hstep]
    refine ⟨h1, fun x hx => ?_, fun x hx => h3 x (mem_insert_of_mem n x s hx), fun x hx => ?_⟩
    · rcases h2 x hx with h | h
      · rcases mem_insert_imp n x s h with rfl | h
        · right; exact List.mem_cons_self _ _
        · left; exact h
      · right; exact List.mem_cons_of_mem _ h
    · rcases List.mem_cons.1 hx with rfl | hx
      · obtain ⟨y, hy, hyx⟩ := List.mem_map.1 (nodeId_mem_insert x s)
        exact List.mem_map.2 ⟨y, h3 y hy, hyx⟩
      · exact h4 x hx

/-! ## Frames and dispatch -/

namespace GridClientImpl

variable {ω : Type}

theorem Emits.refl (c : GridClientImpl ω) : Emits c c [] := by
  cases c; simp [Emits]

theorem Emits.andThen {c c' c'' : GridClientImpl ω} {t t' : List Effect}
    (h : Emits c c' t) (h' : Emits c' c'' t') : Emits c c'' (t ++ t') := by
  unfold Emits at *
  rw [h', h]
  simp

theorem Emits.topLsnrs_eq {c c' : GridClientImpl ω} {t : List Effect} (h : Emits c c' t) :
    c'.topLsnrs = c.topLsnrs := by
  rw [h]

theorem Emits.topology_eq {c c' : GridClientImpl ω} {t : List Effect} (h : Emits c c' t) :
    c'.topology = c.topology := by
  rw [h]

theorem Emits.trace_eq {c c' : GridClientImpl ω} {t : List Effect} (h : Emits c c' t) :
    c'.trace = c.trace ++ t := by
  rw [h]

theorem Emits.refreshes {c c' : GridClientImpl ω} {t : List Effect} (h : Emits c c' t) :
    Refreshes c c' t := by
  unfold Emits at h
  unfold Refreshes
  rw [h]

theorem Refreshes.followedBy {c c' c'' : GridClientImpl ω} {t t' : List Effect}
    (h : Refreshes c c' t) (h' : Refreshes c' c'' t') : Refreshes c c'' (t ++ t') := by
  unfold Refreshes at *
  rw [h', h]
  simp

theorem Refreshes.trace_append {c c' : GridClientImpl ω} {t : List Effect}
    (h : Refreshes c c' t) : c'.trace = c.trace ++ t := by
  rw [h]

theorem Refreshes.topLsnrs_same {c c' : GridClientImpl ω} {t : List Effect}
    (h : Refreshes c c' t) : c'.topLsnrs = c.topLsnrs := by
  rw [h]

theorem traceSince_of_trace_eq {c c' : GridClientImpl ω} {t : List Effect}
    (h : c'.trace = c.trace ++ t) : traceSince c c' = t := by
  simp [traceSince, h]

theorem emits_emit (e : Effect) (w : ω) (c : GridClientImpl ω) :
    Emits c (emit e { c with world := w }) [e] := by
  simp [Emits, emit]

theorem emits_logError (m : String) (c : GridClientImpl ω) :
    Emits c (logError m c) [Effect.logError m] := by
  simp [Emits, emit, logError]

end GridClientImpl

theorem OnlyDispatch.nil : OnlyDispatch [] := by
  simp [OnlyDispatch]

theorem OnlyDispatch.append {t t' : List Effect} (h : OnlyDispatch t) (h' : OnlyDispatch t') :
    OnlyDispatch (t ++ t') := by
  intro e he
  rcases List.mem_append.1 he with he | he
  · exact h e he
  · exact h' e he

theorem OnlyDispatch.no_attempts {t : List Effect} (h : OnlyDispatch t) : attempts t = [] := by
  induction t with
  | nil => rfl
  | cons e t ih =>
    have he := h e (List.mem_cons_self _ _)
    have ht : OnlyDispatch t := fun x hx => h x (List.mem_cons_of_mem _ hx)
    have := ih ht
    cases e <;> simp_all [attempts, Effect.isCallback, Effect.isLogError]

namespace GridClientImpl

variable {ω : Type}

/-- The loop of `fireNodeAdded` calls the added-callback of every listener of the list, in
order, whatever the callbacks raise; besides, it only writes error log records. -/
theorem notifyNodeAdded_emits (W : Collaborators ω) (node : GridClientNode)
    (ls : TGridClientTopologyListenerList) (c : GridClientImpl ω) :
    ∃ t, Emits c (notifyNodeAdded W node ls c) t ∧ OnlyDispatch t ∧
      callbacks t = ls.map (fun l => Effect.onNodeAdded l node) := by
  induction ls generalizing c with
  | nil => exact ⟨[], Emits.refl c, OnlyDispatch.nil, rfl⟩
  | cons l ls ih =>
    simp only [notifyNodeAdded]
    have hcb : OnlyDispatch [Effect.onNodeAdded l node] := by
      intro e he
      rw [List.mem_singleton.1 he]
      exact Or.inl rfl
    have hlog : ∀ m, OnlyDispatch [Effect.logError m] := by
      intro m e he
      rw [List.mem_singleton.1 he]
      exact Or.inr rfl
    cases hr : (W.onNodeAdded c.world l node).1 with
    | none =>
      obtain ⟨t, h1, h2, h3⟩ := ih (emit (Effect.onNodeAdded l node)
        { c with world := (W.onNodeAdded c.world l node).2 })
      refine ⟨[Effect.onNodeAdded l node] ++ t, (emits_emit _ _ c).andThen h1, hcb.append h2, ?_⟩
      simp only [callbacks, List.filter_append, List.map_cons] at h3 ⊢
      rw [h3]
      rfl
    | some x =>
      cases x with
      | stdException what =>
        obtain ⟨t, h1, h2, h3⟩ := ih
          (logError ("Got exception from topology listener [what=" ++ what ++ "]")
            (emit (Effect.onNodeAdded l node)
              { c with world := (W.onNodeAdded c.world l node).2 }))
        refine ⟨[Effect.onNodeAdded l node] ++ ([Effect.logError _] ++ t),
          (emits_emit _ _ c).andThen ((emits_logError _ _).andThen h1),
          hcb.append ((hlog _).append h2), ?_⟩
        simp only [callbacks, List.filter_append, List.map_cons] at h3 ⊢
        rw [h3]
        rfl
      | other =>
        obtain ⟨t, h1, h2, h3⟩ := ih
          (logError "Got unknown exception from topology listener."
            (emit (Effect.onNodeAdded l node)
              { c with world := (W.onNodeAdded c.world l node).2 }))
        refine ⟨[Effect.onNodeAdded l node] ++ ([Effect.logError _] ++ t),
          (emits_emit _ _ c).andThen ((emits_logError _ _).andThen h1),
          hcb.append ((hlog _).append h2), ?_⟩
        simp only [callbacks, List.filter_append, List.map_cons] at h3 ⊢
        rw [h3]
        rfl

/-- The loop of `fireNodeRemoved` calls the removed-callback of every listener of the list,
in order, whatever the callbacks raise; besides, it only writes error log records. -/
theorem notifyNodeRemoved_emits (W : Collaborators ω) (node : GridClientNode)
    (ls : TGridClientTopologyListenerList) (c : GridClientImpl ω) :
    ∃ t, Emits c (notifyNodeRemoved W node ls c) t ∧ OnlyDispatch t ∧
      callbacks t = ls.map (fun l => Effect.onNodeRemoved l node) := by
  induction ls generalizing c with
  | nil => exact ⟨[], Emits.refl c, OnlyDispatch.nil, rfl⟩
  | cons l ls ih =>
    simp only [notifyNodeRemoved]
    have hcb : OnlyDispatch [Effect.onNodeRemoved l node] := by
      intro e he
      rw [List.mem_singleton.1 he]
      exact Or.inl rfl
    have hlog : ∀ m, OnlyDispatch [Effect.logError m] := by
      intro m e he
      rw [List.mem_singleton.1 he]
      exact Or.inr rfl
    cases hr : (W.onNodeRemoved c.world l node).1 with
    | none =>
      obtain ⟨t, h1, h2, h3⟩ := ih (emit (Effect.onNodeRemoved l node)
        { c with world := (W.onNodeRemoved c.world l node).2 })
      refine ⟨[Effect.onNodeRemoved l node] ++ t, (emits_emit _ _ c).andThen h1,
        hcb.append h2, ?_⟩
      simp only [callbacks, List.filter_append, List.map_cons] at h3 ⊢
      rw [h3]
      rfl
    | some x =>
      cases x with
      | stdException what =>
        obtain ⟨t, h1, h2, h3⟩ := ih
          (logError ("Got exception from topology listener [what=" ++ what ++ "]")
            (emit (Effect.onNodeRemoved l node)
              { c with world := (W.onNodeRemoved c.world l node).2 }))
        refine ⟨[Effect.onNodeRemoved l node] ++ ([Effect.logError _] ++ t),
          (emits_emit _ _ c).andThen ((emits_logError _ _).andThen h1),
          hcb.append ((hlog _).append h2), ?_⟩
        simp only [callbacks, List.filter_append, List.map_cons] at h3 ⊢
        rw [h3]
        rfl
      | other =>
        obtain ⟨t, h1, h2, h3⟩ := ih
          (logError "Got unknown exception from topology listener."
            (emit (Effect.onNodeRemoved l node)
              { c with world := (W.onNodeRemoved c.world l node).2 }))
        refine ⟨[Effect.onNodeRemoved l node] ++ ([Effect.logError _] ++ t),
          (emits_emit _ _ c).andThen ((emits_logError _ _).andThen h1),
          hcb.append ((hlog _).append h2), ?_⟩
        simp only [callbacks, List.filter_append, List.map_cons] at h3 ⊢
        rw [h3]
        rfl

theorem foldl_fireNodeAdded_emits (W : Collaborators ω) (ns : List GridClientNode)
    (c : GridClientImpl ω) :
    ∃ t, Emits c (ns.foldl (fun acc i => fireNodeAdded W i acc) c) t ∧ OnlyDispatch t ∧
      callbacks t = ns.flatMap (fun n => c.topLsnrs.map (fun l => Effect.onNodeAdded l n)) := by
  induction ns generalizing c with
  | nil => exact ⟨[], Emits.refl c, OnlyDispatch.nil, rfl⟩
  | cons n ns ih =>
    obtain ⟨t1, h1, h2, h3⟩ := notifyNodeAdded_emits W n c.topLsnrs c
    obtain ⟨t2, k1, k2, k3⟩ := ih (fireNodeAdded W n c)
    refine ⟨t1 ++ t2, Emits.andThen h1 k1, h2.append k2, ?_⟩
    have hl : (fireNodeAdded W n c).topLsnrs = c.topLsnrs := Emits.topLsnrs_eq h1
    rw [hl] at k3
    simp only [callbacks, List.filter_append, List.flatMap_cons] at h3 k3 ⊢
    rw [h3, k3]

theorem foldl_fireNodeRemoved_emits (W : Collaborators ω) (ns : List GridClientNode)
    (c : GridClientImpl ω) :
    ∃ t, Emits c (ns.foldl (fun acc i => fireNodeRemoved W i acc) c) t ∧ OnlyDispatch t ∧
      callbacks t =
        ns.flatMap (fun n => c.topLsnrs.map (fun l => Effect.onNodeRemoved l n)) := by
  induction ns generalizing c with
  | nil => exact ⟨[], Emits.refl c, OnlyDispatch.nil, rfl⟩
  | cons n ns ih =>
    obtain ⟨t1, h1, h2, h3⟩ := notifyNodeRemoved_emits W n c.topLsnrs c
    obtain ⟨t2, k1, k2, k3⟩ := ih (fireNodeRemoved W n c)
    refine ⟨t1 ++ t2, Emits.andThen h1 k1, h2.append k2, ?_⟩
    have hl : (fireNodeRemoved W n c).topLsnrs = c.topLsnrs := Emits.topLsnrs_eq h1
    rw [hl] at k3
    simp only [callbacks, List.filter_append, List.flatMap_cons] at h3 k3 ⊢
    rw [h3, k3]

/-- The dispatch of `fireTopologyEvents`: the callbacks are those of `eventCallbacks` for the
listener list of the client, whatever the callbacks raise; besides, only error log records
are written, and only the state of the collaborators changes. -/
theorem fireTopologyEvents_emits (W : Collaborators ω) (updNodes prevNodes : TNodesSet)
    (c : GridClientImpl ω) :
    ∃ t, Emits c (fireTopologyEvents W updNodes prevNodes c) t ∧ OnlyDispatch t ∧
      callbacks t = eventCallbacks c.topLsnrs updNodes prevNodes := by
  obtain ⟨t1, h1, h2, h3⟩ := foldl_fireNodeAdded_emits W
    (TNodesSet.insertRange [] (set_difference updNodes prevNodes)) c
  obtain ⟨t2, k1, k2, k3⟩ := foldl_fireNodeRemoved_emits W
    (TNodesSet.insertRange [] (set_difference prevNodes updNodes))
    ((TNodesSet.insertRange [] (set_difference updNodes prevNodes)).foldl
      (fun acc i => fireNodeAdded W i acc) c)
  refine ⟨t1 ++ t2, Emits.andThen h1 k1, h2.append k2, ?_⟩
  rw [Emits.topLsnrs_eq h1] at k3
  simp only [callbacks, List.filter_append, eventCallbacks] at h3 k3 ⊢
  rw [h3, k3]

/-! ## The refresh loop -/

theorem refreshLoop_updated (W : Collaborators ω) (addrs : List GridClientSocketAddress)
    (last : GridClientException) (c : GridClientImpl ω) :
    refreshLoop W addrs true last c = (true, last, c) := by
  cases addrs <;> simp [refreshLoop]

theorem refreshLoop_spec (W : Collaborators ω) (addrs : List GridClientSocketAddress)
    (last : GridClientException) (c : GridClientImpl ω) :
    LoopFailed addrs last c (refreshLoop W addrs false last c) ∨
      LoopSucceeded addrs c (refreshLoop W addrs false last c) := by
  induction addrs generalizing last c with
  | nil =>
    left
    exact ⟨rfl, [], [], Emits.refl c, by simp [OnlyCommands], rfl, rfl, rfl⟩
  | cons a rest ih =>
    simp only [refreshLoop, Bool.false_eq_true, if_false, GridClientTopology.nodes,
      GridClientTopology.update]
    generalize hq : GridTopologyRequestCommand.mk false false (id c)
      (W.generateNewId c.world).1 = q
    generalize hw : (W.generateNewId c.world).2 = w
    cases hr : (W.executeTopologyCmd w a q).1 with
    | error e =>
      simp only []
      have hc1 : Emits c (emit (Effect.executeTopologyCmd a q (Except.error e))
          { c with world := (W.executeTopologyCmd w a q).2 })
          [Effect.executeTopologyCmd a q (Except.error e)] := emits_emit _ _ c
      rcases ih e (emit (Effect.executeTopologyCmd a q (Except.error e))
          { c with world := (W.executeTopologyCmd w a q).2 }) with h | h
      · left
        obtain ⟨hu, t, errs, h1, h2, h3, h4, h5⟩ := h
        refine ⟨hu, Effect.executeTopologyCmd a q (Except.error e) :: t, e :: errs,
          hc1.andThen h1, ?_, by simp [h3], ?_, ?_⟩
        · intro x hx
          rcases List.mem_cons.1 hx with rfl | hx
          · rfl
          · exact h2 x hx
        · simp only [attempts, failures, List.filterMap_cons, List.map_cons,
            List.zip_cons_cons] at h4 ⊢
          rw [h4]
        · rw [h5]
          cases errs <;> simp [List.getLast?]
      · right
        obtain ⟨hu, pre, a', post, errs, q', nbns, t1, t3, h1, h2, h3, h4, h5, h6, h7, h8⟩ := h
        refine ⟨hu, a :: pre, a', post, e :: errs, q', nbns,
          Effect.executeTopologyCmd a q (Except.error e) :: t1, t3, by simp [h1], by simp [h2],
          ?_, ?_, h5, ?_, ?_, h8⟩
        · intro x hx
          rcases List.mem_cons.1 hx with rfl | hx
          · rfl
          · exact h3 x hx
        · simp only [attempts, failures, List.filterMap_cons, List.map_cons,
            List.zip_cons_cons] at h4 ⊢
          rw [h4]
        · rw [h6, hc1.topLsnrs_eq, hc1.topology_eq]
        · exact hc1.refreshes.followedBy h7
    | ok nbns =>
      simp only [refreshLoop_updated]
      right
      obtain ⟨t3, k1, k2, k3⟩ := fireTopologyEvents_emits W (TNodesSet.insertRange [] nbns)
        c.topology (emit (Effect.topologyUpdate (TNodesSet.insertRange [] nbns))
          { emit (Effect.executeTopologyCmd a q (Except.ok nbns))
              { c with world := (W.executeTopologyCmd w a q).2 } with
            topology := TNodesSet.insertRange [] nbns })
      have hA : Refreshes c (emit (Effect.topologyUpdate (TNodesSet.insertRange [] nbns))
          { emit (Effect.executeTopologyCmd a q (Except.ok nbns))
              { c with world := (W.executeTopologyCmd w a q).2 } with
            topology := TNodesSet.insertRange [] nbns })
          [Effect.executeTopologyCmd a q (Except.ok nbns),
            Effect.topologyUpdate (TNodesSet.insertRange [] nbns)] := by
        simp [Refreshes, emit]
      refine ⟨rfl, [], a, rest, [], q, nbns, [], t3, rfl, rfl, by simp [OnlyCommands], rfl, k2,
        k3, ?_, k1.topology_eq⟩
      exact hA.followedBy k1.refreshes

end GridClientImpl

theorem attempts_append (t t' : List Effect) : attempts (t ++ t') = attempts t ++ attempts t' := by
  simp [attempts, List.filterMap_append]

theorem callbacks_append (t t' : List Effect) :
    callbacks (t ++ t') = callbacks t ++ callbacks t' := by
  simp [callbacks, List.filter_append]

namespace GridClientImpl

variable {ω : Type}

/-- In a run of failures no command has succeeded. -/
theorem not_ok_mem_failures (addrs : List GridClientSocketAddress)
    (errs : List GridClientException) (a : GridClientSocketAddress) (nbns : TNodesList) :
    (a, Except.ok nbns) ∉ failures addrs errs := by
  intro h
  have := (List.of_mem_zip h).2
  simp at this

theorem error_of_mem_failures {addrs : List GridClientSocketAddress}
    {errs : List GridClientException}
    {x : GridClientSocketAddress × Except GridClientException TNodesList}
    (h : x ∈ failures addrs errs) : ∃ e, x.2 = Except.error e := by
  obtain ⟨e, _, he⟩ := List.mem_map.1 (List.of_mem_zip (a := x.1) (b := x.2) h).2
  exact ⟨e, he.symm⟩

theorem length_failures {addrs : List GridClientSocketAddress}
    {errs : List GridClientException} (h : errs.length = addrs.length) :
    (failures addrs errs).length = addrs.length := by
  simp [failures, List.length_zip, h]

theorem map_fst_failures {addrs : List GridClientSocketAddress}
    {errs : List GridClientException} (h : errs.length = addrs.length) :
    (failures addrs errs).map Prod.fst = addrs :=
  List.map_fst_zip _ _ (by simp [h])

theorem failures_append_singleton (addrs : List GridClientSocketAddress)
    (errs : List GridClientException) (a : GridClientSocketAddress) (e : GridClientException)
    (h : errs.length = addrs.length) :
    failures (addrs ++ [a]) (errs ++ [e]) = failures addrs errs ++ [(a, Except.error e)] := by
  unfold failures
  rw [List.map_append, List.zip_append (by simp [h])]
  rfl

theorem OnlyCommands.callbacks_eq {t : List Effect} (h : OnlyCommands t) :
    callbacks t = [] := by
  induction t with
  | nil => rfl
  | cons e t ih =>
    have he := h e (List.mem_cons_self _ _)
    have ht : OnlyCommands t := fun x hx => h x (List.mem_cons_of_mem _ hx)
    have := ih ht
    cases e <;> simp_all [callbacks, Effect.isCallback, Effect.isCommand]

theorem refreshTopology_of_candidates_nil (W : Collaborators ω) (c : GridClientImpl ω)
    (h : candidates c.cfg = []) : refreshTopology W c = c := by
  simp [refreshTopology, h]

/-- The two ways in which `refreshTopology` ends when there are candidate addresses: every
command failed and the last error is logged, or the first success replaced the snapshot. -/
theorem refreshTopology_cases (W : Collaborators ω) (c : GridClientImpl ω)
    (h : candidates c.cfg ≠ []) :
    (∃ (t : List Effect) (errs : List GridClientException),
        Emits c (refreshTopology W c)
          (t ++ [Effect.logError ("Error refreshing the topology: " ++
            (errs.getLast?.getD { what := "" }).what)]) ∧
        OnlyCommands t ∧ errs.length = (candidates c.cfg).length ∧
        attempts t = failures (candidates c.cfg) errs) ∨
      LoopSucceeded (candidates c.cfg) c (true, { what := "" }, refreshTopology W c) := by
  have hne : (candidates c.cfg).isEmpty = false := by
    cases hc : candidates c.cfg with
    | nil => exact absurd hc h
    | cons a l => rfl
  rcases refreshLoop_spec W (candidates c.cfg) { what := "" } c with hf | hs
  · left
    obtain ⟨hu, t, errs, h1, h2, h3, h4, h5⟩ := hf
    refine ⟨t, errs, ?_, h2, h3, h4⟩
    have : refreshTopology W c = logError ("Error refreshing the topology: " ++
        (refreshLoop W (candidates c.cfg) false { what := "" } c).2.1.what)
        (refreshLoop W (candidates c.cfg) false { what := "" } c).2.2 := by
      simp [refreshTopology, hne, hu]
    rw [this, h5]
    exact h1.andThen (emits_logError _ _)
  · right
    obtain ⟨hu, rest⟩ := hs
    have : refreshTopology W c = (refreshLoop W (candidates c.cfg) false { what := "" } c).2.2 := by
      simp [refreshTopology, hne, hu]
    rw [this]
    exact ⟨rfl, rest⟩

/-- The attempts of a refresh that ended by a success. -/
theorem LoopSucceeded.attempts_eq {addrs : List GridClientSocketAddress} {c c' : GridClientImpl ω}
    {last : GridClientException} (h : LoopSucceeded addrs c (true, last, c')) :
    ∃ (pre : List GridClientSocketAddress) (a : GridClientSocketAddress)
      (post : List GridClientSocketAddress) (errs : List GridClientException) (nbns : TNodesList),
      addrs = pre ++ a :: post ∧ errs.length = pre.length ∧
      attempts (traceSince c c') = failures pre errs ++ [(a, Except.ok nbns)] ∧
      c'.topology = TNodesSet.insertRange [] nbns ∧
      callbacks (traceSince c c') =
        eventCallbacks c.topLsnrs (TNodesSet.insertRange [] nbns) c.topology := by
  obtain ⟨_, pre, a, post, errs, q, nbns, t1, t3, h1, h2, h3, h4, h5, h6, h7, h8⟩ := h
  refine ⟨pre, a, post, errs, nbns, h1, h2, ?_, h8, ?_⟩
  · rw [traceSince_of_trace_eq h7.trace_append, attempts_append, h4]
    have : attempts (Effect.executeTopologyCmd a q (Except.ok nbns) ::
        Effect.topologyUpdate (TNodesSet.insertRange [] nbns) :: t3) =
        (a, Except.ok nbns) :: attempts t3 := rfl
    rw [this, h5.no_attempts]
  · rw [traceSince_of_trace_eq h7.trace_append, callbacks_append, h3.callbacks_eq]
    have : callbacks (Effect.executeTopologyCmd a q (Except.ok nbns) ::
        Effect.topologyUpdate (TNodesSet.insertRange [] nbns) :: t3) = callbacks t3 := rfl
    rw [this, h6]
    rfl

theorem candidates_eq (cfg : GridClientConfiguration) :
    candidates cfg = if cfg.routers ≠ [] then cfg.routers else cfg.servers := by
  unfold candidates
  cases cfg.routers <;> simp

/-- The attempts of a refresh in which every command failed. -/
theorem attempts_of_all_failed {c c' : GridClientImpl ω} {t : List Effect} {m : String}
    {addrs : List GridClientSocketAddress} {errs : List GridClientException}
    (h1 : Emits c c' (t ++ [Effect.logError m]))
    (h4 : attempts t = failures addrs errs) :
    attempts (traceSince c c') = failures addrs errs := by
  rw [traceSince_of_trace_eq h1.trace_eq, attempts_append, h4]
  simp [attempts]

/-- C1 (failover, first success wins).  When there is a candidate address (the candidates are
the routers if there are any, else the servers), the topology commands of one `refreshTopology`
go to an initial segment of the candidate list, in its order, one command per position; at
least the first candidate is contacted; a command that succeeds is the last one of the call
(so when the `k`-th candidate is the first to succeed exactly the candidates `1..k` are
contacted); and when no command succeeds every candidate has been contacted. -/
theorem refreshTopology_failover (W : Collaborators ω) (c : GridClientImpl ω)
    (h : candidates c.cfg ≠ []) :
    candidates c.cfg = (if c.cfg.routers ≠ [] then c.cfg.routers else c.cfg.servers) ∧
      (attempts (traceSince c (refreshTopology W c))).map Prod.fst =
        (candidates c.cfg).take (attempts (traceSince c (refreshTopology W c))).length ∧
      0 < (attempts (traceSince c (refreshTopology W c))).length ∧
      (∀ (k : Nat) (a : GridClientSocketAddress) (nbns : TNodesList),
        (attempts (traceSince c (refreshTopology W c)))[k]? = some (a, Except.ok nbns) →
          (attempts (traceSince c (refreshTopology W c))).length = k + 1) ∧
      ((∀ x ∈ attempts (traceSince c (refreshTopology W c)),
          ∃ e, x.2 = Except.error e) →
        (attempts (traceSince c (refreshTopology W c))).length = (candidates c.cfg).length) := by
  refine ⟨candidates_eq c.cfg, ?_⟩
  rcases refreshTopology_cases W c h with ⟨t, errs, h1, _, h3, h4⟩ | hs
  · have hatt := attempts_of_all_failed h1 h4
    have hlen := length_failures h3
    rw [hatt]
    refine ⟨?_, ?_, ?_, fun _ => hlen⟩
    · rw [hlen, List.take_length]
      exact map_fst_failures h3
    · rw [hlen]
      exact List.length_pos.2 h
    · intro k a nbns hk
      exact absurd (List.getElem?_mem hk) (not_ok_mem_failures _ _ _ _)
  · obtain ⟨pre, a, post, errs, nbns, h1, h2, h3, _, _⟩ := hs.attempts_eq
    have hlen := length_failures h2
    rw [h3]
    refine ⟨?_, by simp, ?_, ?_⟩
    · rw [List.length_append, hlen, h1, List.map_append, map_fst_failures h2]
      simp [List.take_append_eq_append_take]
    · intro k a' nbns' hk
      rw [List.length_append, hlen]
      by_cases hlt : k < pre.length
      · rw [List.getElem?_append_left (by rw [hlen]; exact hlt)] at hk
        exact absurd (List.getElem?_mem hk) (not_ok_mem_failures _ _ _ _)
      · have hk' := hk
        rw [List.getElem?_append_right (by rw [hlen]; omega), hlen] at hk'
        have : k - pre.length = 0 := by
          by_contra hne
          have : k - pre.length = (k - pre.length - 1) + 1 := by omega
          rw [this] at hk'
          simp at hk'
        simp
        omega
    · intro hall
      obtain ⟨e, he⟩ := hall (a, Except.ok nbns) (by simp)
      simp at he

/-- Witness of C1: four servers of which only the third answers; the first three are
contacted, in order, and the fourth is not. -/
theorem refreshTopology_failover_witness :
    candidates sampleClient.cfg ≠ [] ∧
      (attempts (traceSince sampleClient
        (refreshTopology sampleCollaborators sampleClient))).map Prod.fst =
          [⟨"s1", 1⟩, ⟨"s2", 2⟩, ⟨"s3", 3⟩] :=
  ⟨by decide,
    (refreshTopology_failover sampleCollaborators sampleClient (by decide)).2.1.trans
      (by decide)⟩

/-- C3 (wholesale replacement).  When a command of `refreshTopology` succeeds with the node
list `nbns`, it is the last command of the call and all the commands before it failed, and
the snapshot after the call is the set built from `nbns` alone, whatever the snapshot was
before: a set ordered by id, made of nodes of `nbns`, with a node for every id of `nbns`. -/
theorem refreshTopology_replaces_snapshot (W : Collaborators ω) (c : GridClientImpl ω)
    (a : GridClientSocketAddress) (nbns : TNodesList)
    (h : (a, Except.ok nbns) ∈ attempts (traceSince c (refreshTopology W c))) :
    (refreshTopology W c).topology = TNodesSet.insertRange [] nbns ∧
      IsNodesSet (refreshTopology W c).topology ∧
      (∀ n ∈ (refreshTopology W c).topology, n ∈ nbns) ∧
      (∀ n ∈ nbns, n.nodeId ∈ (refreshTopology W c).topology.map GridClientNode.nodeId) ∧
      (∃ pre, attempts (traceSince c (refreshTopology W c)) = pre ++ [(a, Except.ok nbns)] ∧
        ∀ x ∈ pre, ∃ e, x.2 = Except.error e) := by
  have hspec := insertRange_spec [] nbns List.Pairwise.nil
  by_cases hc : candidates c.cfg = []
  · rw [refreshTopology_of_candidates_nil W c hc] at h
    simp [traceSince, attempts] at h
  · rcases refreshTopology_cases W c hc with ⟨t, errs, h1, _, _, h4⟩ | hs
    · rw [attempts_of_all_failed h1 h4] at h
      exact absurd h (not_ok_mem_failures _ _ _ _)
    · obtain ⟨pre, a', post, errs, nbns', _, _, h3, h4, _⟩ := hs.attempts_eq
      rw [h3] at h
      rcases List.mem_append.1 h with h | h
      · exact absurd h (not_ok_mem_failures _ _ _ _)
      · simp only [List.mem_singleton, Prod.mk.injEq, Except.ok.injEq] at h
        obtain ⟨rfl, rfl⟩ := h
        rw [h4]
        refine ⟨rfl, hspec.1, fun n hn => ?_, hspec.2.2.2, _, h3, fun x hx => ?_⟩
        · rcases hspec.2.1 n hn with h | h
          · simp at h
          · exact h
        · exact error_of_mem_failures hx

/-- Witness of C3: the third server answers the nodes 2, 4, 2 (again) and 3; the snapshot,
which was 1, 2, 3, becomes 2, 3, 4. -/
theorem refreshTopology_replaces_snapshot_witness :
    (⟨"s3", 3⟩, Except.ok [⟨2, 0⟩, ⟨4, 0⟩, ⟨2, 7⟩, ⟨3, 0⟩]) ∈
        attempts (traceSince sampleClient (refreshTopology sampleCollaborators sampleClient)) ∧
      (refreshTopology sampleCollaborators sampleClient).topology =
        [⟨2, 0⟩, ⟨3, 0⟩, ⟨4, 0⟩] :=
  ⟨by decide,
    (refreshTopology_replaces_snapshot sampleCollaborators sampleClient ⟨"s3", 3⟩
      [⟨2, 0⟩, ⟨4, 0⟩, ⟨2, 7⟩, ⟨3, 0⟩] (by decide)).1.trans (by decide)⟩

/-- C4 (all candidates fail).  When there is a candidate address and every topology command
of the call fails, `refreshTopology` returns (it is a total function and has no exceptional
exit): every candidate has been contacted, in order; the snapshot is the one before the call;
no listener callback has been invoked; nothing changed but the state of the collaborators and
the trace; and the last record of the call is the error log of the last failure. -/
theorem refreshTopology_all_failed (W : Collaborators ω) (c : GridClientImpl ω)
    (h : candidates c.cfg ≠ [])
    (hfail : ∀ x ∈ attempts (traceSince c (refreshTopology W c)), ∃ e, x.2 = Except.error e) :
    (refreshTopology W c).topology = c.topology ∧
      callbacks (traceSince c (refreshTopology W c)) = [] ∧
      (attempts (traceSince c (refreshTopology W c))).map Prod.fst = candidates c.cfg ∧
      Emits c (refreshTopology W c) (traceSince c (refreshTopology W c)) ∧
      (∃ (a : GridClientSocketAddress) (e : GridClientException),
        (attempts (traceSince c (refreshTopology W c))).getLast? = some (a, Except.error e) ∧
        (traceSince c (refreshTopology W c)).getLast? =
          some (Effect.logError ("Error refreshing the topology: " ++ e.what))) := by
  rcases refreshTopology_cases W c h with ⟨t, errs, h1, h2, h3, h4⟩ | hs
  · have hatt := attempts_of_all_failed h1 h4
    have htr := traceSince_of_trace_eq h1.trace_eq
    refine ⟨h1.topology_eq, ?_, ?_, ?_, ?_⟩
    · rw [htr, callbacks_append, h2.callbacks_eq]
      rfl
    · rw [hatt]
      exact map_fst_failures h3
    · rw [htr]
      exact h1
    · have hne : errs ≠ [] := by
        intro he
        rw [he] at h3
        exact h (List.length_eq_zero.1 h3.symm)
      have hane : candidates c.cfg ≠ [] := h
      obtain ⟨errs', e, rfl⟩ : ∃ errs' e, errs = errs' ++ [e] :=
        ⟨errs.dropLast, errs.getLast hne, (List.dropLast_append_getLast hne).symm⟩
      obtain ⟨as', a, has⟩ : ∃ as' a, candidates c.cfg = as' ++ [a] :=
        ⟨(candidates c.cfg).dropLast, (candidates c.cfg).getLast hane,
          (List.dropLast_append_getLast hane).symm⟩
      have hl : as'.length = errs'.length := by
        rw [has] at h3
        simp at h3
        omega
      refine ⟨a, e, ?_, ?_⟩
      · rw [hatt, has, failures_append_singleton _ _ _ _ hl.symm]
        simp
      · rw [htr]
        simp
  · obtain ⟨pre, a, post, errs, nbns, _, _, h3, _, _⟩ := hs.attempts_eq
    obtain ⟨e, he⟩ := hfail (a, Except.ok nbns) (by rw [h3]; simp)
    simp at he

/-- Witness of C4: four servers, none of which answers; the snapshot 1, 2, 3 is kept and no
callback is invoked. -/
theorem refreshTopology_all_failed_witness :
    candidates sampleClient.cfg ≠ [] ∧
      (∀ x ∈ attempts (traceSince sampleClient
        (refreshTopology unreachableCollaborators sampleClient)), ∃ e, x.2 = Except.error e) ∧
      (refreshTopology unreachableCollaborators sampleClient).topology =
        [⟨1, 0⟩, ⟨2, 0⟩, ⟨3, 0⟩] ∧
      callbacks (traceSince sampleClient
        (refreshTopology unreachableCollaborators sampleClient)) = [] :=
  have hfail : ∀ x ∈ attempts (traceSince sampleClient
      (refreshTopology unreachableCollaborators sampleClient)), ∃ e, x.2 = Except.error e := by
    intro x hx
    have : attempts (traceSince sampleClient
        (refreshTopology unreachableCollaborators sampleClient)) =
        [(⟨"s1", 1⟩, Except.error ⟨"unreachable"⟩), (⟨"s2", 2⟩, Except.error ⟨"unreachable"⟩),
          (⟨"s3", 3⟩, Except.error ⟨"unreachable"⟩),
          (⟨"s4", 4⟩, Except.error ⟨"unreachable"⟩)] := by decide
    rw [this] at hx
    simp at hx
    rcases hx with rfl | rfl | rfl | rfl <;> exact ⟨_, rfl⟩
  ⟨by decide, hfail,
    (refreshTopology_all_failed unreachableCollaborators sampleClient (by decide) hfail).1,
    (refreshTopology_all_failed unreachableCollaborators sampleClient (by decide) hfail).2.1⟩

/-- C6 (empty address lists).  With no server and no router configured, `refreshTopology`
returns the client as it was: no topology command, no listener callback, no log record, and
the same snapshot. -/
theorem refreshTopology_no_address (W : Collaborators ω) (c : GridClientImpl ω)
    (hs : c.cfg.servers = []) (hr : c.cfg.routers = []) :
    refreshTopology W c = c ∧ traceSince c (refreshTopology W c) = [] ∧
      attempts (traceSince c (refreshTopology W c)) = [] ∧
      callbacks (traceSince c (refreshTopology W c)) = [] ∧
      (refreshTopology W c).topology = c.topology := by
  have hc : candidates c.cfg = [] := by
    simp [candidates, hs, hr]
  rw [refreshTopology_of_candidates_nil W c hc]
  simp [traceSince, attempts, callbacks]

/-- Witness of C6: a client with two listeners and a snapshot, but no address. -/
theorem refreshTopology_no_address_witness :
    isolatedClient.cfg.servers = [] ∧ isolatedClient.cfg.routers = [] ∧
      refreshTopology sampleCollaborators isolatedClient = isolatedClient :=
  ⟨rfl, rfl, (refreshTopology_no_address sampleCollaborators isolatedClient rfl rfl).1⟩

end GridClientImpl

theorem mem_nodesNotIn {s r : List GridClientNode} {n : GridClientNode} :
    n ∈ nodesNotIn s r ↔ n ∈ s ∧ n.nodeId ∉ r.map GridClientNode.nodeId := by
  simp [nodesNotIn, List.mem_filter]

theorem IsNodesSet.nodup {s : TNodesSet} (h : IsNodesSet s) : s.Nodup := by
  unfold IsNodesSet at h
  exact h.imp (fun hab heq => by rw [heq] at hab; exact lt_irrefl _ hab)

theorem count_onNodeAdded_map (ls : TGridClientTopologyListenerList) (l : TGridClientTopologyListenerPtr)
    (m n : GridClientNode) :
    (ls.map (fun x => Effect.onNodeAdded x m)).count (Effect.onNodeAdded l n) =
      if m = n then ls.count l else 0 := by
  induction ls with
  | nil => simp
  | cons x xs ih =>
    rw [List.map_cons, List.count_cons, ih, List.count_cons]
    by_cases hmn : m = n
    · subst hmn
      by_cases hx : x = l
      · subst hx; simp
      · have : ¬ (l = x) := fun h => hx h.symm
        simp [hx, this]
    · simp [hmn]

theorem count_onNodeRemoved_map (ls : TGridClientTopologyListenerList) (l : TGridClientTopologyListenerPtr)
    (m n : GridClientNode) :
    (ls.map (fun x => Effect.onNodeRemoved x m)).count (Effect.onNodeRemoved l n) =
      if m = n then ls.count l else 0 := by
  induction ls with
  | nil => simp
  | cons x xs ih =>
    rw [List.map_cons, List.count_cons, ih, List.count_cons]
    by_cases hmn : m = n
    · subst hmn
      by_cases hx : x = l
      · subst hx; simp
      · have : ¬ (l = x) := fun h => hx h.symm
        simp [hx, this]
    · simp [hmn]

theorem count_added_flatMap (ns : List GridClientNode) (hns : ns.Nodup)
    (ls : TGridClientTopologyListenerList) (l : TGridClientTopologyListenerPtr)
    (n : GridClientNode) :
    (ns.flatMap (fun m => ls.map (fun x => Effect.onNodeAdded x m))).count
        (Effect.onNodeAdded l n) = if n ∈ ns then ls.count l else 0 := by
  induction ns with
  | nil => simp
  | cons m ms ih =>
    have hm : m ∉ ms := (List.nodup_cons.1 hns).1
    rw [List.flatMap_cons, List.count_append, ih (List.nodup_cons.1 hns).2,
      count_onNodeAdded_map]
    by_cases hmn : m = n
    · subst hmn
      simp [hm]
    · have : ¬ (n = m) := fun h => hmn h.symm
      simp [hmn, this]

theorem count_removed_flatMap (ns : List GridClientNode) (hns : ns.Nodup)
    (ls : TGridClientTopologyListenerList) (l : TGridClientTopologyListenerPtr)
    (n : GridClientNode) :
    (ns.flatMap (fun m => ls.map (fun x => Effect.onNodeRemoved x m))).count
        (Effect.onNodeRemoved l n) = if n ∈ ns then ls.count l else 0 := by
  induction ns with
  | nil => simp
  | cons m ms ih =>
    have hm : m ∉ ms := (List.nodup_cons.1 hns).1
    rw [List.flatMap_cons, List.count_append, ih (List.nodup_cons.1 hns).2,
      count_onNodeRemoved_map]
    by_cases hmn : m = n
    · subst hmn
      simp [hm]
    · have : ¬ (n = m) := fun h => hmn h.symm
      simp [hmn, this]

theorem count_removed_in_added (ns : List GridClientNode)
    (ls : TGridClientTopologyListenerList) (l : TGridClientTopologyListenerPtr)
    (n : GridClientNode) :
    (ns.flatMap (fun m => ls.map (fun x => Effect.onNodeAdded x m))).count
        (Effect.onNodeRemoved l n) = 0 := by
  rw [List.count_eq_zero]
  intro h
  obtain ⟨m, _, hm⟩ := List.mem_flatMap.1 h
  obtain ⟨x, _, hx⟩ := List.mem_map.1 hm
  cases hx

theorem count_added_in_removed (ns : List GridClientNode)
    (ls : TGridClientTopologyListenerList) (l : TGridClientTopologyListenerPtr)
    (n : GridClientNode) :
    (ns.flatMap (fun m => ls.map (fun x => Effect.onNodeRemoved x m))).count
        (Effect.onNodeAdded l n) = 0 := by
  rw [List.count_eq_zero]
  intro h
  obtain ⟨m, _, hm⟩ := List.mem_flatMap.1 h
  obtain ⟨x, _, hx⟩ := List.mem_map.1 hm
  cases hx

/-- On sets, the callbacks of `fireTopologyEvents` are the added-callbacks for the nodes of
`updNodes` whose id is not in `prevNodes`, then the removed-callbacks for the nodes of
`prevNodes` whose id is not in `updNodes`. -/
theorem eventCallbacks_eq (lsnrs : TGridClientTopologyListenerList) (updNodes prevNodes : TNodesSet)
    (hU : IsNodesSet updNodes) (hP : IsNodesSet prevNodes) :
    eventCallbacks lsnrs updNodes prevNodes =
      (nodesNotIn updNodes prevNodes).flatMap
          (fun n => lsnrs.map (fun l => Effect.onNodeAdded l n)) ++
        (nodesNotIn prevNodes updNodes).flatMap
          (fun n => lsnrs.map (fun l => Effect.onNodeRemoved l n)) := by
  unfold eventCallbacks
  rw [set_difference_eq _ _ hU hP, set_difference_eq _ _ hP hU,
    insertRange_nil_of_isNodesSet _ (isNodesSet_nodesNotIn _ _ hU),
    insertRange_nil_of_isNodesSet _ (isNodesSet_nodesNotIn _ _ hP)]

namespace GridClientImpl

variable {ω : Type}

/-- C2 (diff correctness).  For node sets `updNodes` and `prevNodes`, the callbacks made by
`fireTopologyEvents` are: for each node of `updNodes` whose id is not in `prevNodes`, the
added-callback of every entry of the listener list; then, for each node of `prevNodes` whose
id is not in `updNodes`, the removed-callback of every entry of the listener list.  So the
added-callback of a listener for a node is invoked once per registration of the listener
(exactly once when it is registered once) if the node is in `updNodes` and its id is not in
`prevNodes`, and never otherwise; likewise for the removed-callback with the two sets
exchanged; and no callback at all is invoked for a node whose id is in both sets. -/
theorem fireTopologyEvents_diff (W : Collaborators ω) (c : GridClientImpl ω)
    (updNodes prevNodes : TNodesSet) (hU : IsNodesSet updNodes) (hP : IsNodesSet prevNodes) :
    callbacks (traceSince c (fireTopologyEvents W updNodes prevNodes c)) =
        (nodesNotIn updNodes prevNodes).flatMap
            (fun n => c.topLsnrs.map (fun l => Effect.onNodeAdded l n)) ++
          (nodesNotIn prevNodes updNodes).flatMap
            (fun n => c.topLsnrs.map (fun l => Effect.onNodeRemoved l n)) ∧
      (∀ (l : TGridClientTopologyListenerPtr) (n : GridClientNode),
        (callbacks (traceSince c (fireTopologyEvents W updNodes prevNodes c))).count
            (Effect.onNodeAdded l n) =
          if n ∈ updNodes ∧ n.nodeId ∉ prevNodes.map GridClientNode.nodeId
          then c.topLsnrs.count l else 0) ∧
      (∀ (l : TGridClientTopologyListenerPtr) (n : GridClientNode),
        (callbacks (traceSince c (fireTopologyEvents W updNodes prevNodes c))).count
            (Effect.onNodeRemoved l n) =
          if n ∈ prevNodes ∧ n.nodeId ∉ updNodes.map GridClientNode.nodeId
          then c.topLsnrs.count l else 0) ∧
      (∀ (l : TGridClientTopologyListenerPtr) (n : GridClientNode),
        n.nodeId ∈ updNodes.map GridClientNode.nodeId →
        n.nodeId ∈ prevNodes.map GridClientNode.nodeId →
          Effect.onNodeAdded l n ∉
              callbacks (traceSince c (fireTopologyEvents W updNodes prevNodes c)) ∧
            Effect.onNodeRemoved l n ∉
              callbacks (traceSince c (fireTopologyEvents W updNodes prevNodes c))) := by
  obtain ⟨t, h1, _, h3⟩ := fireTopologyEvents_emits W updNodes prevNodes c
  have hcb : callbacks (traceSince c (fireTopologyEvents W updNodes prevNodes c)) =
      (nodesNotIn updNodes prevNodes).flatMap
          (fun n => c.topLsnrs.map (fun l => Effect.onNodeAdded l n)) ++
        (nodesNotIn prevNodes updNodes).flatMap
          (fun n => c.topLsnrs.map (fun l => Effect.onNodeRemoved l n)) := by
    rw [traceSince_of_trace_eq h1.trace_eq, h3, eventCallbacks_eq _ _ _ hU hP]
  have hadd : ∀ (l : TGridClientTopologyListenerPtr) (n : GridClientNode),
      (callbacks (traceSince c (fireTopologyEvents W updNodes prevNodes c))).count
          (Effect.onNodeAdded l n) =
        if n ∈ updNodes ∧ n.nodeId ∉ prevNodes.map GridClientNode.nodeId
        then c.topLsnrs.count l else 0 := by
    intro l n
    rw [hcb, List.count_append, count_added_in_removed,
      count_added_flatMap _ (isNodesSet_nodesNotIn _ _ hU).nodup, Nat.add_zero]
    simp only [mem_nodesNotIn]
  have hrem : ∀ (l : TGridClientTopologyListenerPtr) (n : GridClientNode),
      (callbacks (traceSince c (fireTopologyEvents W updNodes prevNodes c))).count
          (Effect.onNodeRemoved l n) =
        if n ∈ prevNodes ∧ n.nodeId ∉ updNodes.map GridClientNode.nodeId
        then c.topLsnrs.count l else 0 := by
    intro l n
    rw [hcb, List.count_append, count_removed_in_added,
      count_removed_flatMap _ (isNodesSet_nodesNotIn _ _ hP).nodup, Nat.zero_add]
    simp only [mem_nodesNotIn]
  refine ⟨hcb, hadd, hrem, fun l n hnU hnP => ⟨?_, ?_⟩⟩
  · rw [← List.count_eq_zero, hadd]
    simp [hnP]
  · rw [← List.count_eq_zero, hrem]
    simp [hnU]

/-- Witness of C2: previous snapshot 1, 2, 3 and updated snapshot 2, 3, 4, with two
listeners: each listener gets one added-event for node 4, then one removed-event for node 1,
and nothing for the nodes 2 and 3. -/
theorem fireTopologyEvents_diff_witness :
    IsNodesSet [⟨2, 0⟩, ⟨3, 0⟩, ⟨4, 0⟩] ∧ IsNodesSet [⟨1, 0⟩, ⟨2, 0⟩, ⟨3, 0⟩] ∧
      callbacks (traceSince sampleClient (fireTopologyEvents sampleCollaborators
          [⟨2, 0⟩, ⟨3, 0⟩, ⟨4, 0⟩] [⟨1, 0⟩, ⟨2, 0⟩, ⟨3, 0⟩] sampleClient)) =
        [Effect.onNodeAdded 1 ⟨4, 0⟩, Effect.onNodeAdded 2 ⟨4, 0⟩,
          Effect.onNodeRemoved 1 ⟨1, 0⟩, Effect.onNodeRemoved 2 ⟨1, 0⟩] :=
  ⟨by decide, by decide,
    (fireTopologyEvents_diff sampleCollaborators sampleClient [⟨2, 0⟩, ⟨3, 0⟩, ⟨4, 0⟩]
      [⟨1, 0⟩, ⟨2, 0⟩, ⟨3, 0⟩] (by decide) (by decide)).1.trans (by decide)⟩

/-- C7 (listener isolation).  Whatever the callbacks raise (an exception object or anything
else), `fireTopologyEvents` returns, having changed nothing in the client but the state of the
collaborators and the trace, to which it has added only callback and error log records; the
sequence of callbacks it has invoked is the one invoked when no callback raises, which the
listener list and the two node sets determine.  In particular every listener of the list gets
the added-callback for every node of the first difference and the removed-callback for every
node of the second one, whatever the listeners before it, or itself on earlier events, have
raised. -/
theorem fireTopologyEvents_isolation (W : Collaborators ω) (c : GridClientImpl ω)
    (updNodes prevNodes : TNodesSet) :
    callbacks (traceSince c (fireTopologyEvents W updNodes prevNodes c)) =
        callbacks (traceSince c (fireTopologyEvents W.neverRaising updNodes prevNodes c)) ∧
      callbacks (traceSince c (fireTopologyEvents W updNodes prevNodes c)) =
        eventCallbacks c.topLsnrs updNodes prevNodes ∧
      Emits c (fireTopologyEvents W updNodes prevNodes c)
        (traceSince c (fireTopologyEvents W updNodes prevNodes c)) ∧
      OnlyDispatch (traceSince c (fireTopologyEvents W updNodes prevNodes c)) ∧
      (∀ l ∈ c.topLsnrs,
        (∀ n ∈ TNodesSet.insertRange [] (set_difference updNodes prevNodes),
          Effect.onNodeAdded l n ∈
            callbacks (traceSince c (fireTopologyEvents W updNodes prevNodes c))) ∧
        (∀ n ∈ TNodesSet.insertRange [] (set_difference prevNodes updNodes),
          Effect.onNodeRemoved l n ∈
            callbacks (traceSince c (fireTopologyEvents W updNodes prevNodes c)))) := by
  obtain ⟨t, h1, h2, h3⟩ := fireTopologyEvents_emits W updNodes prevNodes c
  obtain ⟨t', k1, _, k3⟩ := fireTopologyEvents_emits W.neverRaising updNodes prevNodes c
  rw [traceSince_of_trace_eq h1.trace_eq, traceSince_of_trace_eq k1.trace_eq]
  refine ⟨h3.trans k3.symm, h3, h1, h2, fun l hl => ⟨fun n hn => ?_, fun n hn => ?_⟩⟩
  · rw [h3]
    exact List.mem_append_left _
      (List.mem_flatMap.2 ⟨n, hn, List.mem_map.2 ⟨l, hl, rfl⟩⟩)
  · rw [h3]
    exact List.mem_append_right _
      (List.mem_flatMap.2 ⟨n, hn, List.mem_map.2 ⟨l, hl, rfl⟩⟩)

/-- An instance of C7: listener 1 raises from both of its callbacks, listener 2 is registered
after it; listener 2 still gets the added-event for node 4, and both get the removed-event for
node 1 afterwards; what was raised is logged. -/
theorem fireTopologyEvents_isolation_example :
    traceSince sampleClient (fireTopologyEvents sampleCollaborators
        [⟨2, 0⟩, ⟨3, 0⟩, ⟨4, 0⟩] [⟨1, 0⟩, ⟨2, 0⟩, ⟨3, 0⟩] sampleClient) =
      [Effect.onNodeAdded 1 ⟨4, 0⟩,
        Effect.logError "Got exception from topology listener [what=bad]",
        Effect.onNodeAdded 2 ⟨4, 0⟩,
        Effect.onNodeRemoved 1 ⟨1, 0⟩,
        Effect.logError "Got unknown exception from topology listener.",
        Effect.onNodeRemoved 2 ⟨1, 0⟩] := by
  decide

/-- C5 (servers and routers exclude each other).  The constructor raises exactly when the
server list and the router list of the configuration are both non-empty; what it raises is
the `GridClientException` of the configuration check. -/
theorem construct_raises_iff (W : Collaborators ω) (cfg : GridClientConfiguration) (w : ω) :
    ((∃ e, (construct W cfg w).1 = Except.error e) ↔ (cfg.servers ≠ [] ∧ cfg.routers ≠ [])) ∧
      ((∃ c, (construct W cfg w).1 = Except.ok c) ↔ (cfg.servers = [] ∨ cfg.routers = [])) ∧
      ∀ e, (construct W cfg w).1 = Except.error e → e.what =
        "Both servers and routers are specified in configuration, which is not allowed." := by
  unfold construct
  cases hs : cfg.servers <;> cases hr : cfg.routers <;> simp

end GridClientImpl

theorem dataConstructions_append (t t' : List Effect) :
    dataConstructions (t ++ t') = dataConstructions t ++ dataConstructions t' := by
  simp [dataConstructions, List.filterMap_append]

theorem lookup_eq_none_iff_not_mem_keys (m : List (String × PrjPtr)) (k : String) :
    m.lookup k = none ↔ k ∉ m.map Prod.fst := by
  rw [List.lookup_eq_none_iff]
  constructor
  · intro h hk
    obtain ⟨x, hx, hxk⟩ := List.mem_map.1 hk
    have := h x hx
    simp [hxk] at this
  · intro h x hx
    have : k ≠ x.1 := fun hk => h (List.mem_map.2 ⟨x, hx, hk.symm⟩)
    simpa using this

theorem mem_of_lookup_eq_some {m : List (String × PrjPtr)} {k : String} {p : PrjPtr}
    (h : m.lookup k = some p) : (k, p) ∈ m := by
  obtain ⟨l1, l2, rfl, _⟩ := List.lookup_eq_some_iff.1 h
  simp

/-- A map with one object per entry sends different names to different objects. -/
theorem key_eq_of_lookup_eq {m : List (String × PrjPtr)} (hm : (m.map Prod.snd).Nodup)
    {k1 k2 : String} {p : PrjPtr} (h1 : m.lookup k1 = some p) (h2 : m.lookup k2 = some p) :
    k1 = k2 := by
  have := List.inj_on_of_nodup_map hm (mem_of_lookup_eq_some h1) (mem_of_lookup_eq_some h2) rfl
  exact (Prod.mk.inj this).1

/-! ## The map of data projections -/

/-- The comparison of the keys is the order of strings. -/
theorem key_comp_iff (a b : String) : TDataPrjMap.key_comp a b = true ↔ a < b := by
  unfold TDataPrjMap.key_comp
  rw [decide_eq_true_iff, String.lt_iff_toList_lt]

theorem insert_cons_of_lt (entry e : String × PrjPtr) (es : TDataPrjMap) (h : entry.1 < e.1) :
    TDataPrjMap.insert entry (e :: es) = entry :: e :: es := by
  simp [TDataPrjMap.insert, (key_comp_iff _ _).2 h]

theorem insert_cons_of_gt (entry e : String × PrjPtr) (es : TDataPrjMap) (h : e.1 < entry.1) :
    TDataPrjMap.insert entry (e :: es) = e :: TDataPrjMap.insert entry es := by
  have h1 : ¬ TDataPrjMap.key_comp entry.1 e.1 = true :=
    fun hh => lt_asymm h ((key_comp_iff _ _).1 hh)
  simp [TDataPrjMap.insert, h1, (key_comp_iff _ _).2 h]

theorem insert_cons_of_eq (entry e : String × PrjPtr) (es : TDataPrjMap) (h : entry.1 = e.1) :
    TDataPrjMap.insert entry (e :: es) = e :: es := by
  have h1 : ¬ TDataPrjMap.key_comp entry.1 e.1 = true :=
    fun hh => lt_irrefl _ (h ▸ (key_comp_iff _ _).1 hh)
  have h2 : ¬ TDataPrjMap.key_comp e.1 entry.1 = true :=
    fun hh => lt_irrefl _ (h ▸ (key_comp_iff _ _).1 hh)
  simp [TDataPrjMap.insert, h1, h2]

/-- Inserting an entry whose key is not in the map adds the entry and keeps the others. -/
theorem perm_insert (entry : String × PrjPtr) (m : TDataPrjMap)
    (h : entry.1 ∉ m.map Prod.fst) : (TDataPrjMap.insert entry m).Perm (entry :: m) := by
  induction m with
  | nil => exact List.Perm.refl _
  | cons e es ih =>
    have he : entry.1 ≠ e.1 := fun heq => h (by simp [heq])
    have hes : entry.1 ∉ es.map Prod.fst := fun hm => h (by simp at hm ⊢; exact Or.inr hm)
    rcases lt_trichotomy entry.1 e.1 with h1 | h1 | h1
    · rw [insert_cons_of_lt _ _ _ h1]
    · exact absurd h1 he
    · rw [insert_cons_of_gt _ _ _ h1]
      exact ((ih hes).cons e).trans (List.Perm.swap entry e es)

/-- After the insertion of an entry whose key was not in the map, the key has the entry. -/
theorem lookup_insert_self {m : TDataPrjMap} {k : String} {p : PrjPtr}
    (h : m.lookup k = none) : (TDataPrjMap.insert (k, p) m).lookup k = some p := by
  induction m with
  | nil => simp [TDataPrjMap.insert, List.lookup]
  | cons e es ih =>
    obtain ⟨k1, p1⟩ := e
    have hk : k ∉ ((k1, p1) :: es).map Prod.fst := (lookup_eq_none_iff_not_mem_keys _ _).1 h
    have hne : k ≠ k1 := fun heq => hk (by simp [heq])
    have hes : es.lookup k = none :=
      (lookup_eq_none_iff_not_mem_keys _ _).2 (fun hm => hk (by simp at hm ⊢; exact Or.inr hm))
    rcases lt_trichotomy k k1 with h1 | h1 | h1
    · rw [insert_cons_of_lt (k, p) (k1, p1) es h1]
      simp [List.lookup]
    · exact absurd h1 hne
    · rw [insert_cons_of_gt (k, p) (k1, p1) es h1, List.lookup_cons]
      have : (k == k1) = false := by simpa using hne
      rw [this]
      exact ih hes

/-- The insertion of an entry whose key was not in the map keeps what the other keys have. -/
theorem lookup_insert_of_some {m : TDataPrjMap} {k k' : String} {p q : PrjPtr}
    (h : m.lookup k = none) (h' : m.lookup k' = some q) :
    (TDataPrjMap.insert (k, p) m).lookup k' = some q := by
  have hne : (k' == k) = false := by
    have : k' ≠ k := by
      rintro rfl
      rw [h] at h'
      cases h'
    simpa using this
  induction m with
  | nil => simp [List.lookup] at h'
  | cons e es ih =>
    obtain ⟨k1, p1⟩ := e
    have hk : k ∉ ((k1, p1) :: es).map Prod.fst := (lookup_eq_none_iff_not_mem_keys _ _).1 h
    have hk1 : k ≠ k1 := fun heq => hk (by simp [heq])
    have hes : es.lookup k = none :=
      (lookup_eq_none_iff_not_mem_keys _ _).2 (fun hm => hk (by simp at hm ⊢; exact Or.inr hm))
    rcases lt_trichotomy k k1 with h1 | h1 | h1
    · rw [insert_cons_of_lt (k, p) (k1, p1) es h1, List.lookup_cons, hne]
      exact h'
    · exact absurd h1 hk1
    · rw [insert_cons_of_gt (k, p) (k1, p1) es h1]
      rw [List.lookup_cons] at h' ⊢
      cases hb : (k' == k1) with
      | true =>
        rw [hb] at h'
        exact h'
      | false =>
        rw [hb] at h'
        exact ih hes h'

/-- A second insertion under the same key leaves the map as the first one made it. -/
theorem insert_insert_same (m : TDataPrjMap) (k : String) (p q : PrjPtr)
    (h : m.lookup k = none) :
    TDataPrjMap.insert (k, q) (TDataPrjMap.insert (k, p) m) = TDataPrjMap.insert (k, p) m := by
  induction m with
  | nil => exact insert_cons_of_eq (k, q) (k, p) [] rfl
  | cons e es ih =>
    obtain ⟨k1, p1⟩ := e
    have hk : k ∉ ((k1, p1) :: es).map Prod.fst := (lookup_eq_none_iff_not_mem_keys _ _).1 h
    have hk1 : k ≠ k1 := fun heq => hk (by simp [heq])
    have hes : es.lookup k = none :=
      (lookup_eq_none_iff_not_mem_keys _ _).2 (fun hm => hk (by simp at hm ⊢; exact Or.inr hm))
    rcases lt_trichotomy k k1 with h1 | h1 | h1
    · rw [insert_cons_of_lt (k, p) (k1, p1) es h1]
      exact insert_cons_of_eq (k, q) (k, p) _ rfl
    · exact absurd h1 hk1
    · rw [insert_cons_of_gt (k, p) (k1, p1) es h1, insert_cons_of_gt (k, q) (k1, p1) _ h1,
        ih hes]

/-- An entry of the map after an insertion is the entry inserted or an entry from before. -/
theorem mem_dataPrjMap_insert {entry x : String × PrjPtr} {m : TDataPrjMap}
    (h : x ∈ TDataPrjMap.insert entry m) : x = entry ∨ x ∈ m := by
  induction m with
  | nil =>
    simp only [TDataPrjMap.insert, List.mem_singleton] at h
    exact Or.inl h
  | cons e es ih =>
    rcases lt_trichotomy entry.1 e.1 with h1 | h1 | h1
    · rw [insert_cons_of_lt _ _ _ h1] at h
      exact List.mem_cons.1 h
    · rw [insert_cons_of_eq _ _ _ h1] at h
      exact Or.inr h
    · rw [insert_cons_of_gt _ _ _ h1] at h
      rcases List.mem_cons.1 h with rfl | h
      · exact Or.inr (List.mem_cons_self _ _)
      · rcases ih h with h | h
        · exact Or.inl h
        · exact Or.inr (List.mem_cons_of_mem _ h)

/-- An insertion keeps the map strictly ascending by key. -/
theorem isDataPrjMap_insert (entry : String × PrjPtr) (m : TDataPrjMap) (h : IsDataPrjMap m) :
    IsDataPrjMap (TDataPrjMap.insert entry m) := by
  induction m with
  | nil => simp [TDataPrjMap.insert, IsDataPrjMap]
  | cons e es ih =>
    have hes : IsDataPrjMap es := (List.pairwise_cons.1 h).2
    have hhead := (List.pairwise_cons.1 h).1
    rcases lt_trichotomy entry.1 e.1 with h1 | h1 | h1
    · rw [insert_cons_of_lt _ _ _ h1]
      refine List.pairwise_cons.2 ⟨fun x hx => ?_, h⟩
      rcases List.mem_cons.1 hx with rfl | hx
      · exact h1
      · exact lt_trans h1 (hhead x hx)
    · rw [insert_cons_of_eq _ _ _ h1]
      exact h
    · rw [insert_cons_of_gt _ _ _ h1]
      refine List.pairwise_cons.2 ⟨fun x hx => ?_, ih hes⟩
      rcases mem_dataPrjMap_insert hx with rfl | hx
      · exact h1
      · exact hhead x hx

/-- On a well-formed map, an insertion under a key that is present leaves the map as it is. -/
theorem insert_of_lookup_some (entry : String × PrjPtr) (m : TDataPrjMap) (h : IsDataPrjMap m)
    (q : PrjPtr) (hq : m.lookup entry.1 = some q) : TDataPrjMap.insert entry m = m := by
  induction m with
  | nil => simp [List.lookup] at hq
  | cons e es ih =>
    have hes : IsDataPrjMap es := (List.pairwise_cons.1 h).2
    have hhead := (List.pairwise_cons.1 h).1
    rcases lt_trichotomy entry.1 e.1 with h1 | h1 | h1
    · exfalso
      have hmem := mem_of_lookup_eq_some hq
      rcases List.mem_cons.1 hmem with he | he
      · rw [← he] at h1
        exact lt_irrefl _ h1
      · exact lt_asymm h1 (hhead (entry.1, q) he)
    · exact insert_cons_of_eq _ _ _ h1
    · rw [insert_cons_of_gt _ _ _ h1]
      rw [List.lookup_cons] at hq
      have : (entry.1 == e.1) = false := by simpa using (ne_of_gt h1)
      rw [this] at hq
      rw [ih hes hq]

namespace GridClientImpl

variable {ω : Type}

theorem cacheInv_memberInit (cfg : GridClientConfiguration) (w : ω) :
    CacheInv (memberInit cfg w) :=
  ⟨List.nodup_nil, List.nodup_nil, by simp [memberInit], by simp [memberInit],
    List.Perm.refl _⟩

theorem cacheInv_sampleClient : CacheInv sampleClient :=
  ⟨List.nodup_nil, List.nodup_nil, by simp [sampleClient, memberInit],
    by simp [sampleClient, memberInit], List.Perm.refl _⟩

theorem getOrCreateDataProjection_hit {cacheName : String} {c : GridClientImpl ω} {p : PrjPtr}
    (h : c.mainDataPrjs.lookup cacheName = some p) :
    getOrCreateDataProjection cacheName c = (p, c) := by
  simp [getOrCreateDataProjection, h]

theorem getOrCreateDataProjection_miss {cacheName : String} {c : GridClientImpl ω}
    (h : c.mainDataPrjs.lookup cacheName = none) :
    getOrCreateDataProjection cacheName c =
      (c.heap.length,
        { c with
          heap := c.heap ++ [{ impl := ProjectionImpl.data cacheName none [], invalidations := 0 }]
          trace := c.trace ++ [Effect.newDataProjection c.heap.length cacheName]
          mainDataPrjs := TDataPrjMap.insert (cacheName, c.heap.length) c.mainDataPrjs }) := by
  simp [getOrCreateDataProjection, h, allocate, emit]

/-- One `data(cacheName)` call: the invariant is kept, the handle returned is the entry of the
name afterwards, and the entries that were there are kept. -/
theorem data_spec (cacheName : String) (c : GridClientImpl ω) (h : CacheInv c) :
    CacheInv (data cacheName c).2 ∧
      (data cacheName c).2.mainDataPrjs.lookup cacheName = some (data cacheName c).1 ∧
      (∀ n p, c.mainDataPrjs.lookup n = some p →
        (data cacheName c).2.mainDataPrjs.lookup n = some p) := by
  unfold data
  cases hl : c.mainDataPrjs.lookup cacheName with
  | some p =>
    rw [getOrCreateDataProjection_hit hl]
    exact ⟨h, hl, fun n p hn => hn⟩
  | none =>
    rw [getOrCreateDataProjection_miss hl]
    have hk : cacheName ∉ c.mainDataPrjs.map Prod.fst :=
      (lookup_eq_none_iff_not_mem_keys _ _).1 hl
    have hfresh : c.heap.length ∉ c.mainDataPrjs.map Prod.snd :=
      fun hm => lt_irrefl _ (h.ptrs_valid _ hm)
    have hperm : (TDataPrjMap.insert (cacheName, c.heap.length) c.mainDataPrjs).Perm
        ((cacheName, c.heap.length) :: c.mainDataPrjs) := perm_insert _ _ hk
    refine ⟨⟨?_, ?_, ?_, ?_, ?_⟩, lookup_insert_self hl,
      fun n p hn => lookup_insert_of_some hl hn⟩
    · refine ((hperm.map Prod.fst).nodup_iff).2 ?_
      exact List.nodup_cons.2 ⟨hk, h.keys_nodup⟩
    · refine ((hperm.map Prod.snd).nodup_iff).2 ?_
      exact List.nodup_cons.2 ⟨hfresh, h.ptrs_nodup⟩
    · intro p hp
      have hp' : p ∈ ((cacheName, c.heap.length) :: c.mainDataPrjs).map Prod.snd :=
        (hperm.map Prod.snd).subset hp
      rw [List.map_cons, List.mem_cons] at hp'
      rw [List.length_append, List.length_singleton]
      rcases hp' with hp' | hp'
      · rw [hp']
        exact Nat.lt_succ_self _
      · exact Nat.lt_succ_of_lt (h.ptrs_valid p hp')
    · intro p hp
      obtain ⟨h1, h2⟩ := h.compute_valid p hp
      refine ⟨?_, fun hm => ?_⟩
      · rw [List.length_append, List.length_singleton]
        exact Nat.lt_succ_of_lt h1
      · have hm' : p ∈ ((cacheName, c.heap.length) :: c.mainDataPrjs).map Prod.snd :=
          (hperm.map Prod.snd).subset hm
        rw [List.map_cons, List.mem_cons] at hm'
        rcases hm' with hm' | hm'
        · exact lt_irrefl _ (hm' ▸ h1)
        · exact h2 hm'
    · rw [dataConstructions_append]
      have : dataConstructions [Effect.newDataProjection c.heap.length cacheName] =
          [(cacheName, c.heap.length)] := rfl
      rw [this]
      exact (List.perm_append_singleton _ _).trans
        ((h.constructed.cons _).trans hperm.symm)

/-- A sequence of `data` calls: the invariant is kept, one handle is returned per call, each
handle is the entry of its name in the final map, and the entries that were there are kept. -/
theorem dataCalls_spec (names : List String) (c : GridClientImpl ω) (h : CacheInv c) :
    CacheInv (dataCalls names c).2 ∧
      (dataCalls names c).1.length = names.length ∧
      (∀ x ∈ names.zip (dataCalls names c).1,
        (dataCalls names c).2.mainDataPrjs.lookup x.1 = some x.2) ∧
      (∀ n p, c.mainDataPrjs.lookup n = some p →
        (dataCalls names c).2.mainDataPrjs.lookup n = some p) := by
  induction names generalizing c with
  | nil => exact ⟨h, rfl, by simp [dataCalls], fun n p hn => hn⟩
  | cons name rest ih =>
    obtain ⟨h1, h2, h3⟩ := data_spec name c h
    obtain ⟨k1, k2, k3, k4⟩ := ih (data name c).2 h1
    refine ⟨k1, by simp [dataCalls, k2], ?_, fun n p hn => k4 n p (h3 n p hn)⟩
    intro x hx
    simp only [dataCalls, List.zip_cons_cons, List.mem_cons] at hx
    rcases hx with rfl | hx
    · exact k4 _ _ h2
    · exact k3 x hx

theorem mem_zip_of_getElem? {α β : Type} {l : List α} {l' : List β} {i : Nat} {a : α} {b : β}
    (ha : l[i]? = some a) (hb : l'[i]? = some b) : (a, b) ∈ l.zip l' := by
  apply List.getElem?_mem (n := i)
  rw [List.getElem?_zip_eq_some]
  exact ⟨ha, hb⟩

/-- C8 (one projection per cache name).  In a sequence of `data(cacheName)` calls on a client
whose cache is well formed, every call returns a handle; the handles of two calls are equal
exactly when their cache names are equal; over the whole life of the client no name has had
more than one projection constructed; and `data()` is `data("")`. -/
theorem dataCalls_same_instance_iff (c : GridClientImpl ω) (h : CacheInv c)
    (names : List String) :
    (dataCalls names c).1.length = names.length ∧
      (∀ (i j : Nat) (n1 n2 : String) (p1 p2 : PrjPtr),
        names[i]? = some n1 → names[j]? = some n2 →
        (dataCalls names c).1[i]? = some p1 → (dataCalls names c).1[j]? = some p2 →
          (p1 = p2 ↔ n1 = n2)) ∧
      (∀ n, ((dataConstructions (dataCalls names c).2.trace).map Prod.fst).count n ≤ 1) ∧
      dataDefault c = data "" c := by
  obtain ⟨h1, h2, h3, _⟩ := dataCalls_spec names c h
  refine ⟨h2, ?_, ?_, rfl⟩
  · intro i j n1 n2 p1 p2 hn1 hn2 hp1 hp2
    have e1 := h3 _ (mem_zip_of_getElem? hn1 hp1)
    have e2 := h3 _ (mem_zip_of_getElem? hn2 hp2)
    constructor
    · rintro rfl
      exact key_eq_of_lookup_eq h1.ptrs_nodup e1 e2
    · rintro rfl
      exact Option.some.inj (e1.symm.trans e2)
  · intro n
    rw [(h1.constructed.map Prod.fst).count_eq]
    exact List.nodup_iff_count_le_one.1 h1.keys_nodup n

/-- Witness of C8: on a client with an empty cache, `data("orders")` twice returns the same
instance, and `data("")` a different one. -/
theorem dataCalls_same_instance_iff_witness :
    CacheInv sampleClient ∧ (dataCalls ["orders", "orders", ""] sampleClient).1 = [0, 0, 1] ∧
      (((0 : PrjPtr) = 0 ↔ "orders" = "orders") ∧ ((0 : PrjPtr) = 1 ↔ "orders" = "")) :=
  ⟨cacheInv_sampleClient, by decide,
    (dataCalls_same_instance_iff sampleClient cacheInv_sampleClient
      ["orders", "orders", ""]).2.1 0 1 "orders" "orders" 0 0 (by decide) (by decide)
        (by decide) (by decide),
    (dataCalls_same_instance_iff sampleClient cacheInv_sampleClient
      ["orders", "orders", ""]).2.1 0 2 "orders" "" 0 1 (by decide) (by decide)
        (by decide) (by decide)⟩

end GridClientImpl

theorem invalidateCalls_append (t t' : List Effect) :
    invalidateCalls (t ++ t') = invalidateCalls t ++ invalidateCalls t' := by
  simp [invalidateCalls, List.filterMap_append]

theorem invalidateCalls_map_invalidate (ps : List PrjPtr) :
    invalidateCalls (ps.map Effect.invalidate) = ps := by
  induction ps with
  | nil => rfl
  | cons p ps ih =>
    simp only [invalidateCalls, List.map_cons, List.filterMap_cons] at ih ⊢
    rw [ih]

namespace GridClientImpl

variable {ω : Type}

theorem invalidateAll_cons (heap : List ProjectionObject) (p : PrjPtr) (ps : List PrjPtr) :
    invalidateAll heap (p :: ps) =
      invalidateAll
        (heap.modify (fun o => { o with invalidations := o.invalidations + 1 }) p) ps :=
  rfl

/-- After the invalidations of a list, an object has received as many more `invalidate()`
calls as its address occurs in the list, and is otherwise the same. -/
theorem getElem?_invalidateAll (heap : List ProjectionObject) (ps : List PrjPtr) (p : PrjPtr) :
    (invalidateAll heap ps)[p]? =
      (heap[p]?).map (fun o => { o with invalidations := o.invalidations + ps.count p }) := by
  induction ps generalizing heap with
  | nil =>
    have : invalidateAll heap [] = heap := rfl
    rw [this]
    cases heap[p]? <;> rfl
  | cons q ps ih =>
    rw [invalidateAll_cons, ih, List.getElem?_modify, List.count_cons]
    cases heap[p]? with
    | none => rfl
    | some o =>
      by_cases hq : q = p
      · subst hq
        simp [Nat.add_comm, Nat.add_left_comm]
      · simp [hq]

theorem foldl_invalidate (l : List (String × PrjPtr)) (c : GridClientImpl ω) :
    l.foldl (fun acc i => invalidate i.2 acc) c =
      { c with
        heap := invalidateAll c.heap (l.map Prod.snd)
        trace := c.trace ++ (l.map Prod.snd).map Effect.invalidate } := by
  induction l generalizing c with
  | nil => simp [invalidateAll]
  | cons x l ih =>
    rw [List.foldl_cons, ih]
    simp [invalidate, emit, invalidateAll]

theorem invalidateAll_append (heap : List ProjectionObject) (ps qs : List PrjPtr) :
    invalidateAll heap (ps ++ qs) = invalidateAll (invalidateAll heap ps) qs := by
  simp [invalidateAll, List.foldl_append]

/-- What `stop` does, member by member. -/
theorem stop_eq (W : Collaborators ω) (pWait : Bool) (c : GridClientImpl ω) :
    stop W pWait c =
      { c with
        topRefresher := none
        threadPoolRunning := false
        world := if pWait then c.world else W.executorStop c.world
        heap := invalidateAll c.heap (c.mainDataPrjs.map Prod.snd ++ c.mainComputePrj.toList)
        trace := c.trace ++ stopTrace c pWait } := by
  unfold stop
  simp only [foldl_invalidate]
  cases hr : c.topRefresher <;> cases hp : c.mainComputePrj <;> cases pWait <;>
    simp [stopTrace, emit, invalidate, invalidateAll_append, hr, hp, invalidateAll]

theorem traceSince_stop (W : Collaborators ω) (pWait : Bool) (c : GridClientImpl ω) :
    traceSince c (stop W pWait c) = stopTrace c pWait := by
  apply traceSince_of_trace_eq
  rw [stop_eq]

theorem invalidateCalls_stopTrace (c : GridClientImpl ω) (pWait : Bool) :
    invalidateCalls (stopTrace c pWait) =
      c.mainDataPrjs.map Prod.snd ++ c.mainComputePrj.toList := by
  unfold stopTrace
  rw [invalidateCalls_append, invalidateCalls_append, invalidateCalls_append,
    invalidateCalls_map_invalidate]
  cases c.topRefresher <;> cases pWait <;> simp [invalidateCalls]

theorem cacheInv_cachedClient : CacheInv cachedClient :=
  ⟨by decide, by decide, by decide,
    fun p hp => by
      have h1 : cachedClient.mainComputePrj = some 1 := by decide
      rw [h1] at hp
      cases hp
      decide,
    by decide⟩

theorem length_invalidateAll (heap : List ProjectionObject) (ps : List PrjPtr) :
    (invalidateAll heap ps).length = heap.length := by
  induction ps generalizing heap with
  | nil => rfl
  | cons p ps ih => rw [invalidateAll_cons, ih, List.length_modify]

/-- How often `stop` invalidates the object at an address: once if it is a data projection of
the map or the compute projection, else never. -/
theorem count_stop_targets (c : GridClientImpl ω) (h : CacheInv c) (p : PrjPtr) :
    (c.mainDataPrjs.map Prod.snd ++ c.mainComputePrj.toList).count p =
      if p ∈ c.mainDataPrjs.map Prod.snd ∨ c.mainComputePrj = some p then 1 else 0 := by
  rw [List.count_append, List.count_eq_of_nodup h.ptrs_nodup]
  cases hc : c.mainComputePrj with
  | none =>
    by_cases hp : p ∈ c.mainDataPrjs.map Prod.snd <;> simp [hp]
  | some q =>
    have hq := (h.compute_valid q hc).2
    by_cases hpq : q = p
    · subst hpq
      simp [hq]
    · have : ¬ (p = q) := fun e => hpq e.symm
      by_cases hp : p ∈ c.mainDataPrjs.map Prod.snd <;> simp [hp, hpq, this]

theorem stop_mainDataPrjs (W : Collaborators ω) (pWait : Bool) (c : GridClientImpl ω) :
    (stop W pWait c).mainDataPrjs = c.mainDataPrjs := by
  rw [stop_eq]

theorem stop_mainComputePrj (W : Collaborators ω) (pWait : Bool) (c : GridClientImpl ω) :
    (stop W pWait c).mainComputePrj = c.mainComputePrj := by
  rw [stop_eq]

/-- The heap after `stop`: every object is what it was, with one more `invalidate()` call
received if it is a data projection of the map or the compute projection. -/
theorem deref_stop (W : Collaborators ω) (pWait : Bool) (c : GridClientImpl ω) (h : CacheInv c)
    (p : PrjPtr) (o : ProjectionObject) (ho : deref c p = some o) :
    ∃ o', deref (stop W pWait c) p = some o' ∧ o'.impl = o.impl ∧
      o'.invalidations = o.invalidations +
        if p ∈ c.mainDataPrjs.map Prod.snd ∨ c.mainComputePrj = some p then 1 else 0 := by
  unfold deref at ho ⊢
  rw [stop_eq]
  simp only []
  rw [getElem?_invalidateAll, ho, count_stop_targets c h p]
  exact ⟨_, rfl, rfl, rfl⟩

/-- After `stop`, a projection that the client held is in the invalidated state. -/
theorem invalidated_after_stop (W : Collaborators ω) (pWait : Bool) (c : GridClientImpl ω)
    (h : CacheInv c) (p : PrjPtr)
    (hp : p ∈ c.mainDataPrjs.map Prod.snd ∨ c.mainComputePrj = some p) :
    ∃ o, deref (stop W pWait c) p = some o ∧ o.invalidated = true := by
  have hlt : p < c.heap.length := by
    rcases hp with hp | hp
    · exact h.ptrs_valid p hp
    · exact (h.compute_valid p hp).1
  have ho : deref c p = some (c.heap[p]) := by
    unfold deref
    exact List.getElem?_eq_getElem hlt
  obtain ⟨o', h1, _, h3⟩ := deref_stop W pWait c h p _ ho
  rw [if_pos hp] at h3
  refine ⟨o', h1, ?_⟩
  simp [ProjectionObject.invalidated, h3]

/-! ## The cache invariant holds in every state of a client -/

/-- A step that appends no construction record and leaves the cache and the heap as they
are keeps the invariant. -/
theorem CacheInv.of_same_cache {c c' : GridClientImpl ω} (h : CacheInv c)
    (hm : c'.mainDataPrjs = c.mainDataPrjs) (hc : c'.mainComputePrj = c.mainComputePrj)
    (hh : c'.heap.length = c.heap.length)
    (ht : dataConstructions c'.trace = dataConstructions c.trace) : CacheInv c' :=
  ⟨by rw [hm]; exact h.keys_nodup, by rw [hm]; exact h.ptrs_nodup,
    by rw [hm, hh]; exact h.ptrs_valid, by rw [hm, hh, hc]; exact h.compute_valid,
    by rw [hm, ht]; exact h.constructed⟩

theorem no_constructions_of_onlyDispatch {t : List Effect} (h : OnlyDispatch t) :
    dataConstructions t = [] := by
  induction t with
  | nil => rfl
  | cons e t ih =>
    have he := h e (List.mem_cons_self _ _)
    have ht : OnlyDispatch t := fun x hx => h x (List.mem_cons_of_mem _ hx)
    have := ih ht
    cases e <;> simp_all [dataConstructions, Effect.isCallback, Effect.isLogError]

theorem OnlyCommands.no_constructions {t : List Effect} (h : OnlyCommands t) :
    dataConstructions t = [] := by
  induction t with
  | nil => rfl
  | cons e t ih =>
    have he := h e (List.mem_cons_self _ _)
    have ht : OnlyCommands t := fun x hx => h x (List.mem_cons_of_mem _ hx)
    have := ih ht
    cases e <;> simp_all [dataConstructions, Effect.isCommand]

theorem cacheInv_refreshTopology (W : Collaborators ω) (c : GridClientImpl ω) (h : CacheInv c) :
    CacheInv (refreshTopology W c) := by
  by_cases hc : candidates c.cfg = []
  · rw [refreshTopology_of_candidates_nil W c hc]
    exact h
  · rcases refreshTopology_cases W c hc with ⟨t, errs, h1, h2, _, _⟩ | hs
    · have e := h1
      unfold Emits at e
      refine h.of_same_cache (by rw [e]) (by rw [e]) (by rw [e]) ?_
      rw [h1.trace_eq, dataConstructions_append, dataConstructions_append,
        h2.no_constructions]
      simp [dataConstructions]
    · obtain ⟨_, pre, a, post, errs, q, nbns, t1, t3, _, _, h3, _, h5, _, h7, _⟩ := hs
      have h7' : Refreshes c (refreshTopology W c) (t1 ++
          Effect.executeTopologyCmd a q (Except.ok nbns) ::
            Effect.topologyUpdate (TNodesSet.insertRange [] nbns) :: t3) := h7
      have e := h7'
      unfold Refreshes at e
      refine h.of_same_cache (by rw [e]) (by rw [e]) (by rw [e]) ?_
      rw [h7'.trace_append, dataConstructions_append, dataConstructions_append,
        h3.no_constructions]
      have : dataConstructions (Effect.executeTopologyCmd a q (Except.ok nbns) ::
          Effect.topologyUpdate (TNodesSet.insertRange [] nbns) :: t3) =
          dataConstructions t3 := rfl
      rw [this, no_constructions_of_onlyDispatch h5]
      simp

theorem cacheInv_addTopologyListener (lsnr : TGridClientTopologyListenerPtr)
    (c : GridClientImpl ω) (h : CacheInv c) : CacheInv (addTopologyListener lsnr c) :=
  h.of_same_cache rfl rfl rfl rfl

theorem cacheInv_removeTopologyListener (lsnr : TGridClientTopologyListenerPtr)
    (c c' : GridClientImpl ω) (h : CacheInv c) (hr : removeTopologyListener lsnr c = some c') :
    CacheInv c' := by
  unfold removeTopologyListener at hr
  simp only [] at hr
  split at hr
  · cases hr
    exact h.of_same_cache rfl rfl rfl rfl
  · cases hr

theorem cacheInv_compute (c : GridClientImpl ω) (h : CacheInv c) : CacheInv (compute c).2 := by
  unfold compute
  cases hc : c.mainComputePrj with
  | some p => exact h
  | none =>
    refine ⟨h.keys_nodup, h.ptrs_nodup, fun p hp => ?_, fun p hp => ?_, ?_⟩
    · simp only [allocate, emit, List.length_append, List.length_singleton]
      exact Nat.lt_succ_of_lt (h.ptrs_valid p hp)
    · simp only [allocate, emit, Option.some.injEq] at hp
      subst hp
      simp only [allocate, emit, List.length_append, List.length_singleton]
      exact ⟨Nat.lt_succ_self _, fun hm => lt_irrefl _ (h.ptrs_valid _ hm)⟩
    · simp only [allocate, emit, dataConstructions_append]
      have : dataConstructions [Effect.newComputeProjection c.heap.length] = [] := rfl
      rw [this, List.append_nil]
      exact h.constructed

theorem cacheInv_stop (W : Collaborators ω) (pWait : Bool) (c : GridClientImpl ω)
    (h : CacheInv c) : CacheInv (stop W pWait c) := by
  refine h.of_same_cache (stop_mainDataPrjs W pWait c) (stop_mainComputePrj W pWait c) ?_ ?_
  · rw [stop_eq]
    exact length_invalidateAll _ _
  · rw [stop_eq]
    simp only [dataConstructions_append]
    have : dataConstructions (stopTrace c pWait) = [] := by
      unfold stopTrace
      cases c.topRefresher <;> cases pWait <;>
        simp [dataConstructions, List.filterMap_append, List.filterMap_map]
    rw [this, List.append_nil]

theorem foldl_addTopologyListener (ls : TGridClientTopologyListenerList)
    (c : GridClientImpl ω) :
    ls.foldl (fun acc i => addTopologyListener i acc) c =
      { c with topLsnrs := c.topLsnrs ++ ls } := by
  induction ls generalizing c with
  | nil => simp
  | cons l ls ih =>
    rw [List.foldl_cons, ih]
    simp [addTopologyListener]

/-- The client that the constructor returns has a well-formed cache. -/
theorem cacheInv_construct (W : Collaborators ω) (cfg : GridClientConfiguration) (w : ω)
    (c : GridClientImpl ω) (hc : (construct W cfg w).1 = Except.ok c) : CacheInv c := by
  unfold construct at hc
  simp only [] at hc
  split at hc
  · cases hc
  · simp only [Except.ok.injEq] at hc
    rw [← hc]
    apply cacheInv_refreshTopology
    rw [foldl_addTopologyListener]
    exact (cacheInv_memberInit cfg w).of_same_cache rfl rfl rfl rfl

/-- The snapshot is a set in every state: a refresh keeps or replaces it by a set. -/
theorem isNodesSet_refreshTopology (W : Collaborators ω) (c : GridClientImpl ω)
    (h : IsNodesSet c.topology) : IsNodesSet (refreshTopology W c).topology := by
  by_cases hc : candidates c.cfg = []
  · rw [refreshTopology_of_candidates_nil W c hc]
    exact h
  · rcases refreshTopology_cases W c hc with ⟨t, errs, h1, _, _, _⟩ | hs
    · rw [h1.topology_eq]
      exact h
    · obtain ⟨_, _, _, _, nbns, _, _, _, h4, _⟩ := hs.attempts_eq
      rw [h4]
      exact (insertRange_spec [] nbns List.Pairwise.nil).1

/-! ## Shutdown and the projection cache -/

/-- C10 (shutdown invalidates every cached projection).  For either value of `pWait` and a
client whose cache is well formed, the `invalidate()` calls of `stop` are one call for each
entry of the data projection map, then one for the compute projection if there is one, and no
other; so every data projection constructed before the stop receives exactly one call, the
compute projection receives one exactly if it exists, and each object is otherwise unchanged.
The entries of the map and the compute handle are kept, so `data(name)` for a name used
before the stop returns the same instance, now invalidated, and constructs nothing. -/
theorem stop_invalidates_cache (W : Collaborators ω) (pWait : Bool) (c : GridClientImpl ω)
    (h : CacheInv c) :
    invalidateCalls (traceSince c (stop W pWait c)) =
        c.mainDataPrjs.map Prod.snd ++ c.mainComputePrj.toList ∧
      (∀ p, (invalidateCalls (traceSince c (stop W pWait c))).count p =
        if p ∈ c.mainDataPrjs.map Prod.snd ∨ c.mainComputePrj = some p then 1 else 0) ∧
      (∀ x ∈ dataConstructions c.trace,
        (invalidateCalls (traceSince c (stop W pWait c))).count x.2 = 1) ∧
      (∀ p o, deref c p = some o →
        ∃ o', deref (stop W pWait c) p = some o' ∧ o'.impl = o.impl ∧
          o'.invalidations = o.invalidations +
            if p ∈ c.mainDataPrjs.map Prod.snd ∨ c.mainComputePrj = some p then 1 else 0) ∧
      (stop W pWait c).mainDataPrjs = c.mainDataPrjs ∧
      (stop W pWait c).mainComputePrj = c.mainComputePrj ∧
      (∀ name p, c.mainDataPrjs.lookup name = some p →
        data name (stop W pWait c) = (p, stop W pWait c) ∧
          ∃ o, deref (stop W pWait c) p = some o ∧ o.invalidated = true) := by
  have hcalls : invalidateCalls (traceSince c (stop W pWait c)) =
      c.mainDataPrjs.map Prod.snd ++ c.mainComputePrj.toList := by
    rw [traceSince_stop, invalidateCalls_stopTrace]
  have hcount : ∀ p, (invalidateCalls (traceSince c (stop W pWait c))).count p =
      if p ∈ c.mainDataPrjs.map Prod.snd ∨ c.mainComputePrj = some p then 1 else 0 := by
    intro p
    rw [hcalls, count_stop_targets c h p]
  refine ⟨hcalls, hcount, fun x hx => ?_, deref_stop W pWait c h, stop_mainDataPrjs W pWait c,
    stop_mainComputePrj W pWait c, fun name p hl => ⟨?_, ?_⟩⟩
  · have hx' : x ∈ c.mainDataPrjs := h.constructed.subset hx
    rw [hcount, if_pos (Or.inl (List.mem_map.2 ⟨x, hx', rfl⟩))]
  · exact getOrCreateDataProjection_hit (by rw [stop_mainDataPrjs]; exact hl)
  · exact invalidated_after_stop W pWait c h p
      (Or.inl (List.mem_map.2 ⟨(name, p), mem_of_lookup_eq_some hl, rfl⟩))

/-- Witness of C10: the client with `data("orders")` at address 0 and the compute projection
at address 1 is stopped; both objects receive one `invalidate()` call. -/
theorem stop_invalidates_cache_witness :
    CacheInv cachedClient ∧
      invalidateCalls (traceSince cachedClient (stop sampleCollaborators false cachedClient)) =
        [0, 1] :=
  ⟨cacheInv_cachedClient,
    (stop_invalidates_cache sampleCollaborators false cachedClient cacheInv_cachedClient).1.trans
      (by decide)⟩

/-- After `stop`, on a client whose cache is well formed: `data(cacheName)` for a name that
has an entry returns the instance of the entry, which is in the invalidated state, and
constructs nothing; `compute()` returns the compute projection created before the stop, if
there is one, which is in the invalidated state; for a name that has no entry
`data(cacheName)` constructs a new object, which has received no `invalidate()` call, and makes
it the entry of the name; and so does `compute()` when no compute projection was created before
the stop. -/
theorem projection_after_stop_cases (W : Collaborators ω) (pWait : Bool) (c : GridClientImpl ω)
    (h : CacheInv c) :
    (∀ name p, c.mainDataPrjs.lookup name = some p →
        data name (stop W pWait c) = (p, stop W pWait c) ∧
          ∃ o, deref (stop W pWait c) p = some o ∧ o.invalidated = true) ∧
      (∀ p, c.mainComputePrj = some p →
        compute (stop W pWait c) = (p, stop W pWait c) ∧
          ∃ o, deref (stop W pWait c) p = some o ∧ o.invalidated = true) ∧
      (∀ name, c.mainDataPrjs.lookup name = none →
        deref (data name (stop W pWait c)).2 (data name (stop W pWait c)).1 =
          some { impl := ProjectionImpl.data name none [], invalidations := 0 } ∧
        (data name (stop W pWait c)).2.mainDataPrjs.lookup name =
          some (data name (stop W pWait c)).1 ∧
        dataConstructions (traceSince (stop W pWait c) (data name (stop W pWait c)).2) =
          [(name, (data name (stop W pWait c)).1)]) ∧
      (c.mainComputePrj = none →
        deref (compute (stop W pWait c)).2 (compute (stop W pWait c)).1 =
          some { impl := ProjectionImpl.compute none none, invalidations := 0 } ∧
        (compute (stop W pWait c)).2.mainComputePrj = some (compute (stop W pWait c)).1) := by
  have hmap := stop_mainDataPrjs W pWait c
  have hcomp := stop_mainComputePrj W pWait c
  refine ⟨fun name p hl => ⟨?_, ?_⟩, fun p hp => ⟨?_, ?_⟩, fun name hl => ?_, fun hn => ?_⟩
  · exact getOrCreateDataProjection_hit (by rw [hmap]; exact hl)
  · exact invalidated_after_stop W pWait c h p
      (Or.inl (List.mem_map.2 ⟨(name, p), mem_of_lookup_eq_some hl, rfl⟩))
  · simp [compute, hcomp, hp]
  · exact invalidated_after_stop W pWait c h p (Or.inr hp)
  · have hl' : (stop W pWait c).mainDataPrjs.lookup name = none := by rw [hmap]; exact hl
    unfold data
    rw [getOrCreateDataProjection_miss hl']
    refine ⟨by simp [deref], lookup_insert_self hl', ?_⟩
    simp [traceSince, dataConstructions]
  · have hn' : (stop W pWait c).mainComputePrj = none := by rw [hcomp]; exact hn
    simp [compute, hn', allocate, emit, deref]

/-- An instance of `projection_after_stop_cases`: after the stop of the client with
`data("orders")` at address 0 and the compute projection at address 1, `data("orders")` returns
address 0 and `compute()` address 1, and both objects are invalidated. -/
theorem projection_after_stop_cached :
    CacheInv cachedClient ∧
      (data "orders" (stop sampleCollaborators true cachedClient)).1 = 0 ∧
      (compute (stop sampleCollaborators true cachedClient)).1 = 1 ∧
      (deref (stop sampleCollaborators true cachedClient) 0).map ProjectionObject.invalidated =
        some true :=
  ⟨cacheInv_cachedClient,
    congrArg Prod.fst ((projection_after_stop_cases sampleCollaborators true cachedClient
      cacheInv_cachedClient).1 "orders" 0 (by decide)).1,
    congrArg Prod.fst ((projection_after_stop_cases sampleCollaborators true cachedClient
      cacheInv_cachedClient).2.1 1 (by decide)).1,
    by decide⟩

/-- C9, the code at the failing input: the sample client, which has created no projection, is
stopped, and then `data("orders")` is called (and, from the same stopped state, `compute()`).
The stop has run to its end (the refresher is gone and the thread pool is shut down).  Each
call returns normally; it constructs a new object, makes it the cached projection and returns
it; the object has received no `invalidate()` call and is not in the invalidated state. -/
theorem projection_after_stop_fresh :
    (stop sampleCollaborators false sampleClient).topRefresher = none ∧
      (stop sampleCollaborators false sampleClient).threadPoolRunning = false ∧
      (data "orders" (stop sampleCollaborators false sampleClient)).1 = 0 ∧
      dataConstructions (traceSince (stop sampleCollaborators false sampleClient)
        (data "orders" (stop sampleCollaborators false sampleClient)).2) = [("orders", 0)] ∧
      (data "orders" (stop sampleCollaborators false sampleClient)).2.mainDataPrjs =
        [("orders", 0)] ∧
      deref (data "orders" (stop sampleCollaborators false sampleClient)).2 0 =
        some { impl := ProjectionImpl.data "orders" none [], invalidations := 0 } ∧
      ProjectionObject.invalidated
        { impl := ProjectionImpl.data "orders" none [], invalidations := 0 } = false ∧
      (compute (stop sampleCollaborators false sampleClient)).1 = 0 ∧
      computeConstructions (traceSince (stop sampleCollaborators false sampleClient)
        (compute (stop sampleCollaborators false sampleClient)).2) = [0] ∧
      (compute (stop sampleCollaborators false sampleClient)).2.mainComputePrj = some 0 ∧
      deref (compute (stop sampleCollaborators false sampleClient)).2 0 =
        some { impl := ProjectionImpl.compute none none, invalidations := 0 } ∧
      ProjectionObject.invalidated
        { impl := ProjectionImpl.compute none none, invalidations := 0 } = false := by
  decide

end GridClientImpl

namespace GridClientImpl
variable {ω : Type}

/-! ## The shutdown sequence -/

/-- C11 (shutdown step sequence).  The records of one `stop(pWait)` are, in this order: the
destruction of the refresher (if the client still has one); one `invalidate()` for each entry
of the data projection map; one for the compute projection if there is one; the stop of the
executor exactly when `pWait` is false; the shutdown of the thread pool, which is the last
record for both values of `pWait`.  Afterwards the client has no refresher and its pool is
shut down, and the executor has been told to stop only if `pWait` is false. -/
theorem stop_sequence (W : Collaborators ω) (pWait : Bool) (c : GridClientImpl ω) :
    traceSince c (stop W pWait c) =
        (if c.topRefresher.isSome then [Effect.refresherDestroyed] else []) ++
          c.mainDataPrjs.map (fun i => Effect.invalidate i.2) ++
          c.mainComputePrj.toList.map Effect.invalidate ++
          (if pWait then [] else [Effect.executorStop]) ++ [Effect.threadPoolShutdown] ∧
      (∀ f, c.topRefresher = some f →
        (traceSince c (stop W pWait c)).head? = some Effect.refresherDestroyed) ∧
      (Effect.executorStop ∈ traceSince c (stop W pWait c) ↔ pWait = false) ∧
      (traceSince c (stop W pWait c)).getLast? = some Effect.threadPoolShutdown ∧
      (stop W pWait c).topRefresher = none ∧
      (stop W pWait c).threadPoolRunning = false ∧
      (stop W pWait c).world = (if pWait then c.world else W.executorStop c.world) := by
  have htr : traceSince c (stop W pWait c) =
      (if c.topRefresher.isSome then [Effect.refresherDestroyed] else []) ++
        c.mainDataPrjs.map (fun i => Effect.invalidate i.2) ++
        c.mainComputePrj.toList.map Effect.invalidate ++
        (if pWait then [] else [Effect.executorStop]) ++ [Effect.threadPoolShutdown] := by
    rw [traceSince_stop]
    simp [stopTrace, List.map_append, List.map_map, Function.comp_def]
  refine ⟨htr, fun f hf => ?_, ?_, ?_, by rw [stop_eq], by rw [stop_eq], by rw [stop_eq]⟩
  · rw [htr, hf]
    simp
  · rw [htr]
    cases pWait <;> cases c.topRefresher <;> cases c.mainComputePrj <;> simp
  · rw [htr]
    simp

/-- An instance of C11: the client with a data projection at address 0 and the compute
projection at address 1 is stopped, first without waiting, then (from the same state) with
waiting. -/
theorem stop_sequence_example :
    traceSince cachedClient (stop sampleCollaborators false cachedClient) =
        [Effect.refresherDestroyed, Effect.invalidate 0, Effect.invalidate 1,
          Effect.executorStop, Effect.threadPoolShutdown] ∧
      traceSince cachedClient (stop sampleCollaborators true cachedClient) =
        [Effect.refresherDestroyed, Effect.invalidate 0, Effect.invalidate 1,
          Effect.threadPoolShutdown] := by
  decide

/-! ## The listener registry -/

/-- The position that `std::find` returns is `end()` exactly when the listener is not in the
list, and then `removeTopologyListener` erases at `end()`. -/
theorem removeTopologyListener_of_not_mem (lsnr : TGridClientTopologyListenerPtr)
    (c : GridClientImpl ω) (h : lsnr ∉ c.topLsnrs) : removeTopologyListener lsnr c = none := by
  unfold removeTopologyListener
  have : ¬ (c.topLsnrs.indexOf lsnr < c.topLsnrs.length) := fun hlt =>
    h (List.indexOf_lt_length.1 hlt)
  simp [this]

/-- For a listener of the list, `removeTopologyListener` erases its first occurrence. -/
theorem removeTopologyListener_of_mem (lsnr : TGridClientTopologyListenerPtr)
    (c : GridClientImpl ω) (h : lsnr ∈ c.topLsnrs) :
    removeTopologyListener lsnr c = some { c with topLsnrs := c.topLsnrs.erase lsnr } := by
  unfold removeTopologyListener
  have : c.topLsnrs.indexOf lsnr < c.topLsnrs.length := List.indexOf_lt_length.2 h
  simp [this]

/-- C12, the code at the failing input: removing a listener that is not registered (from a
registry of two others, or from the empty registry) reaches `erase(end())`, for which the
model has no result. -/
theorem removeTopologyListener_unregistered :
    (removeTopologyListener 9 sampleClient).isNone = true ∧
      (removeTopologyListener 1 { sampleClient with topLsnrs := [] }).isNone = true := by
  constructor
  · rw [removeTopologyListener_of_not_mem 9 sampleClient (by decide)]
    rfl
  · rw [removeTopologyListener_of_not_mem 1 { sampleClient with topLsnrs := [] } (by decide)]
    rfl

/-- C20 (the registry is a list with multiplicity).  `addTopologyListener` appends the
listener at the end, whether it is registered already or not.  For a registered listener
`removeTopologyListener` erases its first occurrence and nothing else: the entries before it
(none of which is the listener) and the entries after it stay, in their order.  A node event
calls the callback of a listener once per entry of the listener.  So a listener added twice
has two entries more and is called twice more per node event; one removal then takes one of
these entries away, and the listener is still registered and still called, once more than
before the two additions (once, if it was not registered before). -/
theorem registry_multiplicity (W : Collaborators ω) (c : GridClientImpl ω)
    (lsnr : TGridClientTopologyListenerPtr) (node : GridClientNode) :
    topologyListeners (addTopologyListener lsnr c) = topologyListeners c ++ [lsnr] ∧
      (lsnr ∈ c.topLsnrs → ∃ pre post, c.topLsnrs = pre ++ lsnr :: post ∧ lsnr ∉ pre ∧
        removeTopologyListener lsnr c = some { c with topLsnrs := pre ++ post }) ∧
      (callbacks (traceSince c (fireNodeAdded W node c))).count (Effect.onNodeAdded lsnr node) =
        c.topLsnrs.count lsnr ∧
      (callbacks (traceSince c (fireNodeRemoved W node c))).count
        (Effect.onNodeRemoved lsnr node) = c.topLsnrs.count lsnr ∧
      (callbacks (traceSince (addTopologyListener lsnr (addTopologyListener lsnr c))
          (fireNodeAdded W node (addTopologyListener lsnr (addTopologyListener lsnr c))))).count
        (Effect.onNodeAdded lsnr node) = c.topLsnrs.count lsnr + 2 ∧
      (∃ c', removeTopologyListener lsnr (addTopologyListener lsnr (addTopologyListener lsnr c))
          = some c' ∧ c'.topLsnrs.count lsnr = c.topLsnrs.count lsnr + 1 ∧
          lsnr ∈ topologyListeners c' ∧
          (callbacks (traceSince c' (fireNodeAdded W node c'))).count
            (Effect.onNodeAdded lsnr node) = c.topLsnrs.count lsnr + 1 ∧
          (callbacks (traceSince c' (fireNodeRemoved W node c'))).count
            (Effect.onNodeRemoved lsnr node) = c.topLsnrs.count lsnr + 1) := by
  have hadded : ∀ c0 : GridClientImpl ω,
      (callbacks (traceSince c0 (fireNodeAdded W node c0))).count (Effect.onNodeAdded lsnr node) =
        c0.topLsnrs.count lsnr := by
    intro c0
    obtain ⟨t, h1, _, h3⟩ := notifyNodeAdded_emits W node c0.topLsnrs c0
    have : traceSince c0 (fireNodeAdded W node c0) = t := traceSince_of_trace_eq h1.trace_eq
    rw [this, h3]
    have := count_onNodeAdded_map c0.topLsnrs lsnr node node
    simpa using this
  have hremoved : ∀ c0 : GridClientImpl ω,
      (callbacks (traceSince c0 (fireNodeRemoved W node c0))).count
        (Effect.onNodeRemoved lsnr node) = c0.topLsnrs.count lsnr := by
    intro c0
    obtain ⟨t, h1, _, h3⟩ := notifyNodeRemoved_emits W node c0.topLsnrs c0
    have : traceSince c0 (fireNodeRemoved W node c0) = t := traceSince_of_trace_eq h1.trace_eq
    rw [this, h3]
    have := count_onNodeRemoved_map c0.topLsnrs lsnr node node
    simpa using this
  refine ⟨rfl, fun h => ?_, hadded c, hremoved c, ?_, ?_⟩
  · rcases List.erase_eq_iff.1 (rfl : c.topLsnrs.erase lsnr = c.topLsnrs.erase lsnr) with
      ⟨hn, _⟩ | ⟨pre, post, h1, h2, h3⟩
    · exact absurd h hn
    · refine ⟨pre, post, h2, h1, ?_⟩
      rw [removeTopologyListener_of_mem lsnr c h, h3]
  · rw [hadded]
    simp [addTopologyListener, List.count_append]
  · have hm : lsnr ∈ (addTopologyListener lsnr (addTopologyListener lsnr c)).topLsnrs := by
      simp [addTopologyListener]
    have hcnt : ((addTopologyListener lsnr (addTopologyListener lsnr c)).topLsnrs.erase
        lsnr).count lsnr = c.topLsnrs.count lsnr + 1 := by
      rw [List.count_erase_self]
      simp [addTopologyListener, List.count_append]
    refine ⟨_, removeTopologyListener_of_mem lsnr _ hm, hcnt, ?_, ?_, ?_⟩
    · apply List.count_pos_iff.1
      have : 0 < ((addTopologyListener lsnr (addTopologyListener lsnr c)).topLsnrs.erase
          lsnr).count lsnr := by
        rw [hcnt]
        exact Nat.succ_pos _
      exact this
    · rw [hadded]
      exact hcnt
    · rw [hremoved]
      exact hcnt

/-- An instance of C20: listener 7 is not registered on the sample client (listeners 1, 2);
added twice and removed once it has one entry, at the end.  Listener 1 is registered; added
twice more and removed once, it has lost its first entry. -/
theorem registry_multiplicity_example :
    (removeTopologyListener 7
        (addTopologyListener 7 (addTopologyListener 7 sampleClient))).map topologyListeners =
        some [1, 2, 7] ∧
      (removeTopologyListener 1
        (addTopologyListener 1 (addTopologyListener 1 sampleClient))).map topologyListeners =
          some [2, 1, 1] ∧
      callbacks (traceSince (addTopologyListener 7 (addTopologyListener 7 sampleClient))
        (fireNodeRemoved sampleCollaborators ⟨4, 0⟩
          (addTopologyListener 7 (addTopologyListener 7 sampleClient)))) =
        [Effect.onNodeRemoved 1 ⟨4, 0⟩, Effect.onNodeRemoved 2 ⟨4, 0⟩,
          Effect.onNodeRemoved 7 ⟨4, 0⟩, Effect.onNodeRemoved 7 ⟨4, 0⟩] := by
  decide

/-! ## The constructor -/

end GridClientImpl

/-! ## Requests, and the order of the records of a refresh -/

theorem requests_append (t t' : List Effect) : requests (t ++ t') = requests t ++ requests t' := by
  simp [requests, List.filterMap_append]

theorem topologyUpdates_append (t t' : List Effect) :
    topologyUpdates (t ++ t') = topologyUpdates t ++ topologyUpdates t' := by
  simp [topologyUpdates, List.filterMap_append]

theorem no_requests_of_onlyDispatch {t : List Effect} (h : OnlyDispatch t) : requests t = [] := by
  induction t with
  | nil => rfl
  | cons e t ih =>
    have he := h e (List.mem_cons_self _ _)
    have ht : OnlyDispatch t := fun x hx => h x (List.mem_cons_of_mem _ hx)
    have := ih ht
    cases e <;> simp_all [requests, Effect.isCallback, Effect.isLogError]

theorem no_updates_of_onlyDispatch {t : List Effect} (h : OnlyDispatch t) :
    topologyUpdates t = [] := by
  induction t with
  | nil => rfl
  | cons e t ih =>
    have he := h e (List.mem_cons_self _ _)
    have ht : OnlyDispatch t := fun x hx => h x (List.mem_cons_of_mem _ hx)
    have := ih ht
    cases e <;> simp_all [topologyUpdates, Effect.isCallback, Effect.isLogError]

namespace GridClientImpl
variable {ω : Type}

theorem OnlyCommands.no_updates {t : List Effect} (h : OnlyCommands t) :
    topologyUpdates t = [] := by
  induction t with
  | nil => rfl
  | cons e t ih =>
    have he := h e (List.mem_cons_self _ _)
    have ht : OnlyCommands t := fun x hx => h x (List.mem_cons_of_mem _ hx)
    have := ih ht
    cases e <;> simp_all [topologyUpdates, Effect.isCommand]

/-- The loop of `refreshTopology` only appends to the trace. -/
theorem refreshLoop_trace (W : Collaborators ω) (addrs : List GridClientSocketAddress)
    (last : GridClientException) (c : GridClientImpl ω) :
    (refreshLoop W addrs false last c).2.2.trace =
      c.trace ++ traceSince c (refreshLoop W addrs false last c).2.2 := by
  rcases refreshLoop_spec W addrs last c with
    ⟨_, t, _, h1, _⟩ | ⟨_, _, _, _, _, _, _, _, _, _, _, _, _, _, _, h7, _⟩
  · rw [traceSince_of_trace_eq h1.trace_eq]
    exact h1.trace_eq
  · rw [traceSince_of_trace_eq h7.trace_append]
    exact h7.trace_append

theorem traceSince_append {c c1 c2 : GridClientImpl ω} {t : List Effect}
    (h1 : c1.trace = c.trace ++ t) (h2 : c2.trace = c1.trace ++ traceSince c1 c2) :
    traceSince c c2 = t ++ traceSince c1 c2 := by
  apply traceSince_of_trace_eq
  rw [h2, h1, List.append_assoc]

/-- Every request that the loop of `refreshTopology` hands to the executor asks for neither
attributes nor metrics and carries the client id. -/
theorem refreshLoop_requests (W : Collaborators ω) (addrs : List GridClientSocketAddress)
    (last : GridClientException) (c : GridClientImpl ω) :
    ∀ q ∈ requests (traceSince c (refreshLoop W addrs false last c).2.2),
      q.includeAttributes = false ∧ q.includeMetrics = false ∧ q.clientId = id c := by
  induction addrs generalizing last c with
  | nil =>
    intro q hq
    simp [refreshLoop, traceSince, requests] at hq
  | cons a rest ih =>
    simp only [refreshLoop, Bool.false_eq_true, if_false, GridClientTopology.nodes,
      GridClientTopology.update]
    have hq0 : (GridTopologyRequestCommand.mk false false (id c)
        (W.generateNewId c.world).1).includeAttributes = false ∧
        (GridTopologyRequestCommand.mk false false (id c)
          (W.generateNewId c.world).1).includeMetrics = false ∧
        (GridTopologyRequestCommand.mk false false (id c)
          (W.generateNewId c.world).1).clientId = id c := ⟨rfl, rfl, rfl⟩
    generalize GridTopologyRequestCommand.mk false false (id c)
      (W.generateNewId c.world).1 = q0 at hq0 ⊢
    generalize (W.generateNewId c.world).2 = w
    cases hr : (W.executeTopologyCmd w a q0).1 with
    | error e =>
      simp only []
      intro q hq
      have h1 : (emit (Effect.executeTopologyCmd a q0 (Except.error e))
          { c with world := (W.executeTopologyCmd w a q0).2 }).trace =
          c.trace ++ [Effect.executeTopologyCmd a q0 (Except.error e)] := rfl
      rw [traceSince_append h1 (refreshLoop_trace W rest e _), requests_append] at hq
      rcases List.mem_append.1 hq with hq | hq
      · simp only [requests, List.filterMap_cons, List.filterMap_nil, List.mem_singleton] at hq
        rw [hq]
        exact hq0
      · exact ih e (emit (Effect.executeTopologyCmd a q0 (Except.error e))
          { c with world := (W.executeTopologyCmd w a q0).2 }) q hq
    | ok nbns =>
      simp only [refreshLoop_updated]
      intro q hq
      obtain ⟨t3, k1, k2, _⟩ := fireTopologyEvents_emits W (TNodesSet.insertRange [] nbns)
        c.topology (emit (Effect.topologyUpdate (TNodesSet.insertRange [] nbns))
          { emit (Effect.executeTopologyCmd a q0 (Except.ok nbns))
              { c with world := (W.executeTopologyCmd w a q0).2 } with
            topology := TNodesSet.insertRange [] nbns })
      have htr := k1.trace_eq
      have : traceSince c (fireTopologyEvents W (TNodesSet.insertRange [] nbns) c.topology
          (emit (Effect.topologyUpdate (TNodesSet.insertRange [] nbns))
            { emit (Effect.executeTopologyCmd a q0 (Except.ok nbns))
                { c with world := (W.executeTopologyCmd w a q0).2 } with
              topology := TNodesSet.insertRange [] nbns })) =
          [Effect.executeTopologyCmd a q0 (Except.ok nbns),
            Effect.topologyUpdate (TNodesSet.insertRange [] nbns)] ++ t3 := by
        apply traceSince_of_trace_eq
        rw [htr]
        simp [emit]
      have hq' : q ∈ requests ([Effect.executeTopologyCmd a q0 (Except.ok nbns),
          Effect.topologyUpdate (TNodesSet.insertRange [] nbns)] ++ t3) := by
        rw [← this]
        exact hq
      rw [requests_append, no_requests_of_onlyDispatch k2] at hq'
      simp only [requests, List.filterMap_cons, List.filterMap_nil, List.append_nil,
        List.mem_singleton] at hq'
      rw [hq']
      exact hq0

/-- C18 (contents of the topology request).  Every request that one `refreshTopology` hands to
the executor, whatever the address, has include-attributes false, include-metrics false, and
the client id that `id()` returns (before and after the call); there is one such request per
command. -/
theorem refreshTopology_requests (W : Collaborators ω) (c : GridClientImpl ω)
    (q : GridTopologyRequestCommand) (hq : q ∈ requests (traceSince c (refreshTopology W c))) :
    q.includeAttributes = false ∧ q.includeMetrics = false ∧ q.clientId = id c ∧
      id (refreshTopology W c) = id c ∧
      (requests (traceSince c (refreshTopology W c))).length =
        (attempts (traceSince c (refreshTopology W c))).length := by
  have hlen : ∀ t : List Effect, (requests t).length = (attempts t).length := by
    intro t
    induction t with
    | nil => rfl
    | cons e t ih => cases e <;> simp_all [requests, attempts]
  have hid : id (refreshTopology W c) = id c := by
    by_cases hc : candidates c.cfg = []
    · rw [refreshTopology_of_candidates_nil W c hc]
    · rcases refreshTopology_cases W c hc with
        ⟨t, errs, h1, _⟩ | ⟨_, _, _, _, _, _, _, _, _, _, _, _, _, _, _, h7, _⟩
      · unfold id
        rw [h1]
      · have h7' : refreshTopology W c = _ := h7
        unfold id
        rw [h7']
  have hcases : requests (traceSince c (refreshTopology W c)) =
      requests (traceSince c (refreshLoop W (candidates c.cfg) false { what := "" } c).2.2) ∨
      requests (traceSince c (refreshTopology W c)) = [] := by
    unfold refreshTopology
    simp only []
    split
    · right
      simp [traceSince, requests]
    · split
      · left
        have h := refreshLoop_trace W (candidates c.cfg) { what := "" } c
        have : traceSince c (logError ("Error refreshing the topology: " ++
            (refreshLoop W (candidates c.cfg) false { what := "" } c).2.1.what)
            (refreshLoop W (candidates c.cfg) false { what := "" } c).2.2) =
            traceSince c (refreshLoop W (candidates c.cfg) false { what := "" } c).2.2 ++
              [Effect.logError ("Error refreshing the topology: " ++
                (refreshLoop W (candidates c.cfg) false { what := "" } c).2.1.what)] := by
          apply traceSince_of_trace_eq
          simp only [logError, emit]
          rw [h, List.append_assoc]
        rw [this, requests_append]
        simp [requests]
      · left
        rfl
  rcases hcases with h | h
  · rw [h] at hq
    obtain ⟨h1, h2, h3⟩ := refreshLoop_requests W (candidates c.cfg) { what := "" } c q hq
    exact ⟨h1, h2, h3, hid, hlen _⟩
  · rw [h] at hq
    simp at hq

/-- Witness of C18: the three requests of the sample client (two failures, one success) carry
the client id 77 and disable attributes and metrics. -/
theorem refreshTopology_requests_witness :
    requests (traceSince sampleClient (refreshTopology sampleCollaborators sampleClient)) =
        [⟨false, false, 77, 0⟩, ⟨false, false, 77, 2⟩, ⟨false, false, 77, 4⟩] ∧
      (GridTopologyRequestCommand.mk false false 77 2).clientId = id sampleClient :=
  ⟨by decide,
    (refreshTopology_requests sampleCollaborators sampleClient ⟨false, false, 77, 2⟩
      (by decide)).2.2.1⟩

end GridClientImpl

/-- In the callbacks of `fireTopologyEvents` the added-callbacks come first, the
removed-callbacks after them. -/
theorem eventCallbacks_split (lsnrs : TGridClientTopologyListenerList)
    (updNodes prevNodes : TNodesSet) :
    ∃ added removed, eventCallbacks lsnrs updNodes prevNodes = added ++ removed ∧
      (∀ e ∈ added, ∃ l n, e = Effect.onNodeAdded l n) ∧
      (∀ e ∈ removed, ∃ l n, e = Effect.onNodeRemoved l n) := by
  refine ⟨_, _, rfl, fun e he => ?_, fun e he => ?_⟩
  · obtain ⟨n, _, hn⟩ := List.mem_flatMap.1 he
    obtain ⟨l, _, hl⟩ := List.mem_map.1 hn
    exact ⟨l, n, hl.symm⟩
  · obtain ⟨n, _, hn⟩ := List.mem_flatMap.1 he
    obtain ⟨l, _, hl⟩ := List.mem_map.1 hn
    exact ⟨l, n, hl.symm⟩

/-- When nothing was known before, every node of the new set is an added node and there is
no removed node. -/
theorem eventCallbacks_nil_right (lsnrs : TGridClientTopologyListenerList) (nodes : TNodesSet)
    (h : IsNodesSet nodes) :
    eventCallbacks lsnrs nodes [] =
      nodes.flatMap (fun n => lsnrs.map (fun l => Effect.onNodeAdded l n)) := by
  unfold eventCallbacks
  rw [set_difference_nil_right, insertRange_nil_of_isNodesSet nodes h]
  simp [set_difference, TNodesSet.insertRange]

namespace GridClientImpl
variable {ω : Type}

/-- A refresh in which a command succeeded, read from its trace: the successful response and
the decomposition of the trace. -/
theorem refreshTopology_succeeded (W : Collaborators ω) (c : GridClientImpl ω)
    (a : GridClientSocketAddress) (nbns : TNodesList)
    (h : (a, Except.ok nbns) ∈ attempts (traceSince c (refreshTopology W c))) :
    ∃ (q : GridTopologyRequestCommand) (t1 t3 : List Effect),
      traceSince c (refreshTopology W c) =
        t1 ++ Effect.executeTopologyCmd a q (Except.ok nbns) ::
          Effect.topologyUpdate (TNodesSet.insertRange [] nbns) :: t3 ∧
      OnlyCommands t1 ∧ OnlyDispatch t3 ∧
      callbacks t3 = eventCallbacks c.topLsnrs (TNodesSet.insertRange [] nbns) c.topology ∧
      Refreshes c (refreshTopology W c) (traceSince c (refreshTopology W c)) ∧
      (refreshTopology W c).topology = TNodesSet.insertRange [] nbns := by
  by_cases hc : candidates c.cfg = []
  · rw [refreshTopology_of_candidates_nil W c hc] at h
    simp [traceSince, attempts] at h
  · rcases refreshTopology_cases W c hc with ⟨t, errs, h1, _, _, h4⟩ | hs
    · rw [attempts_of_all_failed h1 h4] at h
      exact absurd h (not_ok_mem_failures _ _ _ _)
    · obtain ⟨pre, a', post, errs, nbns', _, _, k3, _, _⟩ := hs.attempts_eq
      obtain ⟨_, pre2, a2, post2, errs2, q, nbns2, t1, t3, _, _, h3, h4, h5, h6, h7, h8⟩ := hs
      have h7' : Refreshes c (refreshTopology W c) (t1 ++
          Effect.executeTopologyCmd a2 q (Except.ok nbns2) ::
            Effect.topologyUpdate (TNodesSet.insertRange [] nbns2) :: t3) := h7
      have htr := traceSince_of_trace_eq h7'.trace_append
      have hatt : attempts (traceSince c (refreshTopology W c)) =
          failures pre2 errs2 ++ [(a2, Except.ok nbns2)] := by
        rw [htr, attempts_append, h4]
        have : attempts (Effect.executeTopologyCmd a2 q (Except.ok nbns2) ::
            Effect.topologyUpdate (TNodesSet.insertRange [] nbns2) :: t3) =
            (a2, Except.ok nbns2) :: attempts t3 := rfl
        rw [this, h5.no_attempts]
      rw [hatt] at h
      rcases List.mem_append.1 h with h | h
      · exact absurd h (not_ok_mem_failures _ _ _ _)
      · simp only [List.mem_singleton, Prod.mk.injEq, Except.ok.injEq] at h
        obtain ⟨rfl, rfl⟩ := h
        refine ⟨q, t1, t3, htr, h3, h5, h6, ?_, h8⟩
        rw [htr]
        exact h7'

/-- C17 (order of the events of one refresh).  In a `refreshTopology` in which a command
succeeds with the node list `nbns`, the trace of the call is: records without any callback,
then the replacement of the snapshot by the set of `nbns`, then only callback and error log
records (so no callback comes before the replacement, the snapshot is not replaced again, and
it is the new set when the call returns); and the callbacks are a run of added-callbacks
followed by a run of removed-callbacks. -/
theorem refreshTopology_event_order (W : Collaborators ω) (c : GridClientImpl ω)
    (a : GridClientSocketAddress) (nbns : TNodesList)
    (h : (a, Except.ok nbns) ∈ attempts (traceSince c (refreshTopology W c))) :
    (∃ pre post, traceSince c (refreshTopology W c) =
        pre ++ Effect.topologyUpdate (TNodesSet.insertRange [] nbns) :: post ∧
      callbacks pre = [] ∧ topologyUpdates pre = [] ∧
      OnlyDispatch post ∧ topologyUpdates post = [] ∧
      callbacks (traceSince c (refreshTopology W c)) = callbacks post) ∧
      (refreshTopology W c).topology = TNodesSet.insertRange [] nbns ∧
      (∃ added removed, callbacks (traceSince c (refreshTopology W c)) = added ++ removed ∧
        (∀ e ∈ added, ∃ l n, e = Effect.onNodeAdded l n) ∧
        (∀ e ∈ removed, ∃ l n, e = Effect.onNodeRemoved l n)) := by
  obtain ⟨q, t1, t3, htr, h3, h5, h6, _, h8⟩ := refreshTopology_succeeded W c a nbns h
  have hpre : callbacks (t1 ++ [Effect.executeTopologyCmd a q (Except.ok nbns)]) = [] := by
    rw [callbacks_append, h3.callbacks_eq]
    rfl
  have hupd : topologyUpdates (t1 ++ [Effect.executeTopologyCmd a q (Except.ok nbns)]) = [] := by
    rw [topologyUpdates_append, h3.no_updates]
    rfl
  have hsplit : traceSince c (refreshTopology W c) =
      (t1 ++ [Effect.executeTopologyCmd a q (Except.ok nbns)]) ++
        Effect.topologyUpdate (TNodesSet.insertRange [] nbns) :: t3 := by
    rw [htr]
    simp
  have hcb : callbacks (traceSince c (refreshTopology W c)) = callbacks t3 := by
    rw [hsplit, callbacks_append, hpre]
    rfl
  refine ⟨⟨_, t3, hsplit, hpre, hupd, h5, no_updates_of_onlyDispatch h5, hcb⟩, h8, ?_⟩
  rw [hcb, h6]
  exact eventCallbacks_split _ _ _

/-- Witness of C17: the snapshot 1, 2, 3 is replaced by 2, 3, 4 after two failures; the
replacement is recorded before the four callbacks, and the added-callbacks (node 4) come before
the removed-callbacks (node 1). -/
theorem refreshTopology_event_order_witness :
    (⟨"s3", 3⟩, Except.ok [⟨2, 0⟩, ⟨4, 0⟩, ⟨2, 7⟩, ⟨3, 0⟩]) ∈
        attempts (traceSince sampleClient (refreshTopology sampleCollaborators sampleClient)) ∧
      (refreshTopology sampleCollaborators sampleClient).topology =
        TNodesSet.insertRange [] [⟨2, 0⟩, ⟨4, 0⟩, ⟨2, 7⟩, ⟨3, 0⟩] ∧
      (traceSince sampleClient (refreshTopology sampleCollaborators sampleClient)).drop 2 =
        [Effect.executeTopologyCmd ⟨"s3", 3⟩ ⟨false, false, 77, 4⟩
            (Except.ok [⟨2, 0⟩, ⟨4, 0⟩, ⟨2, 7⟩, ⟨3, 0⟩]),
          Effect.topologyUpdate [⟨2, 0⟩, ⟨3, 0⟩, ⟨4, 0⟩],
          Effect.onNodeAdded 1 ⟨4, 0⟩,
          Effect.logError "Got exception from topology listener [what=bad]",
          Effect.onNodeAdded 2 ⟨4, 0⟩,
          Effect.onNodeRemoved 1 ⟨1, 0⟩,
          Effect.logError "Got unknown exception from topology listener.",
          Effect.onNodeRemoved 2 ⟨1, 0⟩] :=
  ⟨by decide,
    (refreshTopology_event_order sampleCollaborators sampleClient ⟨"s3", 3⟩
      [⟨2, 0⟩, ⟨4, 0⟩, ⟨2, 7⟩, ⟨3, 0⟩] (by decide)).2.1,
    by decide⟩

/-- C13 (the constructor registers the configured listeners, then refreshes once).  For a
configuration whose server list or router list is empty, the constructor returns a client;
its listener list is the list of the configuration, in the same order; the client is the
result of one `refreshTopology` on the freshly initialised client with these listeners
registered; and when a command of that refresh succeeds, the callbacks of the construction
are exactly the added-callback of every configured listener for every node of the new
snapshot, which holds a node for every id of the response. -/
theorem construct_registers_then_refreshes (W : Collaborators ω)
    (cfg : GridClientConfiguration) (w : ω) (hvalid : cfg.servers = [] ∨ cfg.routers = []) :
    construct W cfg w =
        (Except.ok (refreshTopology W
          { memberInit cfg w with topLsnrs := cfg.topologyListeners }),
          (refreshTopology W
            { memberInit cfg w with topLsnrs := cfg.topologyListeners }).trace) ∧
      topologyListeners (refreshTopology W
        { memberInit cfg w with topLsnrs := cfg.topologyListeners }) = cfg.topologyListeners ∧
      (∀ (a : GridClientSocketAddress) (nbns : TNodesList),
        (a, Except.ok nbns) ∈ attempts (construct W cfg w).2 →
          callbacks (construct W cfg w).2 =
            (TNodesSet.insertRange [] nbns).flatMap
              (fun n => cfg.topologyListeners.map (fun l => Effect.onNodeAdded l n)) ∧
          (refreshTopology W
            { memberInit cfg w with topLsnrs := cfg.topologyListeners }).topology =
              TNodesSet.insertRange [] nbns ∧
          (∀ n ∈ nbns, n.nodeId ∈
            (TNodesSet.insertRange [] nbns).map GridClientNode.nodeId)) := by
  have hcon : construct W cfg w =
      (Except.ok (refreshTopology W
        { memberInit cfg w with topLsnrs := cfg.topologyListeners }),
        (refreshTopology W
          { memberInit cfg w with topLsnrs := cfg.topologyListeners }).trace) := by
    unfold construct
    simp only [foldl_addTopologyListener]
    rcases hvalid with h | h <;> simp [h, memberInit]
  have hl : topologyListeners (refreshTopology W
      { memberInit cfg w with topLsnrs := cfg.topologyListeners }) = cfg.topologyListeners := by
    by_cases hc : candidates cfg = []
    · rw [refreshTopology_of_candidates_nil W _ hc]
      rfl
    · rcases refreshTopology_cases W { memberInit cfg w with topLsnrs := cfg.topologyListeners }
        hc with ⟨t, errs, h1, _⟩ | ⟨_, _, _, _, _, _, _, _, _, _, _, _, _, _, _, h7, _⟩
      · unfold topologyListeners
        rw [h1.topLsnrs_eq]
      · have h7' : Refreshes _ (refreshTopology W
            { memberInit cfg w with topLsnrs := cfg.topologyListeners }) _ := h7
        unfold topologyListeners
        rw [h7'.topLsnrs_same]
  refine ⟨hcon, hl, fun a nbns hmem => ?_⟩
  have hspec := insertRange_spec [] nbns List.Pairwise.nil
  have htrace : (construct W cfg w).2 =
      (memberInit cfg w).trace ++
        traceSince { memberInit cfg w with topLsnrs := cfg.topologyListeners }
          (refreshTopology W { memberInit cfg w with topLsnrs := cfg.topologyListeners }) := by
    rw [hcon]
    simp only []
    by_cases hc : candidates cfg = []
    · rw [refreshTopology_of_candidates_nil W _ hc]
      simp [traceSince]
    · rcases refreshTopology_cases W { memberInit cfg w with topLsnrs := cfg.topologyListeners }
        hc with ⟨t, errs, h1, _⟩ | ⟨_, _, _, _, _, _, _, _, _, _, _, _, _, _, _, h7, _⟩
      · rw [traceSince_of_trace_eq h1.trace_eq]
        exact h1.trace_eq
      · have h7' : Refreshes _ (refreshTopology W
            { memberInit cfg w with topLsnrs := cfg.topologyListeners }) _ := h7
        rw [traceSince_of_trace_eq h7'.trace_append]
        exact h7'.trace_append
  have hmem' : (a, Except.ok nbns) ∈ attempts
      (traceSince { memberInit cfg w with topLsnrs := cfg.topologyListeners }
        (refreshTopology W { memberInit cfg w with topLsnrs := cfg.topologyListeners })) := by
    rw [htrace, attempts_append] at hmem
    rcases List.mem_append.1 hmem with h | h
    · simp [memberInit, attempts] at h
    · exact h
  obtain ⟨q, t1, t3, htr, h3, h5, h6, _, h8⟩ := refreshTopology_succeeded W _ a nbns hmem'
  refine ⟨?_, h8, hspec.2.2.2⟩
  rw [htrace, callbacks_append, htr, callbacks_append, h3.callbacks_eq]
  have : callbacks (Effect.executeTopologyCmd a q (Except.ok nbns) ::
      Effect.topologyUpdate (TNodesSet.insertRange [] nbns) :: t3) = callbacks t3 := rfl
  rw [this, h6]
  have hinit : callbacks (memberInit cfg w).trace = [] := rfl
  rw [hinit]
  exact eventCallbacks_nil_right _ _ hspec.1

/-- Witness of C13: the sample configuration (four servers, no router, listeners 1 and 2);
the third server answers, and each listener gets the added-event of the nodes 2, 3 and 4. -/
theorem construct_registers_then_refreshes_witness :
    (sampleConfiguration.servers = [] ∨ sampleConfiguration.routers = []) ∧
      topologyListeners (refreshTopology sampleCollaborators
        { memberInit sampleConfiguration 0 with
          topLsnrs := sampleConfiguration.topologyListeners }) = [1, 2] ∧
      callbacks (construct sampleCollaborators sampleConfiguration 0).2 =
        [Effect.onNodeAdded 1 ⟨2, 0⟩, Effect.onNodeAdded 2 ⟨2, 0⟩,
          Effect.onNodeAdded 1 ⟨3, 0⟩, Effect.onNodeAdded 2 ⟨3, 0⟩,
          Effect.onNodeAdded 1 ⟨4, 0⟩, Effect.onNodeAdded 2 ⟨4, 0⟩] :=
  ⟨by decide,
    (construct_registers_then_refreshes sampleCollaborators sampleConfiguration 0
      (by decide)).2.1,
    by decide⟩

end GridClientImpl

/-! ## The compute projection -/

theorem computeConstructions_append (t t' : List Effect) :
    computeConstructions (t ++ t') = computeConstructions t ++ computeConstructions t' := by
  simp [computeConstructions, List.filterMap_append]

namespace GridClientImpl
variable {ω : Type}

theorem compute_of_some {c : GridClientImpl ω} {p : PrjPtr} (h : c.mainComputePrj = some p) :
    compute c = (p, c) := by
  simp [compute, h]

theorem compute_of_none {c : GridClientImpl ω} (h : c.mainComputePrj = none) :
    compute c =
      (c.heap.length,
        { c with
          heap := c.heap ++ [{ impl := ProjectionImpl.compute none none, invalidations := 0 }]
          trace := c.trace ++ [Effect.newComputeProjection c.heap.length]
          mainComputePrj := some c.heap.length }) := by
  simp [compute, h, allocate, emit]

/-- One `data` call leaves the compute handle as it is, constructs no compute projection, and
only appends to the trace and to the heap. -/
theorem data_frame (cacheName : String) (c : GridClientImpl ω) :
    (data cacheName c).2.mainComputePrj = c.mainComputePrj ∧
      ∃ t h, (data cacheName c).2.trace = c.trace ++ t ∧ computeConstructions t = [] ∧
        (data cacheName c).2.heap = c.heap ++ h := by
  unfold data
  cases hl : c.mainDataPrjs.lookup cacheName with
  | some p =>
    rw [getOrCreateDataProjection_hit hl]
    exact ⟨rfl, [], [], by simp, rfl, by simp⟩
  | none =>
    rw [getOrCreateDataProjection_miss hl]
    exact ⟨rfl, _, _, rfl, rfl, rfl⟩

/-- A sequence of accessor calls, from a client that has its compute projection: the handle
stays, every `compute()` returns it, and nothing is constructed for it. -/
theorem cacheCalls_of_some (calls : List CacheCall) (c : GridClientImpl ω) (p : PrjPtr)
    (hp : c.mainComputePrj = some p) :
    (cacheCalls calls c).1.length = calls.length ∧
      (cacheCalls calls c).2.mainComputePrj = some p ∧
      (∀ x ∈ calls.zip (cacheCalls calls c).1, x.1 = CacheCall.compute → x.2 = p) ∧
      ∃ t h, (cacheCalls calls c).2.trace = c.trace ++ t ∧ computeConstructions t = [] ∧
        (cacheCalls calls c).2.heap = c.heap ++ h := by
  induction calls generalizing c with
  | nil => exact ⟨rfl, hp, by simp [cacheCalls], [], [], by simp [cacheCalls], rfl,
      by simp [cacheCalls]⟩
  | cons call rest ih =>
    cases call with
    | compute =>
      obtain ⟨k1, k2, k3, t, h, k4, k5, k6⟩ := ih c hp
      simp only [cacheCalls, compute_of_some hp]
      refine ⟨by simp [k1], k2, ?_, t, h, k4, k5, k6⟩
      intro x hx hxc
      simp only [List.zip_cons_cons, List.mem_cons] at hx
      rcases hx with rfl | hx
      · rfl
      · exact k3 x hx hxc
    | data cacheName =>
      obtain ⟨f1, t1, h1, f2, f3, f4⟩ := data_frame cacheName c
      obtain ⟨k1, k2, k3, t, h, k4, k5, k6⟩ := ih (data cacheName c).2 (by rw [f1]; exact hp)
      simp only [cacheCalls]
      refine ⟨by simp [k1], k2, ?_, t1 ++ t, h1 ++ h, ?_, ?_, ?_⟩
      · intro x hx hxc
        simp only [List.zip_cons_cons, List.mem_cons] at hx
        rcases hx with rfl | hx
        · cases hxc
        · exact k3 x hx hxc
      · rw [k4, f2, List.append_assoc]
      · rw [computeConstructions_append, f3, k5]
        rfl
      · rw [k6, f4, List.append_assoc]

/-- A sequence of accessor calls, from a client that has no compute projection yet: without a
`compute()` call nothing is constructed for it; with one, exactly one compute projection is
constructed, with no predicate and no balancer, and every `compute()` returns it. -/
theorem cacheCalls_of_none (calls : List CacheCall) (c : GridClientImpl ω)
    (hn : c.mainComputePrj = none) :
    (cacheCalls calls c).1.length = calls.length ∧
      ∃ t h, (cacheCalls calls c).2.trace = c.trace ++ t ∧
        (cacheCalls calls c).2.heap = c.heap ++ h ∧
        (CacheCall.compute ∉ calls →
          (cacheCalls calls c).2.mainComputePrj = none ∧ computeConstructions t = []) ∧
        (CacheCall.compute ∈ calls →
          ∃ p, (cacheCalls calls c).2.mainComputePrj = some p ∧
            computeConstructions t = [p] ∧
            (∀ x ∈ calls.zip (cacheCalls calls c).1, x.1 = CacheCall.compute → x.2 = p) ∧
            (c.heap ++ h)[p]? =
              some { impl := ProjectionImpl.compute none none, invalidations := 0 }) := by
  induction calls generalizing c with
  | nil =>
    exact ⟨rfl, [], [], by simp [cacheCalls], by simp [cacheCalls],
      fun _ => ⟨hn, rfl⟩, fun h => by simp at h⟩
  | cons call rest ih =>
    cases call with
    | compute =>
      have hc := compute_of_none hn
      obtain ⟨k1, k2, k3, t, h, k4, k5, k6⟩ := cacheCalls_of_some rest (compute c).2
        c.heap.length (by rw [hc])
      simp only [cacheCalls]
      refine ⟨by simp [k1], [Effect.newComputeProjection c.heap.length] ++ t,
        [{ impl := ProjectionImpl.compute none none, invalidations := 0 }] ++ h, ?_, ?_,
        fun hnot => absurd (List.mem_cons_self _ _) hnot, fun _ => ⟨c.heap.length, k2, ?_, ?_,
          ?_⟩⟩
      · rw [k4, hc, List.append_assoc]
      · rw [k6, hc, List.append_assoc]
      · rw [computeConstructions_append, k5]
        rfl
      · intro x hx hxc
        simp only [List.zip_cons_cons, List.mem_cons] at hx
        rcases hx with rfl | hx
        · simp only [hc]
        · exact k3 x hx hxc
      · rw [List.getElem?_append_right (le_refl _)]
        simp
    | data cacheName =>
      obtain ⟨f1, t1, h1, f2, f3, f4⟩ := data_frame cacheName c
      obtain ⟨k1, t, h, k4, k6, k7, k8⟩ := ih (data cacheName c).2 (by rw [f1]; exact hn)
      simp only [cacheCalls]
      refine ⟨by simp [k1], t1 ++ t, h1 ++ h, ?_, ?_, fun hnot => ?_, fun hmem => ?_⟩
      · rw [k4, f2, List.append_assoc]
      · rw [k6, f4, List.append_assoc]
      · have hnot' : CacheCall.compute ∉ rest := fun hm => hnot (List.mem_cons_of_mem _ hm)
        obtain ⟨e1, e2⟩ := k7 hnot'
        refine ⟨e1, ?_⟩
        rw [computeConstructions_append, e2, f3]
        rfl
      · have hmem' : CacheCall.compute ∈ rest := by
          rcases List.mem_cons.1 hmem with h | h
          · cases h
          · exact h
        obtain ⟨p, e1, e2, e3, e6⟩ := k8 hmem'
        refine ⟨p, e1, ?_, ?_, ?_⟩
        · rw [computeConstructions_append, e2, f3]
          rfl
        · intro x hx hxc
          simp only [List.zip_cons_cons, List.mem_cons] at hx
          rcases hx with rfl | hx
          · cases hxc
          · exact e3 x hx hxc
        · rw [f4, List.append_assoc] at e6
          exact e6


/-- C15 (the compute projection is a lazily created singleton).  In a sequence of `compute()`
and `data(cacheName)` calls on one client, in any order, every call returns a handle, and every
`compute()` returns the handle that the client holds afterwards, so all of them return the same
instance.  The number of compute projections constructed in the sequence is one if the client
had none and `compute()` is called, and zero otherwise.  If the client had none, the one
constructed is the instance returned, and it has no predicate and no balancer; if it had one,
that one is returned. -/
theorem compute_singleton (calls : List CacheCall) (c : GridClientImpl ω) :
    (cacheCalls calls c).1.length = calls.length ∧
      (∀ (i : Nat) (p : PrjPtr), calls[i]? = some CacheCall.compute →
        (cacheCalls calls c).1[i]? = some p → (cacheCalls calls c).2.mainComputePrj = some p) ∧
      (∀ (i j : Nat) (p q : PrjPtr), calls[i]? = some CacheCall.compute → calls[j]? = some CacheCall.compute →
        (cacheCalls calls c).1[i]? = some p → (cacheCalls calls c).1[j]? = some q → p = q) ∧
      (computeConstructions (traceSince c (cacheCalls calls c).2)).length =
        (if c.mainComputePrj = none ∧ CacheCall.compute ∈ calls then 1 else 0) ∧
      (c.mainComputePrj = none →
        ∀ (i : Nat) (p : PrjPtr), calls[i]? = some CacheCall.compute →
          (cacheCalls calls c).1[i]? = some p →
          computeConstructions (traceSince c (cacheCalls calls c).2) = [p] ∧
            deref (cacheCalls calls c).2 p =
              some { impl := ProjectionImpl.compute none none, invalidations := 0 }) ∧
      (∀ p0, c.mainComputePrj = some p0 →
        ∀ (i : Nat) (p : PrjPtr), calls[i]? = some CacheCall.compute →
          (cacheCalls calls c).1[i]? = some p → p = p0) := by
  have hzip : ∀ (i : Nat) (p : PrjPtr), calls[i]? = some CacheCall.compute → (cacheCalls calls c).1[i]? = some p →
      (CacheCall.compute, p) ∈ calls.zip (cacheCalls calls c).1 := by
    intro i p h1 h2
    exact List.getElem?_mem (List.getElem?_zip_eq_some.2 ⟨h1, h2⟩)
  have hmem : ∀ i : Nat, calls[i]? = some CacheCall.compute → CacheCall.compute ∈ calls :=
    fun i h => List.getElem?_mem h
  cases hc : c.mainComputePrj with
  | some p0 =>
    obtain ⟨k1, k2, k3, t, h, k4, k5, _⟩ := cacheCalls_of_some calls c p0 hc
    have hall : ∀ (i : Nat) (p : PrjPtr), calls[i]? = some CacheCall.compute →
        (cacheCalls calls c).1[i]? = some p → p = p0 :=
      fun i p h1 h2 => k3 _ (hzip i p h1 h2) rfl
    refine ⟨k1, ?_, ?_, ?_, (fun hn => by cases hn), ?_⟩
    · intro i p h1 h2
      rw [hall i p h1 h2]
      exact k2
    · intro i j p q h1 h2 h3 h4
      rw [hall i p h1 h3, hall j q h2 h4]
    · rw [traceSince_of_trace_eq k4, k5]
      simp
    · intro p1 hp1 i p h1 h2
      cases hp1
      exact hall i p h1 h2
  | none =>
    obtain ⟨k1, t, h, k4, k6, k7, k8⟩ := cacheCalls_of_none calls c hc
    refine ⟨k1, ?_, ?_, ?_, ?_, fun p0 hp0 => by cases hp0⟩
    · intro i p h1 h2
      obtain ⟨p1, e1, _, e3, _⟩ := k8 (hmem i h1)
      have hp : p = p1 := e3 _ (hzip i p h1 h2) rfl
      rw [hp]
      exact e1
    · intro i j p q h1 h2 h3 h4
      obtain ⟨p1, _, _, e3, _⟩ := k8 (hmem i h1)
      have hp : p = p1 := e3 _ (hzip i p h1 h3) rfl
      have hq : q = p1 := e3 _ (hzip j q h2 h4) rfl
      rw [hp, hq]
    · rw [traceSince_of_trace_eq k4]
      by_cases hm : CacheCall.compute ∈ calls
      · obtain ⟨p1, _, e2, _⟩ := k8 hm
        rw [e2]
        simp [hm]
      · rw [(k7 hm).2]
        simp [hm]
    · intro _ i p h1 h2
      obtain ⟨p1, _, e2, e3, e6⟩ := k8 (hmem i h1)
      have hp : p = p1 := e3 _ (hzip i p h1 h2) rfl
      rw [traceSince_of_trace_eq k4, hp, e2]
      refine ⟨rfl, ?_⟩
      unfold deref
      rw [k6]
      exact e6

/-- An instance of C15: on the sample client, three `compute()` calls with two `data` calls in
between return the same handle, 0, and one compute projection is constructed, at address 0. -/
theorem compute_singleton_example :
    (cacheCalls [CacheCall.compute, CacheCall.data "orders", CacheCall.compute,
        CacheCall.data "orders", CacheCall.compute] sampleClient).1 = [0, 1, 0, 1, 0] ∧
      computeConstructions (traceSince sampleClient
        (cacheCalls [CacheCall.compute, CacheCall.data "orders", CacheCall.compute,
          CacheCall.data "orders", CacheCall.compute] sampleClient).2) = [0] ∧
      deref (cacheCalls [CacheCall.compute, CacheCall.data "orders", CacheCall.compute,
          CacheCall.data "orders", CacheCall.compute] sampleClient).2 0 =
        some { impl := ProjectionImpl.compute none none, invalidations := 0 } := by
  decide

end GridClientImpl

namespace GridClientImpl
variable {ω : Type}

/-! ## Concurrent first access to a data projection -/

/-- A thread that makes its three accesses with no other thread in between does what
`getOrCreateDataProjection` does. -/
theorem interleave_alone (cacheName : String) (c : GridClientImpl ω) :
    interleave [0, 0, 0] [(cacheName, GetOrCreatePc.find)] c =
      ([(cacheName, GetOrCreatePc.returned (getOrCreateDataProjection cacheName c).1)],
        (getOrCreateDataProjection cacheName c).2) := by
  cases hl : c.mainDataPrjs.lookup cacheName with
  | some p =>
    rw [getOrCreateDataProjection_hit hl]
    simp [interleave, getOrCreateStep, hl]
  | none =>
    rw [getOrCreateDataProjection_miss hl]
    simp [interleave, getOrCreateStep, hl, allocate, emit]

/-- Two threads ask for the same cache, which has no projection yet, and both make their
`find` before either makes its `insert`: each constructs a projection and returns its own, and
the map keeps the one inserted first. -/
theorem interleave_first_access (cacheName : String) (c : GridClientImpl ω)
    (h : c.mainDataPrjs.lookup cacheName = none) :
    (interleave [0, 1, 0, 1, 0, 1]
        [(cacheName, GetOrCreatePc.find), (cacheName, GetOrCreatePc.find)] c).1 =
        [(cacheName, GetOrCreatePc.returned c.heap.length),
          (cacheName, GetOrCreatePc.returned (c.heap.length + 1))] ∧
      dataConstructions (traceSince c (interleave [0, 1, 0, 1, 0, 1]
        [(cacheName, GetOrCreatePc.find), (cacheName, GetOrCreatePc.find)] c).2) =
        [(cacheName, c.heap.length), (cacheName, c.heap.length + 1)] ∧
      (interleave [0, 1, 0, 1, 0, 1]
        [(cacheName, GetOrCreatePc.find), (cacheName, GetOrCreatePc.find)] c).2.mainDataPrjs =
        TDataPrjMap.insert (cacheName, c.heap.length) c.mainDataPrjs := by
  simp [interleave, getOrCreateStep, h, allocate, emit, traceSince, dataConstructions,
    insert_insert_same _ _ _ _ h]

/-- C16, the code at the failing input: two threads call `data("orders")` on the sample client
for the first time, and their accesses alternate.  Two projections are constructed, at
addresses 0 and 1; the first thread returns the one at 0, the second the one at 1; the map
holds the one at 0. -/
theorem data_concurrent_first_access :
    (interleave [0, 1, 0, 1, 0, 1]
        [("orders", GetOrCreatePc.find), ("orders", GetOrCreatePc.find)] sampleClient).1 =
        [("orders", GetOrCreatePc.returned 0), ("orders", GetOrCreatePc.returned 1)] ∧
      dataConstructions (traceSince sampleClient (interleave [0, 1, 0, 1, 0, 1]
        [("orders", GetOrCreatePc.find), ("orders", GetOrCreatePc.find)] sampleClient).2) =
        [("orders", 0), ("orders", 1)] ∧
      (interleave [0, 1, 0, 1, 0, 1]
        [("orders", GetOrCreatePc.find), ("orders", GetOrCreatePc.find)]
        sampleClient).2.mainDataPrjs = [("orders", 0)] := by
  decide

end GridClientImpl

/-! ## Dispatch with callbacks that call back into the client -/

namespace GridClientImpl
variable {ω : Type}

/-- Registry calls read and write the listener list only. -/
theorem registryCalls_transport (calls : List RegistryCall) (c c0 : GridClientImpl ω)
    (h : c.topLsnrs = c0.topLsnrs) :
    registryCalls calls c =
      (registryCalls calls c0).map (fun c1 => { c with topLsnrs := c1.topLsnrs }) := by
  induction calls generalizing c c0 with
  | nil =>
    simp only [registryCalls, Option.map_some']
    rw [← h]
  | cons k ks ih =>
    cases k with
    | addTopologyListener l =>
      simp only [registryCalls]
      rw [ih (addTopologyListener l c) (addTopologyListener l c0)
        (by simp [addTopologyListener, h])]
      rfl
    | removeTopologyListener l =>
      simp only [registryCalls]
      by_cases hm : l ∈ c.topLsnrs
      · rw [removeTopologyListener_of_mem l c hm, removeTopologyListener_of_mem l c0 (h ▸ hm)]
        simp only []
        rw [ih { c with topLsnrs := c.topLsnrs.erase l }
          { c0 with topLsnrs := c0.topLsnrs.erase l } (by simp [h])]
      · rw [removeTopologyListener_of_not_mem l c hm,
          removeTopologyListener_of_not_mem l c0 (h ▸ hm)]
        rfl

theorem registryCalls_append (a b : List RegistryCall) (c : GridClientImpl ω) :
    registryCalls (a ++ b) c = (registryCalls a c).bind (registryCalls b) := by
  induction a generalizing c with
  | nil => rfl
  | cons k ks ih =>
    cases k with
    | addTopologyListener l =>
      simp only [List.cons_append, registryCalls]
      exact ih _
    | removeTopologyListener l =>
      simp only [List.cons_append, registryCalls]
      cases removeTopologyListener l c with
      | none => rfl
      | some c1 => exact ih c1

/-- Registry calls that all have a result do to the listener list what the specification says
of them: an addition appends, a removal takes the first entry away. -/
theorem registryCalls_topLsnrs {calls : List RegistryCall} {c c1 : GridClientImpl ω}
    (h : registryCalls calls c = some c1) : c1.topLsnrs = registryAfter c.topLsnrs calls := by
  induction calls generalizing c with
  | nil =>
    simp only [registryCalls, Option.some.injEq] at h
    rw [← h]
    rfl
  | cons k ks ih =>
    cases k with
    | addTopologyListener l =>
      simp only [registryCalls] at h
      exact ih h
    | removeTopologyListener l =>
      simp only [registryCalls] at h
      by_cases hm : l ∈ c.topLsnrs
      · rw [removeTopologyListener_of_mem l c hm] at h
        exact ih h
      · rw [removeTopologyListener_of_not_mem l c hm] at h
        cases h

end GridClientImpl

namespace Guarded
open GridClientImpl
variable {ω : Type}

/-- With the mutex free, the registry calls of a callback do what the same calls do on the
client, and leave the mutex free; the only way to have no result is an `erase(end())`. -/
theorem callAll_eq (calls : List RegistryCall) (s : Guarded ω) (hfree : s.topLsnrsMux = false) :
    callAll calls s =
      match s.client.registryCalls calls with
      | some c => Except.ok { s with client := c, completed := s.completed ++ calls }
      | none => Except.error Stuck.undefinedBehaviour := by
  induction calls generalizing s with
  | nil =>
    simp [callAll, registryCalls]
  | cons k ks ih =>
    cases k with
    | addTopologyListener l =>
      simp only [callAll, addTopologyListener, lock, hfree, Bool.false_eq_true, if_false,
        unlock, registryCalls]
      rw [ih _ rfl]
      simp only [List.append_assoc, List.singleton_append]
    | removeTopologyListener l =>
      simp only [callAll, removeTopologyListener, lock, hfree, Bool.false_eq_true, if_false,
        unlock, registryCalls]
      cases GridClientImpl.removeTopologyListener l s.client with
      | none => rfl
      | some c1 =>
        simp only []
        rw [ih _ rfl]
        simp only [List.append_assoc, List.singleton_append]

theorem callAll_ok (calls : List RegistryCall) (s : Guarded ω) (c : GridClientImpl ω)
    (hfree : s.topLsnrsMux = false) (h : s.client.registryCalls calls = some c) :
    callAll calls s = Except.ok { s with client := c, completed := s.completed ++ calls } := by
  rw [callAll_eq calls s hfree, h]

/-- Logging what a callback raised appends error records to the trace and changes nothing
else. -/
theorem logRaised_eq (raised : Option Thrown) (c : GridClientImpl ω) :
    ∃ lg, callbacks lg = [] ∧ (∀ e ∈ lg, Effect.isLogError e = true) ∧
      logRaised raised c = { c with trace := c.trace ++ lg } := by
  cases raised with
  | none => exact ⟨[], rfl, by simp, by simp [logRaised]⟩
  | some th =>
    cases th with
    | stdException what =>
      exact ⟨[Effect.logError ("Got exception from topology listener [what=" ++ what ++ "]")],
        rfl, by simp [Effect.isLogError], rfl⟩
    | other =>
      exact ⟨[Effect.logError "Got unknown exception from topology listener."], rfl,
        by simp [Effect.isLogError], rfl⟩

/-- The loop over the copy, with the mutex free and callbacks whose registry calls all have a
result: it returns; it invokes the callback of each entry of the copy, in order; the mutex is
free afterwards; and the listener list afterwards is the one that the registry calls made by
the callbacks, in order, produce from the list before; these calls are the calls that the
callbacks requested, all of them, in order. -/
theorem notify_spec
    (callback : ω → TGridClientTopologyListenerList → TGridClientTopologyListenerPtr →
      GridClientNode → CallbackRun × ω)
    (record : TGridClientTopologyListenerPtr → GridClientNode → Effect)
    (hrec : ∀ l n, Effect.isCallback (record l n) = true)
    (hdef : ∀ (c : GridClientImpl ω) (l : TGridClientTopologyListenerPtr) (n : GridClientNode),
      (c.registryCalls (callback c.world c.topLsnrs l n).1.calls).isSome = true)
    (node : GridClientNode) (ls : TGridClientTopologyListenerList) (s : Guarded ω)
    (hfree : s.topLsnrsMux = false) :
    ∃ (s' : Guarded ω) (t : List Effect) (calls : List RegistryCall) (c1 : GridClientImpl ω),
      notify callback record node ls s = Except.ok s' ∧ s'.topLsnrsMux = false ∧
        s'.client.trace = s.client.trace ++ t ∧
        callbacks t = ls.map (fun l => record l node) ∧
        s'.completed = s.completed ++ calls ∧
        s.client.registryCalls calls = some c1 ∧ s'.client.topLsnrs = c1.topLsnrs ∧
        calls = requestedCalls callback node ls s.client.world s.client.topLsnrs := by
  induction ls generalizing s with
  | nil =>
    exact ⟨s, [], [], s.client, rfl, hfree, by simp, rfl, by simp, rfl, rfl, rfl⟩
  | cons l ls ih =>
    simp only [notify]
    obtain ⟨cA, hcA⟩ := Option.isSome_iff_exists.1 (hdef s.client l node)
    generalize hr : callback s.client.world s.client.topLsnrs l node = r at hcA ⊢
    have h1 : registryCalls r.1.calls (emit (record l node) { s.client with world := r.2 }) =
        some { emit (record l node) { s.client with world := r.2 } with
          topLsnrs := cA.topLsnrs } := by
      rw [registryCalls_transport r.1.calls
        (emit (record l node) { s.client with world := r.2 }) s.client rfl, hcA]
      rfl
    rw [callAll_ok r.1.calls
      { s with client := emit (record l node) { s.client with world := r.2 } } _ hfree h1]
    simp only []
    obtain ⟨lg, hlg1, _, hlg2⟩ := logRaised_eq r.1.raised
      { emit (record l node) { s.client with world := r.2 } with topLsnrs := cA.topLsnrs }
    obtain ⟨s', t', ks', c1', e1, e2, e3, e4, e5, e6, e7, e8⟩ := ih
      { s with
        client := logRaised r.1.raised
          { emit (record l node) { s.client with world := r.2 } with topLsnrs := cA.topLsnrs }
        completed := s.completed ++ r.1.calls } hfree
    refine ⟨s', record l node :: lg ++ t', r.1.calls ++ ks',
      { cA with topLsnrs := c1'.topLsnrs }, e1, e2, ?_, ?_, ?_, ?_, e7, ?_⟩
    · rw [e3, hlg2]
      simp [emit]
    · have : callbacks (record l node :: lg ++ t') =
          record l node :: (callbacks lg ++ callbacks t') := by
        simp [callbacks, List.filter_cons, hrec, List.filter_append]
      rw [this, hlg1, e4]
      rfl
    · rw [e5, List.append_assoc]
    · rw [registryCalls_append, hcA]
      simp only [Option.some_bind]
      have hc0 := registryCalls_transport ks' cA
        (logRaised r.1.raised
          { emit (record l node) { s.client with world := r.2 } with topLsnrs := cA.topLsnrs })
        (by rw [hlg2])
      rw [hc0]
      have e6' : registryCalls ks' (logRaised r.1.raised
          { emit (record l node) { s.client with world := r.2 } with topLsnrs := cA.topLsnrs })
          = some c1' := e6
      rw [e6']
      rfl
    · have hw : (logRaised r.1.raised
          { emit (record l node) { s.client with world := r.2 } with
            topLsnrs := cA.topLsnrs }).world = r.2 := by
        rw [hlg2]
        rfl
      have ht : (logRaised r.1.raised
          { emit (record l node) { s.client with world := r.2 } with
            topLsnrs := cA.topLsnrs }).topLsnrs = registryAfter s.client.topLsnrs r.1.calls := by
        rw [hlg2]
        exact (registryCalls_topLsnrs hcA : cA.topLsnrs = _)
      have e8' : ks' = requestedCalls callback node ls
          (logRaised r.1.raised
            { emit (record l node) { s.client with world := r.2 } with
              topLsnrs := cA.topLsnrs }).world
          (logRaised r.1.raised
            { emit (record l node) { s.client with world := r.2 } with
              topLsnrs := cA.topLsnrs }).topLsnrs := e8
      rw [hw, ht] at e8'
      simp only [requestedCalls]
      rw [hr, ← e8']

/-- The body of `fireNodeAdded` and `fireNodeRemoved`, from a state with the mutex free: what
`notify_spec` says of the loop, for the listener list at the start. -/
theorem fire_spec
    (callback : ω → TGridClientTopologyListenerList → TGridClientTopologyListenerPtr →
      GridClientNode → CallbackRun × ω)
    (record : TGridClientTopologyListenerPtr → GridClientNode → Effect)
    (hrec : ∀ l n, Effect.isCallback (record l n) = true)
    (hdef : ∀ (c : GridClientImpl ω) (l : TGridClientTopologyListenerPtr) (n : GridClientNode),
      (c.registryCalls (callback c.world c.topLsnrs l n).1.calls).isSome = true)
    (node : GridClientNode) (s : Guarded ω) (hfree : s.topLsnrsMux = false) :
    ∃ (s' : Guarded ω) (c1 : GridClientImpl ω),
      fire callback record node s = Except.ok s' ∧ s'.topLsnrsMux = false ∧
        callbacks (traceSince s.client s'.client) =
          s.client.topLsnrs.map (fun l => record l node) ∧
        s'.completed = s.completed ++
          requestedCalls callback node s.client.topLsnrs s.client.world s.client.topLsnrs ∧
        s'.client.topLsnrs = registryAfter s.client.topLsnrs
          (requestedCalls callback node s.client.topLsnrs s.client.world s.client.topLsnrs) ∧
        s.client.registryCalls
          (requestedCalls callback node s.client.topLsnrs s.client.world s.client.topLsnrs) =
            some c1 ∧
        s'.client.topLsnrs = c1.topLsnrs := by
  obtain ⟨s', t, calls, c1, e1, e2, e3, e4, e5, e6, e7, e8⟩ :=
    notify_spec callback record hrec hdef node s.client.topLsnrs s hfree
  subst e8
  refine ⟨s', c1, ?_, e2, ?_, e5, e7.trans (registryCalls_topLsnrs e6), e6, e7⟩
  · simp only [fire, lock, hfree, Bool.false_eq_true, if_false, unlock]
    have : ({ client := s.client, topLsnrsMux := false, completed := s.completed } : Guarded ω)
        = s := by
      cases s
      simp_all
    rw [this]
    exact e1
  · rw [traceSince_of_trace_eq e3]
    exact e4

/-- The loop over the copy never blocks on the mutex, whatever the callbacks do: it runs with
the mutex free, and every registry call finds it free and leaves it free. -/
theorem notify_no_deadlock
    (callback : ω → TGridClientTopologyListenerList → TGridClientTopologyListenerPtr →
      GridClientNode → CallbackRun × ω)
    (record : TGridClientTopologyListenerPtr → GridClientNode → Effect) (node : GridClientNode)
    (ls : TGridClientTopologyListenerList) (s : Guarded ω) (hfree : s.topLsnrsMux = false) :
    notify callback record node ls s ≠ Except.error Stuck.deadlock := by
  induction ls generalizing s with
  | nil => simp [notify]
  | cons l ls ih =>
    simp only [notify]
    generalize callback s.client.world s.client.topLsnrs l node = r
    rw [callAll_eq r.1.calls
      { s with client := emit (record l node) { s.client with world := r.2 } } hfree]
    cases registryCalls r.1.calls (emit (record l node) { s.client with world := r.2 }) with
    | none => simp
    | some c => exact ih _ hfree

/-- Neither `fireNodeAdded` nor `fireNodeRemoved` blocks on the mutex when it is called with the
mutex free, whatever registry calls the callbacks make. -/
theorem fire_no_deadlock (R : ReentrantListeners ω) (node : GridClientNode) (s : Guarded ω)
    (hfree : s.topLsnrsMux = false) :
    fireNodeAdded R node s ≠ Except.error Stuck.deadlock ∧
      fireNodeRemoved R node s ≠ Except.error Stuck.deadlock := by
  constructor
  · simp only [fireNodeAdded, fire, lock, hfree, Bool.false_eq_true, if_false, unlock]
    exact notify_no_deadlock _ _ _ _ _ rfl
  · simp only [fireNodeRemoved, fire, lock, hfree, Bool.false_eq_true, if_false, unlock]
    exact notify_no_deadlock _ _ _ _ _ rfl

/-- With callbacks that make no registry call, the loop over the copy is the loop of
`notifyNodeAdded`. -/
theorem notify_ofCollaborators_added (W : Collaborators ω) (node : GridClientNode)
    (ls : TGridClientTopologyListenerList) (s : Guarded ω) :
    notify (ReentrantListeners.ofCollaborators W).onNodeAdded Effect.onNodeAdded node ls s =
      Except.ok { s with client := notifyNodeAdded W node ls s.client } := by
  induction ls generalizing s with
  | nil => rfl
  | cons l ls ih =>
    have hc : ∀ w reg l n, (ReentrantListeners.ofCollaborators W).onNodeAdded w reg l n =
        (⟨[], (W.onNodeAdded w l n).1⟩, (W.onNodeAdded w l n).2) := fun _ _ _ _ => rfl
    simp only [notify, hc, callAll, notifyNodeAdded]
    rw [ih]
    cases (W.onNodeAdded s.client.world l node).1 with
    | none => rfl
    | some th => cases th <;> rfl

/-- With callbacks that make no registry call, the loop over the copy is the loop of
`notifyNodeRemoved`. -/
theorem notify_ofCollaborators_removed (W : Collaborators ω) (node : GridClientNode)
    (ls : TGridClientTopologyListenerList) (s : Guarded ω) :
    notify (ReentrantListeners.ofCollaborators W).onNodeRemoved Effect.onNodeRemoved node ls s =
      Except.ok { s with client := notifyNodeRemoved W node ls s.client } := by
  induction ls generalizing s with
  | nil => rfl
  | cons l ls ih =>
    have hc : ∀ w reg l n, (ReentrantListeners.ofCollaborators W).onNodeRemoved w reg l n =
        (⟨[], (W.onNodeRemoved w l n).1⟩, (W.onNodeRemoved w l n).2) := fun _ _ _ _ => rfl
    simp only [notify, hc, callAll, notifyNodeRemoved]
    rw [ih]
    cases (W.onNodeRemoved s.client.world l node).1 with
    | none => rfl
    | some th => cases th <;> rfl

/-- The dispatch with the mutex agrees with `GridClientImpl.fireNodeAdded` and
`GridClientImpl.fireNodeRemoved` when the callbacks make no registry call. -/
theorem fire_ofCollaborators (W : Collaborators ω) (node : GridClientNode) (s : Guarded ω)
    (hfree : s.topLsnrsMux = false) :
    fireNodeAdded (ReentrantListeners.ofCollaborators W) node s =
        Except.ok { s with client := GridClientImpl.fireNodeAdded W node s.client } ∧
      fireNodeRemoved (ReentrantListeners.ofCollaborators W) node s =
        Except.ok { s with client := GridClientImpl.fireNodeRemoved W node s.client } := by
  constructor
  · simp only [fireNodeAdded, fire, lock, hfree, Bool.false_eq_true, if_false, unlock]
    rw [notify_ofCollaborators_added]
    rfl
  · simp only [fireNodeRemoved, fire, lock, hfree, Bool.false_eq_true, if_false, unlock]
    rw [notify_ofCollaborators_removed]
    rfl

/-- The next node event after a dispatch, of either kind: it notifies the listeners of the
list as the dispatch left it. -/
theorem fire_next (R : ReentrantListeners ω) (hR : R.RemovesRegistered) (s : Guarded ω)
    (hfree : s.topLsnrsMux = false) :
    (∀ next, ∃ s', fireNodeAdded R next s = Except.ok s' ∧
        callbacks (traceSince s.client s'.client) =
          s.client.topLsnrs.map (fun l => Effect.onNodeAdded l next)) ∧
      (∀ next, ∃ s', fireNodeRemoved R next s = Except.ok s' ∧
        callbacks (traceSince s.client s'.client) =
          s.client.topLsnrs.map (fun l => Effect.onNodeRemoved l next)) := by
  constructor
  · intro next
    obtain ⟨s', _, e1, _, e3, _⟩ := fire_spec R.onNodeAdded Effect.onNodeAdded
      (fun _ _ => rfl) (fun c l n => (hR c l n).1) next s hfree
    exact ⟨s', e1, e3⟩
  · intro next
    obtain ⟨s', _, e1, _, e3, _⟩ := fire_spec R.onNodeRemoved Effect.onNodeRemoved
      (fun _ _ => rfl) (fun c l n => (hR c l n).2) next s hfree
    exact ⟨s', e1, e3⟩

/-- The sample callbacks remove a listener only while it is registered. -/
theorem sampleReentrantListeners_removesRegistered :
    sampleReentrantListeners.RemovesRegistered := by
  intro c l n
  constructor
  · by_cases h1 : l = 1
    · simp [sampleReentrantListeners, h1, registryCalls]
    · by_cases h2 : l = 2
      · by_cases hm : 2 ∈ c.topLsnrs
        · simp [sampleReentrantListeners, h2, hm, registryCalls,
            removeTopologyListener_of_mem 2 c hm]
        · simp [sampleReentrantListeners, h2, hm, registryCalls]
      · simp [sampleReentrantListeners, h1, h2, registryCalls]
  · by_cases h3 : l = 3
    · by_cases hm : 1 ∈ c.topLsnrs
      · simp [sampleReentrantListeners, h3, hm, registryCalls,
          removeTopologyListener_of_mem 1 c hm]
      · simp [sampleReentrantListeners, h3, hm, registryCalls]
    · simp [sampleReentrantListeners, h3, registryCalls]

/-- C19 (copy before dispatch).  The callbacks may call `addTopologyListener` and
`removeTopologyListener` while they run, removing only listeners that are registered at that
moment.  Called with the mutex free, the dispatch of one node event (`fireNodeAdded` or
`fireNodeRemoved`) returns, with the mutex free again.  It invokes the callback of exactly the
entries that the listener list had when the dispatch started, in the order of the list.  The
registry calls that have completed during the dispatch are the calls that these callbacks
requested (`requestedCalls`), all of them and in their order; each of them had a result; and
the listener list afterwards is the list at the start with every requested addition appended
and every requested removal carried out, in that order (`registryAfter`).  The next node event,
of either kind, notifies the entries of that new list. -/
theorem fire_copy_before_dispatch (R : ReentrantListeners ω) (hR : R.RemovesRegistered)
    (node : GridClientNode) (s : Guarded ω) (hfree : s.topLsnrsMux = false) :
    (∃ (s' : Guarded ω) (c1 : GridClientImpl ω),
        fireNodeAdded R node s = Except.ok s' ∧ s'.topLsnrsMux = false ∧
        callbacks (traceSince s.client s'.client) =
          s.client.topLsnrs.map (fun l => Effect.onNodeAdded l node) ∧
        s'.completed = s.completed ++
          requestedCalls R.onNodeAdded node s.client.topLsnrs s.client.world
            s.client.topLsnrs ∧
        s'.client.topLsnrs = registryAfter s.client.topLsnrs
          (requestedCalls R.onNodeAdded node s.client.topLsnrs s.client.world
            s.client.topLsnrs) ∧
        s.client.registryCalls
          (requestedCalls R.onNodeAdded node s.client.topLsnrs s.client.world
            s.client.topLsnrs) = some c1 ∧
        s'.client.topLsnrs = c1.topLsnrs ∧
        (∀ next, ∃ s2, fireNodeAdded R next s' = Except.ok s2 ∧
          callbacks (traceSince s'.client s2.client) =
            s'.client.topLsnrs.map (fun l => Effect.onNodeAdded l next)) ∧
        (∀ next, ∃ s2, fireNodeRemoved R next s' = Except.ok s2 ∧
          callbacks (traceSince s'.client s2.client) =
            s'.client.topLsnrs.map (fun l => Effect.onNodeRemoved l next))) ∧
      (∃ (s' : Guarded ω) (c1 : GridClientImpl ω),
        fireNodeRemoved R node s = Except.ok s' ∧ s'.topLsnrsMux = false ∧
        callbacks (traceSince s.client s'.client) =
          s.client.topLsnrs.map (fun l => Effect.onNodeRemoved l node) ∧
        s'.completed = s.completed ++
          requestedCalls R.onNodeRemoved node s.client.topLsnrs s.client.world
            s.client.topLsnrs ∧
        s'.client.topLsnrs = registryAfter s.client.topLsnrs
          (requestedCalls R.onNodeRemoved node s.client.topLsnrs s.client.world
            s.client.topLsnrs) ∧
        s.client.registryCalls
          (requestedCalls R.onNodeRemoved node s.client.topLsnrs s.client.world
            s.client.topLsnrs) = some c1 ∧
        s'.client.topLsnrs = c1.topLsnrs ∧
        (∀ next, ∃ s2, fireNodeAdded R next s' = Except.ok s2 ∧
          callbacks (traceSince s'.client s2.client) =
            s'.client.topLsnrs.map (fun l => Effect.onNodeAdded l next)) ∧
        (∀ next, ∃ s2, fireNodeRemoved R next s' = Except.ok s2 ∧
          callbacks (traceSince s'.client s2.client) =
            s'.client.topLsnrs.map (fun l => Effect.onNodeRemoved l next))) := by
  constructor
  · obtain ⟨s', c1, e1, e2, e3, e4, e5, e6, e7⟩ := fire_spec R.onNodeAdded
      Effect.onNodeAdded (fun _ _ => rfl) (fun c l n => (hR c l n).1) node s hfree
    exact ⟨s', c1, e1, e2, e3, e4, e5, e6, e7, fire_next R hR s' e2⟩
  · obtain ⟨s', c1, e1, e2, e3, e4, e5, e6, e7⟩ := fire_spec R.onNodeRemoved
      Effect.onNodeRemoved (fun _ _ => rfl) (fun c l n => (hR c l n).2) node s hfree
    exact ⟨s', c1, e1, e2, e3, e4, e5, e6, e7, fire_next R hR s' e2⟩

/-- Witness of C19: on the sample client (listeners 1 and 2), the callback of listener 1
registers listener 3 and the callback of listener 2 removes listener 2, during the dispatch of
the node 4 that joined.  These two calls are the calls requested, and the calls completed; the
callbacks invoked are those of 1 and 2; the list afterwards is 1, 3; the next node event
invokes the callbacks of 1 and 3. -/
theorem fire_copy_before_dispatch_witness :
    sampleGuarded.topLsnrsMux = false ∧
      (∃ (s' : Guarded Nat) (c1 : GridClientImpl Nat),
        fireNodeAdded sampleReentrantListeners ⟨4, 0⟩ sampleGuarded = Except.ok s' ∧ s'.topLsnrsMux = false ∧
        callbacks (traceSince sampleGuarded.client s'.client) =
          sampleGuarded.client.topLsnrs.map (fun l => Effect.onNodeAdded l ⟨4, 0⟩) ∧
        s'.completed = sampleGuarded.completed ++
          requestedCalls sampleReentrantListeners.onNodeAdded ⟨4, 0⟩ sampleGuarded.client.topLsnrs sampleGuarded.client.world
            sampleGuarded.client.topLsnrs ∧
        s'.client.topLsnrs = registryAfter sampleGuarded.client.topLsnrs
          (requestedCalls sampleReentrantListeners.onNodeAdded ⟨4, 0⟩ sampleGuarded.client.topLsnrs sampleGuarded.client.world
            sampleGuarded.client.topLsnrs) ∧
        sampleGuarded.client.registryCalls
          (requestedCalls sampleReentrantListeners.onNodeAdded ⟨4, 0⟩ sampleGuarded.client.topLsnrs sampleGuarded.client.world
            sampleGuarded.client.topLsnrs) = some c1 ∧
        s'.client.topLsnrs = c1.topLsnrs ∧
        (∀ next, ∃ s2, fireNodeAdded sampleReentrantListeners next s' = Except.ok s2 ∧
          callbacks (traceSince s'.client s2.client) =
            s'.client.topLsnrs.map (fun l => Effect.onNodeAdded l next)) ∧
        (∀ next, ∃ s2, fireNodeRemoved sampleReentrantListeners next s' = Except.ok s2 ∧
          callbacks (traceSince s'.client s2.client) =
            s'.client.topLsnrs.map (fun l => Effect.onNodeRemoved l next))) ∧
      requestedCalls sampleReentrantListeners.onNodeAdded ⟨4, 0⟩ sampleGuarded.client.topLsnrs
          sampleGuarded.client.world sampleGuarded.client.topLsnrs =
        [RegistryCall.addTopologyListener 3, RegistryCall.removeTopologyListener 2] ∧
      (fireNodeAdded sampleReentrantListeners ⟨4, 0⟩ sampleGuarded).toOption.map
          (fun s' => (callbacks (traceSince sampleGuarded.client s'.client), s'.completed,
            s'.client.topLsnrs)) =
        some ([Effect.onNodeAdded 1 ⟨4, 0⟩, Effect.onNodeAdded 2 ⟨4, 0⟩],
          [RegistryCall.addTopologyListener 3, RegistryCall.removeTopologyListener 2],
          [1, 3]) ∧
      ((fireNodeAdded sampleReentrantListeners ⟨4, 0⟩ sampleGuarded).toOption.bind
          (fun s' => (fireNodeAdded sampleReentrantListeners ⟨5, 0⟩ s').toOption.map
            (fun s2 => (callbacks (traceSince s'.client s2.client),
              s2.client.topLsnrs)))) =
        some ([Effect.onNodeAdded 1 ⟨5, 0⟩, Effect.onNodeAdded 3 ⟨5, 0⟩], [1, 3, 3]) :=
  ⟨rfl,
    (fire_copy_before_dispatch sampleReentrantListeners
      sampleReentrantListeners_removesRegistered ⟨4, 0⟩ sampleGuarded rfl).1,
    by decide, by decide, by decide⟩

end Guarded

namespace GridClientImpl
variable {ω : Type}

/-! ## The map of data projections is iterated by key -/

/-- A `data` call keeps the map strictly ascending by key. -/
theorem isDataPrjMap_data (cacheName : String) (c : GridClientImpl ω)
    (h : IsDataPrjMap c.mainDataPrjs) : IsDataPrjMap (data cacheName c).2.mainDataPrjs := by
  unfold data
  cases hl : c.mainDataPrjs.lookup cacheName with
  | some p =>
    rw [getOrCreateDataProjection_hit hl]
    exact h
  | none =>
    rw [getOrCreateDataProjection_miss hl]
    exact isDataPrjMap_insert _ _ h

/-- The map of a client that the constructor returns is empty, and so well formed. -/
theorem isDataPrjMap_memberInit (cfg : GridClientConfiguration) (w : ω) :
    IsDataPrjMap (memberInit cfg w).mainDataPrjs :=
  List.Pairwise.nil

/-- An instance: after `data("orders")` and then `data("")`, the entry of the empty name comes
first in the map although it was created last, and `stop` invalidates it first. -/
theorem stop_in_key_order_example :
    (dataCalls ["orders", ""] sampleClient).1 = [0, 1] ∧
      (dataCalls ["orders", ""] sampleClient).2.mainDataPrjs = [("", 1), ("orders", 0)] ∧
      invalidateCalls (traceSince (dataCalls ["orders", ""] sampleClient).2
        (stop sampleCollaborators true (dataCalls ["orders", ""] sampleClient).2)) = [1, 0] := by
  decide

end GridClientImpl

end GridGain
